import Mathlib

/-!
# UNIX v6 file-system engine (u6fs): shallow embedding and verified properties

The C sources `sector.c`, `inode.c`, `filev6.c` and `direntv6.c` are embedded as Lean functions
with explicit state passing.

Conventions of the embedding.

* The backing image (`FILE *f`) is the list of its bytes. A transfer of one sector succeeds
  exactly when the 512 bytes addressed lie inside the image, and fails with `ERR_IO` otherwise.
* C integers are `Nat` or `Int`; a conversion to a narrower or unsigned type is written as an
  explicit remainder.
* A pointer argument through which the C code writes is a value passed in and returned.
  `M_REQUIRE_NON_NULL` never fires: every pointer of the embedding is valid.
* Behaviour the C standard leaves undefined (an access outside an array) is the outcome
  `Outcome.undefined`; a loop that has not finished when its fuel is used up gives `Outcome.nofuel`.
* The headers `unixv6fs.h`, `error.h`, `inode.h` and the bitmap module `bmblock.c` are not part
  of the sources at hand; what is needed from them is modelled from the specification and
  marked as such.
-/

namespace U6fs

/-! ## Constants and error codes -/

/-- Modelled from the spec: `unixv6fs.h` is missing; a sector has 512 bytes. -/
abbrev SECTOR_SIZE : Nat := 512

/-- Modelled from the spec: `unixv6fs.h` is missing; the root directory is inode 1, the
numbers below it are reserved. -/
abbrev ROOT_INUMBER : Nat := 1

/-- Modelled from the spec: `unixv6fs.h` is missing; an inode has 8 address slots, so the
direct capacity is `8 * 512 = 4096` bytes. -/
abbrev ADDR_SMALL_LENGTH : Nat := 8

/-- Modelled from the spec: `unixv6fs.h` is missing; a sector holds `512 / 2` 16-bit sector
numbers. -/
abbrev ADDRESSES_PER_SECTOR : Nat := 256

/-- Modelled from the spec: `unixv6fs.h` is missing; a sector holds `512 / 32` inode records. -/
abbrev INODES_PER_SECTOR : Nat := 16

/-- Modelled from the spec: `unixv6fs.h` is missing; the name field of a directory record has
14 bytes and the record 16. -/
abbrev DIRENT_MAXLEN : Nat := 14

/-- Modelled from the spec: `unixv6fs.h` is missing; `sizeof(struct direntv6)`. -/
abbrev DIRENT_SIZE : Nat := 16

/-- Modelled from the spec: `unixv6fs.h` is missing; `sizeof(struct inode)`. -/
abbrev INODE_SIZE : Nat := 32

/-- Modelled from the spec: `unixv6fs.h` is missing; the allocated bit of `i_mode`. -/
abbrev IALLOC : Nat := 0x8000

/-- Modelled from the spec: `unixv6fs.h` is missing; the directory-type bit of `i_mode`. -/
abbrev IFDIR : Nat := 0x4000

abbrev ERR_NONE : Int := 0

/-- Modelled from the spec: `error.h` is missing; the error kinds of the specification are
distinct negative codes (the sources test failure with `< 0`), numbered upwards from
`ERR_FIRST = -128`. -/
abbrev ERR_NOMEM : Int := -126

/-- Modelled from the spec: `error.h` is missing; I/O failure. -/
abbrev ERR_IO : Int := -125

/-- Modelled from the spec: `error.h` is missing; the boot sector does not carry the magic
value. -/
abbrev ERR_BAD_BOOT_SECTOR : Int := -124

/-- Modelled from the spec: `error.h` is missing; inode number out of range. -/
abbrev ERR_INODE_OUT_OF_RANGE : Int := -123

/-- Modelled from the spec: `error.h` is missing; filename too long. -/
abbrev ERR_FILENAME_TOO_LONG : Int := -122

/-- Modelled from the spec: `error.h` is missing; the inode is not a directory. -/
abbrev ERR_INVALID_DIRECTORY_INODE : Int := -121

/-- Modelled from the spec: `error.h` is missing; unallocated inode. -/
abbrev ERR_UNALLOCATED_INODE : Int := -120

/-- Modelled from the spec: `error.h` is missing; filename already exists. -/
abbrev ERR_FILENAME_ALREADY_EXISTS : Int := -119

/-- Modelled from the spec: `error.h` is missing; allocation exhausted. -/
abbrev ERR_BITMAP_FULL : Int := -118

/-- Modelled from the spec: `error.h` is missing; file too large. -/
abbrev ERR_FILE_TOO_LARGE : Int := -117

/-- Modelled from the spec: `error.h` is missing; offset out of range. -/
abbrev ERR_OFFSET_OUT_OF_RANGE : Int := -116

/-- Modelled from the spec: `error.h` is missing; bad parameter. -/
abbrev ERR_BAD_PARAMETER : Int := -115

/-- Modelled from the spec: `error.h` is missing; no such file. -/
abbrev ERR_NO_SUCH_FILE : Int := -114

/-- Modelled from the spec: `unixv6fs.h` is missing; the boot sector is the first sector of
the image. -/
abbrev BOOTBLOCK_SECTOR : Nat := 0

/-- Modelled from the spec: `unixv6fs.h` is missing; the superblock is the sector after the
boot sector. -/
abbrev SUPERBLOCK_SECTOR : Nat := 1

/-! ## Outcomes of C code that may leave defined behaviour -/

/-- The result of running a piece of C code: a value, undefined behaviour, or not finished
within the fuel given. -/
inductive Outcome (α : Type) where
  | ret (a : α) : Outcome α
  | undefined : Outcome α
  | nofuel : Outcome α
deriving DecidableEq

/-- The value of an outcome that is a result, `d` otherwise. -/
def Outcome.val {α : Type} (x : Outcome α) (d : α) : α :=
  match x with
  | .ret a => a
  | .undefined => d
  | .nofuel => d

/-- Sequencing of outcomes. -/
def Outcome.bind {α β : Type} (x : Outcome α) (k : α → Outcome β) : Outcome β :=
  match x with
  | .ret a => k a
  | .undefined => .undefined
  | .nofuel => .nofuel

/-! ## Sector I/O (`sector.c`) -/

/-- The backing image as the list of its bytes. -/
abbrev Disk := List Nat

/-- The byte offset `sector*SECTOR_SIZE` handed to `fseek`; `sector` is a `uint32_t`, so the
product is taken modulo `2^32`. -/
def sector_offset (sector : Nat) : Nat := (sector % 2 ^ 32 * SECTOR_SIZE) % 2 ^ 32

/-- `sector_read`: the 512 bytes at the sector, or `none` for `ERR_IO`. -/
def sector_read (f : Disk) (sector : Nat) : Option (List Nat) :=
  if sector_offset sector + SECTOR_SIZE ≤ f.length then
    some ((f.drop (sector_offset sector)).take SECTOR_SIZE)
  else none

/-- `sector_write`: the image with the first 512 bytes of `data` stored at the sector, or
`none` for `ERR_IO`. -/
def sector_write (f : Disk) (sector : Nat) (data : List Nat) : Option Disk :=
  if sector_offset sector + SECTOR_SIZE ≤ f.length then
    some (f.take (sector_offset sector)
      ++ (data ++ List.replicate SECTOR_SIZE 0).take SECTOR_SIZE
      ++ f.drop (sector_offset sector + SECTOR_SIZE))
  else none

/-! ## Bitmaps (`bmblock.c`, not part of the sources at hand) -/

/-- Modelled from the spec: `bmblock.c` is missing; a bit-vector over the values
`min, min+1, ...`, bit `k` of `bits` standing for the value `min + k`. -/
structure bmblock_array where
  min : Nat
  bits : List Bool
deriving DecidableEq

/-- Modelled from the spec: `bmblock.c` is missing; a bitmap over `[min, max]` with no bit set. -/
def bm_alloc (min max : Nat) : bmblock_array :=
  { min := min, bits := List.replicate (max + 1 - min) false }

/-- Modelled from the spec: `bmblock.c` is missing; "find first free": the least value whose
bit is clear, or the allocation-exhausted error when every bit is set. -/
def bm_find_next (bm : bmblock_array) : Int :=
  if bm.bits.indexOf false < bm.bits.length then ((bm.min + bm.bits.indexOf false : Nat) : Int)
  else ERR_BITMAP_FULL

/-- Modelled from the spec: `bmblock.c` is missing; "mark used": sets the bit of `x`, a value
outside the range is ignored. -/
def bm_set (bm : bmblock_array) (x : Nat) : bmblock_array :=
  if bm.min ≤ x ∧ x - bm.min < bm.bits.length then
    { bm with bits := bm.bits.set (x - bm.min) true }
  else bm

/-- The bit of `x` is clear: `x` lies in the range of the bitmap and is free. -/
def bm_isfree (bm : bmblock_array) (x : Nat) : Bool :=
  decide (bm.min ≤ x) && (bm.bits.getD (x - bm.min) true == false)

/-! ## The mounted file system and its records -/

/-- Modelled from the spec: `unixv6fs.h` is missing; the superblock fields (all `uint16_t`,
the four flags `uint8_t`), as `utils_print_superblock` prints them. -/
structure superblock where
  s_isize : Nat
  s_fsize : Nat
  s_fbmsize : Nat
  s_ibmsize : Nat
  s_inode_start : Nat
  s_block_start : Nat
  s_fbm_start : Nat
  s_ibm_start : Nat
  s_flock : Nat
  s_ilock : Nat
  s_fmod : Nat
  s_ronly : Nat
  s_time : List Nat
deriving DecidableEq

/-- `struct unix_filesystem`: the image, the superblock and the two bitmaps. -/
structure unix_filesystem where
  f : Disk
  s : superblock
  fbm : bmblock_array
  ibm : bmblock_array
deriving DecidableEq

/-- Modelled from the spec: `unixv6fs.h` is missing; `struct inode`, 32 bytes: `i_mode`
(16 bits), `i_nlink`, `i_uid`, `i_gid`, `i_size0` (8 bits each, `utils_print_inode` prints them
as such), `i_size1` (16 bits), 8 address slots and two 2-word timestamps (16 bits each). -/
structure inode where
  i_mode : Nat
  i_nlink : Nat
  i_uid : Nat
  i_gid : Nat
  i_size0 : Nat
  i_size1 : Nat
  i_addr : List Nat
  i_atime : List Nat
  i_mtime : List Nat
deriving DecidableEq

/-- The inode `memset` to zero. -/
def inode_zero : inode :=
  { i_mode := 0, i_nlink := 0, i_uid := 0, i_gid := 0, i_size0 := 0, i_size1 := 0,
    i_addr := List.replicate ADDR_SMALL_LENGTH 0, i_atime := [0, 0], i_mtime := [0, 0] }

/-- Byte `k` of a buffer as an unsigned 8-bit value. -/
def byte_at (bs : List Nat) (k : Nat) : Nat := bs.getD k 0 % 256

/-- The little-endian 16-bit value at bytes `k`, `k+1` of a buffer. -/
def le16 (bs : List Nat) (k : Nat) : Nat := byte_at bs k + 256 * byte_at bs (k + 1)

/-- The two bytes of a 16-bit value, low byte first. -/
def enc16 (x : Nat) : List Nat := [x % 256, x / 256 % 256]

/-- The inode record held in 32 bytes (the `memcpy` out of an inode sector). -/
def decode_inode (bs : List Nat) : inode :=
  { i_mode := le16 bs 0, i_nlink := byte_at bs 2, i_uid := byte_at bs 3, i_gid := byte_at bs 4,
    i_size0 := byte_at bs 5, i_size1 := le16 bs 6,
    i_addr := (List.range ADDR_SMALL_LENGTH).map (fun k => le16 bs (8 + 2 * k)),
    i_atime := [le16 bs 24, le16 bs 26], i_mtime := [le16 bs 28, le16 bs 30] }

/-- The 32 bytes of an inode record (the `memcpy` into an inode sector). -/
def encode_inode (i : inode) : List Nat :=
  enc16 i.i_mode ++ [i.i_nlink % 256, i.i_uid % 256, i.i_gid % 256, i.i_size0 % 256]
    ++ enc16 i.i_size1
    ++ (List.range ADDR_SMALL_LENGTH).flatMap (fun k => enc16 (i.i_addr.getD k 0))
    ++ enc16 (i.i_atime.getD 0 0) ++ enc16 (i.i_atime.getD 1 0)
    ++ enc16 (i.i_mtime.getD 0 0) ++ enc16 (i.i_mtime.getD 1 0)

/-- Modelled from the spec: `inode.h` is missing; `inode_getsize` recombines the size from its
two stored parts, `i_size0` (8 bits) above `i_size1` (16 bits). -/
def inode_getsize (i : inode) : Nat := (i.i_size0 % 256) * 65536 + i.i_size1 % 65536

/-- `struct filev6` without its pointer to the file system, which is passed alongside. -/
structure filev6 where
  i_number : Nat
  i_node : inode
  offset : Int
deriving DecidableEq

/-! ## Inodes (`inode.c`) -/

/-- `inode_read`; `inode0` is the content of `*inode` on entry, returned as it is when the
function fails before its `memcpy`. -/
def inode_read (u : unix_filesystem) (inr : Nat) (inode0 : inode) : Int × inode :=
  if inr < ROOT_INUMBER ∨ inr ≥ u.s.s_isize * INODES_PER_SECTOR then
    (ERR_INODE_OUT_OF_RANGE, inode0)
  else
    match sector_read u.f (u.s.s_inode_start + inr / INODES_PER_SECTOR) with
    | none => ( ERR_IO, inode0)
    | some sec =>
      let i := decode_inode ((sec.drop (INODE_SIZE * (inr % INODES_PER_SECTOR))).take INODE_SIZE)
      if i.i_mode &&& IALLOC = 0 then (ERR_UNALLOCATED_INODE, i) else (ERR_NONE, i)

/-- `inode_findsector`. The index into `i_addr` is below 8 in both branches that use it. The
product `file_sec_off*SECTOR_SIZE` of the range check is taken exactly: with the `int`
arithmetic of C it is representable for every `file_sec_off` below `2^22`, which covers the
offsets of every file (sizes are below `2^24`) and every call in the sources; from `2^22` on
the product overflows, which `inode_findsector_c` below makes explicit. -/
def inode_findsector (u : unix_filesystem) (i : inode) (file_sec_off : Int) : Int :=
  let size_file : Int := inode_getsize i
  if i.i_mode &&& IALLOC = 0 then ERR_UNALLOCATED_INODE
  else if file_sec_off < 0 ∨ file_sec_off * SECTOR_SIZE ≥ size_file then ERR_OFFSET_OUT_OF_RANGE
  else if size_file < ADDR_SMALL_LENGTH * SECTOR_SIZE then
    (i.i_addr.getD file_sec_off.toNat 0 : Nat)
  else if size_file < (ADDR_SMALL_LENGTH - 1) * ADDRESSES_PER_SECTOR * SECTOR_SIZE then
    match sector_read u.f (i.i_addr.getD (file_sec_off.toNat / ADDRESSES_PER_SECTOR) 0) with
    | none => ERR_IO
    | some data_addresses => (le16 data_addresses (2 * (file_sec_off.toNat % ADDRESSES_PER_SECTOR)) : Nat)
  else ERR_FILE_TOO_LARGE

/-- `inode_findsector` with the `int` arithmetic of its range check: `file_sec_off` is an
`int32_t` and the product `file_sec_off*SECTOR_SIZE`, evaluated when the inode is allocated
and `file_sec_off` is not negative, is an `int` product; when it leaves the range of `int`,
that is from `file_sec_off = 2^22` on, the signed overflow is undefined behaviour. Below
`2^22` this is `inode_findsector`. -/
def inode_findsector_c (u : unix_filesystem) (i : inode) (file_sec_off : Int) : Outcome Int :=
  let size_file : Int := inode_getsize i
  if i.i_mode &&& IALLOC = 0 then .ret ERR_UNALLOCATED_INODE
  else if file_sec_off < 0 then .ret ERR_OFFSET_OUT_OF_RANGE
  else if file_sec_off * SECTOR_SIZE ≥ 2 ^ 31 then .undefined
  else if file_sec_off * SECTOR_SIZE ≥ size_file then .ret ERR_OFFSET_OUT_OF_RANGE
  else if size_file < ADDR_SMALL_LENGTH * SECTOR_SIZE then
    .ret (i.i_addr.getD file_sec_off.toNat 0 : Nat)
  else if size_file < (ADDR_SMALL_LENGTH - 1) * ADDRESSES_PER_SECTOR * SECTOR_SIZE then
    match sector_read u.f (i.i_addr.getD (file_sec_off.toNat / ADDRESSES_PER_SECTOR) 0) with
    | none => .ret ERR_IO
    | some data_addresses =>
      .ret (le16 data_addresses (2 * (file_sec_off.toNat % ADDRESSES_PER_SECTOR)) : Nat)
  else .ret ERR_FILE_TOO_LARGE

/-- `inode_write`. -/
def inode_write (u : unix_filesystem) (inr : Nat) (i : inode) : Int × unix_filesystem :=
  if inr < ROOT_INUMBER ∨ inr ≥ u.s.s_isize * INODES_PER_SECTOR then
    (ERR_INODE_OUT_OF_RANGE, u)
  else
    match sector_read u.f (u.s.s_inode_start + inr / INODES_PER_SECTOR) with
    | none => ( ERR_IO, u)
    | some sec =>
      match sector_write u.f (u.s.s_inode_start + inr / INODES_PER_SECTOR)
          (sec.take (INODE_SIZE * (inr % INODES_PER_SECTOR)) ++ encode_inode i
            ++ sec.drop (INODE_SIZE * (inr % INODES_PER_SECTOR) + INODE_SIZE)) with
      | none => ( ERR_IO, u)
      | some f1 => (ERR_NONE, { u with f := f1 })

/-- `inode_alloc`. -/
def inode_alloc (u : unix_filesystem) : Int × unix_filesystem :=
  let inr := bm_find_next u.ibm
  if inr < ROOT_INUMBER then (inr, u)
  else (inr, { u with ibm := bm_set u.ibm inr.toNat })

/-- `inode_setsize`; `i_size0` keeps the low 8 bits of `new_size >> 16`. -/
def inode_setsize (i : inode) (new_size : Int) : Int × inode :=
  if new_size < 0 then (ERR_BAD_PARAMETER, i)
  else (ERR_NONE, { i with i_size0 := (new_size.toNat / 65536) % 256,
                           i_size1 := new_size.toNat % 65536 })

/-! ## File handles (`filev6.c`) -/

/-- Conversion of a C integer to `uint32_t`. -/
def to_u32 (x : Int) : Nat := (x % 2 ^ 32).toNat

/-- Conversion of a C integer to `int32_t` (two's complement). -/
def to_i32 (x : Int) : Int := (x + 2 ^ 31) % 2 ^ 32 - 2 ^ 31

/-- The handle `struct filev6 fv6 = {0}`. -/
def filev6_zero : filev6 := { i_number := 0, i_node := inode_zero, offset := 0 }

/-- `filev6_open`; `fv0` is the content of `*fv6` on entry. -/
def filev6_open (u : unix_filesystem) (inr : Nat) (fv0 : filev6) : Int × filev6 :=
  let r := inode_read u inr fv0.i_node
  if r.1 ≠ ERR_NONE then (r.1, { fv0 with i_node := r.2 })
  else (ERR_NONE, { i_number := inr, i_node := r.2, offset := 0 })

/-- `filev6_readblock`; returns the code or byte count, the handle and the content of `buf`
(`buf0` on entry). The count is the `uint32_t bytes_to_read` converted to `int`. -/
def filev6_readblock (u : unix_filesystem) (fv6 : filev6) (buf0 : List Nat) :
    Int × filev6 × List Nat :=
  let file_size := inode_getsize fv6.i_node
  if to_u32 fv6.offset = file_size then (0, fv6, buf0)
  else
    let sector_id := inode_findsector u fv6.i_node (Int.tdiv fv6.offset SECTOR_SIZE)
    if sector_id < 0 then (sector_id, fv6, buf0)
    else
      match sector_read u.f sector_id.toNat with
      | none => ( ERR_IO, fv6, buf0)
      | some data =>
        let bytes_to_read : Nat :=
          if to_u32 (fv6.offset + SECTOR_SIZE) ≤ file_size then SECTOR_SIZE
          else to_u32 (file_size - fv6.offset)
        (to_i32 bytes_to_read, { fv6 with offset := to_i32 (fv6.offset + bytes_to_read) }, data)

/-- `filev6_lseek`; `offset` is an `int32_t` and `file_size` a `size_t`, so in the comparisons
`offset == file_size` and `offset > file_size` the offset is converted to `size_t`, that is
taken modulo `2^64`; `offset%SECTOR_SIZE` is the remainder of the truncating division. -/
def filev6_lseek (fv6 : filev6) (offset : Int) : Int × filev6 :=
  let file_size := inode_getsize fv6.i_node
  if (offset % 2 ^ 64).toNat = file_size then (ERR_NONE, { fv6 with offset := offset })
  else if Int.tmod offset SECTOR_SIZE ≠ 0 then (ERR_BAD_PARAMETER, fv6)
  else if offset < 0 ∨ (offset % 2 ^ 64).toNat > file_size then (ERR_OFFSET_OUT_OF_RANGE, fv6)
  else (ERR_NONE, { fv6 with offset := offset })

/-- `filev6_create`; `mode` is a `uint16_t`, the `int` returned by `inode_alloc` is converted
to the `uint16_t` parameter of `inode_write`. -/
def filev6_create (u : unix_filesystem) (mode : Nat) (fv0 : filev6) :
    Int × unix_filesystem × filev6 :=
  let a := inode_alloc u
  if a.1 < ROOT_INUMBER then (a.1, a.2, fv0)
  else
    let i : inode := { inode_zero with i_mode := IALLOC ||| mode }
    let w := inode_write a.2 (a.1.toNat % 65536) i
    if w.1 ≠ ERR_NONE then (w.1, w.2, fv0)
    else (ERR_NONE, w.2, { i_number := a.1.toNat % 65536, i_node := i, offset := 0 })

/-- `filev6_writesector`; the arguments are `size_t`, `size_file` is below `2^32` at the only
call. An index into `i_addr` outside the 8 slots and a `memcpy` that reads past the end of
`buf` are undefined. -/
def filev6_writesector (u : unix_filesystem) (fv6 : filev6) (buf : List Nat)
    (len left_to_write bytes_writen size_file : Nat) : Outcome (Int × unix_filesystem × filev6) :=
  if size_file % SECTOR_SIZE ≠ 0 then
    let nb_bytes := if SECTOR_SIZE - size_file % SECTOR_SIZE < len
      then SECTOR_SIZE - size_file % SECTOR_SIZE else len
    if size_file / SECTOR_SIZE < ADDR_SMALL_LENGTH then
      match sector_read u.f (fv6.i_node.i_addr.getD (size_file / SECTOR_SIZE) 0) with
      | none => .ret ( ERR_IO, u, fv6)
      | some sector_to_fill =>
        if nb_bytes ≤ buf.length then
          match sector_write u.f (fv6.i_node.i_addr.getD (size_file / SECTOR_SIZE) 0)
              (sector_to_fill.take (size_file % SECTOR_SIZE) ++ buf.take nb_bytes
                ++ sector_to_fill.drop (size_file % SECTOR_SIZE + nb_bytes)) with
          | none => .ret ( ERR_IO, u, fv6)
          | some f1 => .ret ((nb_bytes : Int), { u with f := f1 }, fv6)
        else .undefined
    else .undefined
  else
    let nb_bytes := if left_to_write ≥ SECTOR_SIZE then SECTOR_SIZE else left_to_write
    let added_sector_id := bm_find_next u.fbm
    if added_sector_id < u.s.s_block_start then .ret (added_sector_id, u, fv6)
    else
      let u1 : unix_filesystem := { u with fbm := bm_set u.fbm added_sector_id.toNat }
      if bytes_writen + nb_bytes ≤ buf.length then
        match sector_write u1.f added_sector_id.toNat
            ((buf.drop bytes_writen).take nb_bytes ++ List.replicate (SECTOR_SIZE - nb_bytes) 0) with
        | none => .ret ( ERR_IO, u1, fv6)
        | some f1 =>
          if size_file / SECTOR_SIZE < ADDR_SMALL_LENGTH then
            .ret ((nb_bytes : Int), { u1 with f := f1 },
              { fv6 with i_node := { fv6.i_node with
                  i_addr := fv6.i_node.i_addr.set (size_file / SECTOR_SIZE)
                    (added_sector_id.toNat % 65536) } })
          else .undefined
      else .undefined

/-- The `while(left_to_write != 0)` loop of `filev6_writebytes`. The `int` returned by
`filev6_writesector` is stored in the `size_t nb_bytes`, so the test `nb_bytes < 0` of the
source never holds; the counters are `size_t` and `size_file` a `uint32_t`. -/
def filev6_writebytes_loop (buf : List Nat) (len : Nat) :
    Nat → unix_filesystem → filev6 → Nat → Nat → Nat → Outcome (unix_filesystem × filev6 × Nat)
  | 0, u, fv6, left_to_write, _, size_file =>
    if left_to_write = 0 then .ret (u, fv6, size_file) else .nofuel
  | fuel + 1, u, fv6, left_to_write, bytes_writen, size_file =>
    if left_to_write = 0 then .ret (u, fv6, size_file)
    else
      (filev6_writesector u fv6 buf len left_to_write bytes_writen size_file).bind fun r =>
        filev6_writebytes_loop buf len fuel r.2.1 r.2.2
          ((left_to_write + (2 ^ 64 - (r.1 % 2 ^ 64).toNat)) % 2 ^ 64)
          ((bytes_writen + (r.1 % 2 ^ 64).toNat) % 2 ^ 64)
          ((size_file + (r.1 % 2 ^ 64).toNat) % 2 ^ 32)

/-- `filev6_writebytes`; `fuel` bounds the iterations of its loop. -/
def filev6_writebytes (fuel : Nat) (u : unix_filesystem) (fv6 : filev6) (buf : List Nat)
    (len : Nat) : Outcome (Int × unix_filesystem × filev6) :=
  let size_file := inode_getsize fv6.i_node
  if (size_file + len) % 2 ^ 64 > (ADDR_SMALL_LENGTH - 1) * ADDRESSES_PER_SECTOR * SECTOR_SIZE then
    .ret (ERR_FILE_TOO_LARGE, u, fv6)
  else if (size_file + len) % 2 ^ 64 ≥ ADDR_SMALL_LENGTH * SECTOR_SIZE then
    .ret (ERR_FILE_TOO_LARGE, u, fv6)
  else
    (filev6_writebytes_loop buf len fuel u fv6 len 0 size_file).bind fun r =>
      let s := inode_setsize r.2.1.i_node (to_i32 r.2.2)
      if s.1 ≠ ERR_NONE then .ret (s.1, r.1, { r.2.1 with i_node := s.2 })
      else
        let w := inode_write r.1 r.2.1.i_number s.2
        if w.1 ≠ ERR_NONE then .ret (w.1, w.2, { r.2.1 with i_node := s.2 })
        else .ret (ERR_NONE, w.2, { r.2.1 with i_node := s.2 })

/-- Reading a whole file as the claims describe it: `filev6_readblock` is called until it
returns 0 or an error, and the first `count` bytes of each block are concatenated. Returns
the last code and the bytes. -/
def filev6_readall_loop (u : unix_filesystem) : Nat → filev6 → Outcome (Int × filev6 × List Nat)
  | 0, _ => .nofuel
  | fuel + 1, fv6 =>
    let r := filev6_readblock u fv6 (List.replicate SECTOR_SIZE 0)
    if r.1 ≤ 0 then .ret (r.1, r.2.1, [])
    else
      (filev6_readall_loop u fuel r.2.1).bind fun t =>
        .ret (t.1, t.2.1, r.2.2.take r.1.toNat ++ t.2.2)

/-- Reading a whole file from the current offset of the handle; a file of `s` bytes needs at
most `s / 512 + 2` calls. -/
def filev6_readall (u : unix_filesystem) (fv6 : filev6) : Outcome (Int × filev6 × List Nat) :=
  filev6_readall_loop u (inode_getsize fv6.i_node / SECTOR_SIZE + 2) fv6

/-! ## Directories (`direntv6.c`) -/

/-- Modelled from the spec: `direntv6.h` is missing; `struct directory_reader`: the handle,
the buffer of one sector of directory records, and the cursor `cur` up to `last`. -/
structure directory_reader where
  fv6 : filev6
  dirs : List Nat
  cur : Nat
  last : Nat
deriving DecidableEq

/-- The reader `struct directory_reader d = {0}`. -/
def directory_reader_zero : directory_reader :=
  { fv6 := filev6_zero, dirs := List.replicate SECTOR_SIZE 0, cur := 0, last := 0 }

/-- Modelled from the spec: `unixv6fs.h` is missing; record `k` of a buffer of directory
records: the 14-byte name field followed by the 16-bit inode number. This is the name field. -/
def dirent_name (dirs : List Nat) (k : Nat) : List Nat :=
  (List.range DIRENT_MAXLEN).map (fun j => byte_at dirs (DIRENT_SIZE * k + j))

/-- Modelled from the spec: `unixv6fs.h` is missing; the inode number of record `k`. -/
def dirent_inumber (dirs : List Nat) (k : Nat) : Nat := le16 dirs (DIRENT_SIZE * k + DIRENT_MAXLEN)

/-- The characters of a C string held in a buffer: the bytes before the first NUL. -/
def cstr (s : List Nat) : List Nat := s.takeWhile (fun c => c != 0)

/-- `strlen`. -/
def strlen (s : List Nat) : Nat := (cstr s).length

/-- `strncpy(dst, src, n)` into a zeroed or fresh buffer of at least `n` bytes: the `n` bytes
written, the characters of `src` (at most `n`) padded with NUL. -/
def strncpy (src : List Nat) (n : Nat) : List Nat :=
  (cstr src).take n ++ List.replicate (n - ((cstr src).take n).length) 0

/-- `strncmp`: the difference of the first bytes that differ within the first `n`, 0 when
there is none before a common NUL. A byte past the end of a list reads as NUL. -/
def strncmp : List Nat → List Nat → Nat → Int
  | _, _, 0 => 0
  | a, b, n + 1 =>
    if a.headD 0 ≠ b.headD 0 then (a.headD 0 : Int) - (b.headD 0 : Int)
    else if a.headD 0 = 0 then 0
    else strncmp a.tail b.tail n

/-- `direntv6_opendir`; `d0` is the content of `*d` on entry. -/
def direntv6_opendir (u : unix_filesystem) (inr : Nat) (d0 : directory_reader) :
    Int × directory_reader :=
  let r := filev6_open u inr filev6_zero
  if r.1 ≠ ERR_NONE then (r.1, d0)
  else if r.2.i_node.i_mode &&& IFDIR = 0 then (ERR_INVALID_DIRECTORY_INODE, d0)
  else (ERR_NONE, { fv6 := r.2, dirs := List.replicate SECTOR_SIZE 0, cur := 0, last := 0 })

/-- The tail of `direntv6_readdir` once a record is available: copies the name and the inode
number of record `cur` and advances the cursor. Returns `SUCCESS = 1`. -/
def direntv6_readdir_take (d : directory_reader) : Int × directory_reader × List Nat × Nat :=
  (1, { d with cur := if d.cur < d.last then d.cur + 1 else d.cur },
    strncpy (dirent_name d.dirs d.cur) DIRENT_MAXLEN, dirent_inumber d.dirs d.cur)

/-- `direntv6_readdir`; `name0` and `child0` are the contents of `name` and `*child_inr` on
entry. The `name` returned is the 14 bytes that `strncpy` writes. -/
def direntv6_readdir (u : unix_filesystem) (d : directory_reader) (name0 : List Nat)
    (child0 : Nat) : Int × directory_reader × List Nat × Nat :=
  if d.cur = d.last then
    let r := filev6_readblock u d.fv6 d.dirs
    if r.1 < 0 then (r.1, { d with cur := 0, fv6 := r.2.1, dirs := r.2.2 }, name0, child0)
    else if r.1.toNat / DIRENT_SIZE = 0 then
      (ERR_NONE, { fv6 := r.2.1, dirs := r.2.2, cur := 0, last := 0 }, name0, child0)
    else
      direntv6_readdir_take { fv6 := r.2.1, dirs := r.2.2, cur := 0, last := r.1.toNat / DIRENT_SIZE }
  else direntv6_readdir_take d

/-- The `do ... while (read > 0 && strncmp(repertory_name, name, DIRENT_MAXLEN))` loop of
`direntv6_dirlookup_core`: returns the last `read` and `newInr`. -/
def direntv6_dirlookup_scan (u : unix_filesystem) (repertory_name : List Nat) :
    Nat → directory_reader → List Nat → Nat → Outcome (Int × Nat)
  | 0, _, _, _ => .nofuel
  | fuel + 1, d, name, newInr =>
    let r := direntv6_readdir u d name newInr
    if r.1 < 0 then .ret (r.1, r.2.2.2)
    else if r.1 > 0 ∧ strncmp repertory_name r.2.2.1 DIRENT_MAXLEN ≠ 0 then
      direntv6_dirlookup_scan u repertory_name fuel r.2.1 r.2.2.1 r.2.2.2
    else .ret (r.1, r.2.2.2)

/-- `a - b` on `size_t`. -/
def size_t_sub (a b : Nat) : Nat := (a + (2 ^ 64 - b % 2 ^ 64)) % 2 ^ 64

/-- `direntv6_dirlookup_core`; `entry` holds the characters at the pointer (a NUL follows
them), `'/'` is 47. The first argument bounds the depth of the recursion. Storing the
character with `pos ≥ DIRENT_MAXLEN+1` leaves the array `repertory_name` and is undefined.
A directory of `s` bytes is scanned with at most `s / 16 + 1` calls of `direntv6_readdir`. -/
def direntv6_dirlookup_core (u : unix_filesystem) :
    Nat → Nat → List Nat → Nat → Outcome Int
  | 0, _, _, _ => .nofuel
  | fuel + 1, inr, entry, len =>
    if len = 0 then .ret (inr : Int)
    else
      let entry1 := entry.dropWhile (fun c => c == 47)
      let new_len1 := size_t_sub len (entry.takeWhile (fun c => c == 47)).length
      if strlen entry1 = 0 then .ret (inr : Int)
      else
        let pos := (entry1.takeWhile (fun c => c != 47 && c != 0)).length
        if pos > DIRENT_MAXLEN + 1 then .undefined
        else
          let repertory_name := entry1.take pos ++ List.replicate (DIRENT_MAXLEN + 1 - pos) 0
          let o := direntv6_opendir u inr directory_reader_zero
          if o.1 ≠ ERR_NONE then .ret o.1
          else
            (direntv6_dirlookup_scan u repertory_name
                (inode_getsize o.2.fv6.i_node / DIRENT_SIZE + 2) o.2
                (List.replicate DIRENT_MAXLEN 0) 0).bind fun r =>
              if r.1 < 0 then .ret r.1
              else if r.1 = 0 then .ret ERR_NO_SUCH_FILE
              else direntv6_dirlookup_core u fuel r.2 (entry1.drop pos) (size_t_sub new_len1 pos)

/-- `direntv6_dirlookup`; every recursive call of the core consumes a character, so
`strlen(entry) + 1` levels are enough. -/
def direntv6_dirlookup (u : unix_filesystem) (inr : Nat) (entry : List Nat) : Outcome Int :=
  direntv6_dirlookup_core u (strlen entry + 1) inr entry (strlen entry)

/-- The index of the last `'/'` of a string (`strrchr`), if there is one. -/
def strrchr_slash (s : List Nat) : Option Nat :=
  if 47 ∈ s then some (s.length - 1 - s.reverse.indexOf 47) else none

/-- The second half of `direntv6_create`, from `filev6_create` on: allocates the child inode,
builds the directory record with `strncpy(direntv6.d_name, start_relativ, n)`, where
`n = len - len_parent`, and appends it to the parent directory. `strncpy` writes `n` bytes
into the 14-byte field `d_name`, which is undefined for `n > DIRENT_MAXLEN`. -/
def direntv6_create_append (fuel : Nat) (u : unix_filesystem) (mode : Nat)
    (start_relativ : List Nat) (n : Nat) (parent_inr : Int) : Outcome (Int × unix_filesystem) :=
  let c := filev6_create u mode filev6_zero
  if c.1 ≠ ERR_NONE then .ret (c.1, c.2.1)
  else if n > DIRENT_MAXLEN then .undefined
  else
    let direntv6 := strncpy start_relativ n ++ List.replicate (DIRENT_MAXLEN - n) 0
      ++ enc16 c.2.2.i_number
    let p := inode_read c.2.1 (parent_inr.toNat % 65536) inode_zero
    (filev6_writebytes fuel c.2.1
        { i_number := parent_inr.toNat % 65536, i_node := p.2, offset := 0 }
        direntv6 DIRENT_SIZE).bind fun w =>
      if w.1 ≠ ERR_NONE then .ret (w.1, w.2.1)
      else .ret ((c.2.2.i_number : Int), w.2.1)

/-- `direntv6_create`; `fuel` bounds the loop of `filev6_writebytes`. `calloc` is taken to
succeed. The loop that strips trailing slashes reads `entry[-1]` when the string has no other
character, which is undefined. The part from `filev6_create` on is
`direntv6_create_append`. -/
def direntv6_create (fuel : Nat) (u : unix_filesystem) (entry : List Nat) (mode : Nat) :
    Outcome (Int × unix_filesystem) :=
  let len := ((cstr entry).reverse.dropWhile (fun c => c == 47)).length
  if len = 0 then .undefined
  else
    let temp_entry := strncpy entry len
    let len_parent := (strrchr_slash temp_entry).getD 0
    let start_relativ := match strrchr_slash temp_entry with
      | none => temp_entry
      | some k => temp_entry.drop (k + 1)
    if strlen start_relativ > DIRENT_MAXLEN then .ret (ERR_FILENAME_TOO_LONG, u)
    else
      let parent_path := strncpy temp_entry len_parent
      (direntv6_dirlookup u ROOT_INUMBER parent_path).bind fun parent_inr =>
        if parent_inr < ROOT_INUMBER then .ret (ERR_NO_SUCH_FILE, u)
        else
          (direntv6_dirlookup u ROOT_INUMBER entry).bind fun inr_if_exists =>
            if inr_if_exists ≥ ROOT_INUMBER then .ret (ERR_FILENAME_ALREADY_EXISTS, u)
            else direntv6_create_append fuel u mode start_relativ (len - len_parent) parent_inr

/-- Listing a directory as the claims describe it: `direntv6_readdir` is called until it
returns 0 or an error; returns the last code and the pairs (name, inode number) read. -/
def direntv6_listall_loop (u : unix_filesystem) :
    Nat → directory_reader → Outcome (Int × List (List Nat × Nat))
  | 0, _ => .nofuel
  | fuel + 1, d =>
    let r := direntv6_readdir u d (List.replicate DIRENT_MAXLEN 0) 0
    if r.1 ≤ 0 then .ret (r.1, [])
    else
      (direntv6_listall_loop u fuel r.2.1).bind fun t =>
        .ret (t.1, (r.2.2.1, r.2.2.2) :: t.2)

/-- Opening a directory with `direntv6_opendir` and listing it. -/
def direntv6_listall (u : unix_filesystem) (inr : Nat) : Outcome (Int × List (List Nat × Nat)) :=
  let o := direntv6_opendir u inr directory_reader_zero
  if o.1 ≠ ERR_NONE then .ret (o.1, [])
  else direntv6_listall_loop u (inode_getsize o.2.fv6.i_node / DIRENT_SIZE + 2) o.2

/-- The non-empty `'/'`-delimited segments of a path, in order. -/
def segments (p : List Nat) : List (List Nat) :=
  ((cstr p).splitOn 47).filter (fun s => !s.isEmpty)

/-! ## Mounting (`mount.c`) -/

/-- Modelled from the spec: `unixv6fs.h` is missing; the superblock as it lies in its sector:
the eight 16-bit fields, the four 8-bit flags and the two words of the time, packed in the
order in which `utils_print_superblock` prints them. -/
def decode_superblock (bs : List Nat) : superblock :=
  { s_isize := le16 bs 0, s_fsize := le16 bs 2, s_fbmsize := le16 bs 4, s_ibmsize := le16 bs 6,
    s_inode_start := le16 bs 8, s_block_start := le16 bs 10, s_fbm_start := le16 bs 12,
    s_ibm_start := le16 bs 14, s_flock := byte_at bs 16, s_ilock := byte_at bs 17,
    s_fmod := byte_at bs 18, s_ronly := byte_at bs 19, s_time := [le16 bs 20, le16 bs 22] }

/-- The file system after `memset(u, 0, sizeof(*u))` and `fopen`: the image, a zeroed
superblock and no bitmaps. -/
def unix_filesystem_zero (f : Disk) : unix_filesystem :=
  { f := f, s := decode_superblock [], fbm := { min := 0, bits := [] },
    ibm := { min := 0, bits := [] } }

/-- The `while((sector_nbr = inode_findsector(u, &inode, offset)) > 0)` loop of `mountv6` for
one inode: marks the sectors of the file in the sector bitmap. The first argument bounds the
iterations. -/
def mountv6_walk (i : inode) (size_file : Int) : Nat → unix_filesystem → Int → Outcome unix_filesystem
  | 0, _, _ => .nofuel
  | fuel + 1, u, offset =>
    let sector_nbr := inode_findsector u i offset
    if sector_nbr > 0 then
      let u1 : unix_filesystem :=
        if size_file > ADDR_SMALL_LENGTH * SECTOR_SIZE ∧ Int.tmod offset ADDRESSES_PER_SECTOR = 0 then
          { u with
            fbm := bm_set u.fbm (i.i_addr.getD (Int.tdiv offset ADDRESSES_PER_SECTOR).toNat 0) }
        else u
      mountv6_walk i size_file fuel { u1 with fbm := bm_set u1.fbm sector_nbr.toNat }
        (to_i32 (offset + 1))
    else .ret u

/-- The `for(uint16_t inr = ROOT_INUMBER; inr < s_isize*INODES_PER_SECTOR; inr++)` loop of
`mountv6`; the counter is a `uint16_t`, so the increment is taken modulo `2^16`. When
`inode_read` fails before its `memcpy` the local `inode` is uninitialised: `junk inr` stands
for the value it then holds. A file of `s` bytes is walked in at most `s / 512 + 2` steps. The
first argument bounds the iterations. -/
def mountv6_scan (junk : Nat → inode) : Nat → unix_filesystem → Nat → Outcome unix_filesystem
  | 0, _, _ => .nofuel
  | fuel + 1, u, inr =>
    if inr < u.s.s_isize * INODES_PER_SECTOR then
      let r := inode_read u inr (junk inr)
      (if r.1 ≠ ERR_UNALLOCATED_INODE then
          mountv6_walk r.2 (inode_getsize r.2) (inode_getsize r.2 / SECTOR_SIZE + 2)
            { u with ibm := bm_set u.ibm inr } 0
        else .ret u).bind fun u1 => mountv6_scan junk fuel u1 ((inr + 1) % 65536)
    else .ret u

/-- `mountv6` on the image `f` (`fopen` and the allocation of the bitmaps are taken to
succeed). The offset and the value of the magic byte of the boot sector,
`BOOTBLOCK_MAGIC_NUM_OFFSET` and `BOOTBLOCK_MAGIC_NUM`, are in the missing `unixv6fs.h` and are
parameters. Returns the code and the file system as the call leaves it. -/
def mountv6 (magic_offset magic : Nat) (junk : Nat → inode) (fuel : Nat) (f : Disk) :
    Outcome (Int × unix_filesystem) :=
  match sector_read f BOOTBLOCK_SECTOR with
  | none => .ret ( ERR_IO, unix_filesystem_zero f)
  | some data =>
    if byte_at data magic_offset ≠ magic then .ret (ERR_BAD_BOOT_SECTOR, unix_filesystem_zero f)
    else
      match sector_read f SUPERBLOCK_SECTOR with
      | none => .ret ( ERR_IO, unix_filesystem_zero f)
      | some sb =>
        let s := decode_superblock sb
        let u : unix_filesystem :=
          { f := f, s := s,
            ibm := bm_alloc ROOT_INUMBER (s.s_isize * INODES_PER_SECTOR + ROOT_INUMBER - 1),
            fbm := bm_alloc s.s_block_start s.s_fsize }
        (mountv6_scan junk fuel u ROOT_INUMBER).bind fun u1 => .ret (ERR_NONE, u1)

/-! ## Notions used to state the properties -/

/-- The bytes stored at sector `a` of the image. -/
def sector_data (f : Disk) (a : Nat) : List Nat := (f.drop (sector_offset a)).take SECTOR_SIZE

/-- The content of a file of `size` bytes whose data sectors are the address slots `addrs`
(direct addressing): byte `j` is byte `j % 512` of the sector in slot `j / 512`. -/
def file_content (f : Disk) (addrs : List Nat) (size : Nat) : List Nat :=
  (List.range size).map fun j =>
    (sector_data f (addrs.getD (j / SECTOR_SIZE) 0)).getD (j % SECTOR_SIZE) 0

/-- The first `n` address slots hold pairwise different sectors that lie inside the image and
are marked used in the sector bitmap `bm`. -/
def blocks_used (f : Disk) (bm : bmblock_array) (addrs : List Nat) (n : Nat) : Prop :=
  (∀ k, k < n → bm.min ≤ addrs.getD k 0 ∧ bm.bits.getD (addrs.getD k 0 - bm.min) false = true ∧
      (addrs.getD k 0 + 1) * SECTOR_SIZE ≤ f.length) ∧
  (∀ k, k < n → ∀ j, j < k → addrs.getD j 0 ≠ addrs.getD k 0)

/-- The layout a mounted image is expected to have: the inode table ends before the data
region, the sector bitmap starts in the data region and covers 16-bit sector numbers only,
and every sector it reports free lies inside the image. -/
def layout_ok (u : unix_filesystem) : Prop :=
  u.s.s_inode_start + u.s.s_isize ≤ u.s.s_block_start ∧ u.s.s_block_start ≤ u.fbm.min ∧
  u.fbm.min + u.fbm.bits.length ≤ 65536 ∧
  (∀ k, k < u.fbm.bits.length → u.fbm.bits.getD k true = false →
      (u.fbm.min + k + 1) * SECTOR_SIZE ≤ u.f.length)

instance (f : Disk) (bm : bmblock_array) (addrs : List Nat) (n : Nat) :
    Decidable (blocks_used f bm addrs n) := by
  unfold blocks_used; infer_instance

instance (u : unix_filesystem) : Decidable (layout_ok u) := by
  unfold layout_ok; infer_instance

/-- An inode record whose fields have the widths of `struct inode`: 16 bits for the mode, the
low part of the size, the addresses and the words of the times, 8 bits for the link count, the
owner, the group and the high part of the size, with 8 address slots and 2 words per time. -/
def inode_wf (i : inode) : Prop :=
  i.i_mode < 65536 ∧ i.i_nlink < 256 ∧ i.i_uid < 256 ∧ i.i_gid < 256 ∧ i.i_size0 < 256
    ∧ i.i_size1 < 65536 ∧ i.i_addr.length = ADDR_SMALL_LENGTH ∧ (∀ a ∈ i.i_addr, a < 65536)
    ∧ i.i_atime.length = 2 ∧ (∀ a ∈ i.i_atime, a < 65536)
    ∧ i.i_mtime.length = 2 ∧ (∀ a ∈ i.i_mtime, a < 65536)

instance (i : inode) : Decidable (inode_wf i) := by
  unfold inode_wf; infer_instance

/-- Every allocated directory inode has a size that is a multiple of the size of a directory
record. -/
def dir_sizes_ok (u : unix_filesystem) : Prop :=
  ∀ inr, (inode_read u inr inode_zero).1 = ERR_NONE →
    (inode_read u inr inode_zero).2.i_mode &&& IFDIR ≠ 0 →
    DIRENT_SIZE ∣ inode_getsize (inode_read u inr inode_zero).2

/-! ## A small image on which the theorems are instantiated -/

/-- A sector holding `bytes` followed by zeros. -/
def ex_sector (bytes : List Nat) : List Nat := bytes ++ List.replicate (SECTOR_SIZE - bytes.length) 0

/-- The directory record of `name` and `inr`. -/
def ex_dirent (name : List Nat) (inr : Nat) : List Nat :=
  name ++ List.replicate (DIRENT_MAXLEN - name.length) 0 ++ enc16 inr

/-- A directory inode of one record stored in sector `a`. -/
def ex_dir_inode (a : Nat) : inode :=
  { inode_zero with i_mode := IALLOC ||| IFDIR, i_size1 := 16, i_addr := [a, 0, 0, 0, 0, 0, 0, 0] }

/-- The inode of the file `/a/b/c`: 3 bytes in sector 6. -/
def ex_file_inode : inode :=
  { inode_zero with i_mode := IALLOC, i_size1 := 3, i_addr := [6, 0, 0, 0, 0, 0, 0, 0] }

/-- The superblock of the example: one sector of inodes at sector 2, data from sector 3 to 15. -/
def ex_superblock : superblock :=
  { s_isize := 1, s_fsize := 15, s_fbmsize := 0, s_ibmsize := 0, s_inode_start := 2,
    s_block_start := 3, s_fbm_start := 0, s_ibm_start := 0, s_flock := 0, s_ilock := 0,
    s_fmod := 0, s_ronly := 0, s_time := [0, 0] }

/-- The image of the example, 16 sectors: boot sector, superblock, the inode table, the
directories `/` (inode 1, sector 3), `/a` (inode 2, sector 4), `/a/b` (inode 3, sector 5), the
file `/a/b/c` (inode 4, sector 6, bytes 1 2 3) and 9 unused data sectors. -/
def ex_disk : Disk :=
  List.replicate (2 * SECTOR_SIZE) 0
    ++ ex_sector (List.replicate INODE_SIZE 0 ++ encode_inode (ex_dir_inode 3)
        ++ encode_inode (ex_dir_inode 4) ++ encode_inode (ex_dir_inode 5)
        ++ encode_inode ex_file_inode)
    ++ ex_sector (ex_dirent [97] 2) ++ ex_sector (ex_dirent [98] 3) ++ ex_sector (ex_dirent [99] 4)
    ++ ex_sector [1, 2, 3] ++ List.replicate (9 * SECTOR_SIZE) 0

/-- The example as mounted: sectors 3 to 6 and inodes 1 to 4 are marked used. -/
def ex_fs : unix_filesystem :=
  { f := ex_disk, s := ex_superblock,
    fbm := { min := 3, bits := [true, true, true, true] ++ List.replicate 9 false },
    ibm := { min := 1, bits := [true, true, true, true] ++ List.replicate 12 false } }

/-- A handle on the file `/a/b/c` of the example. -/
def ex_file : filev6 := { i_number := 4, i_node := ex_file_inode, offset := 0 }

/-- The example with no free sector left in the sector bitmap. -/
def ex_full_fs : unix_filesystem :=
  { ex_fs with fbm := { min := 3, bits := List.replicate 13 true } }

/-- The inode of a file of exactly 4096 bytes: slot 0 holds the indirect sector 4. -/
def ex_ind_inode : inode :=
  { inode_zero with i_mode := IALLOC, i_size1 := 4096, i_addr := [4, 0, 0, 0, 0, 0, 0, 0] }

/-- An image of 16 sectors with a file at the direct threshold. Sector 0 is the boot sector
with the magic value 213 at offset 510, sector 1 the superblock (one sector of inodes at
sector 2, data sectors 3 to 15), inode 1 the root directory (sector 3, one record `f` for
inode 2) and inode 2 a file of 4096 bytes whose indirect sector 4 lists the data sectors 5
to 12. -/
def ex_ind_disk : Disk :=
  ex_sector (List.replicate 510 0 ++ [213])
    ++ ex_sector (enc16 1 ++ enc16 15 ++ enc16 0 ++ enc16 0 ++ enc16 2 ++ enc16 3)
    ++ ex_sector (List.replicate INODE_SIZE 0 ++ encode_inode (ex_dir_inode 3)
        ++ encode_inode ex_ind_inode)
    ++ ex_sector (ex_dirent [102] 2)
    ++ ex_sector (enc16 5 ++ enc16 6 ++ enc16 7 ++ enc16 8 ++ enc16 9 ++ enc16 10 ++ enc16 11
        ++ enc16 12)
    ++ List.replicate (11 * SECTOR_SIZE) 7

/-! ## Path resolution over the list of segments -/

/-- The lookup of one segment in the directory `inr`, as one round of
`direntv6_dirlookup_core` does it: the error code returned, or the inode number of the first
record whose name matches `seg`. -/
def lookup_segment (u : unix_filesystem) (inr : Nat) (seg : List Nat) : Outcome (Except Int Nat) :=
  if seg.length > DIRENT_MAXLEN + 1 then .undefined
  else
    let o := direntv6_opendir u inr directory_reader_zero
    if o.1 ≠ ERR_NONE then .ret (.error o.1)
    else
      (direntv6_dirlookup_scan u (seg ++ List.replicate (DIRENT_MAXLEN + 1 - seg.length) 0)
          (inode_getsize o.2.fv6.i_node / DIRENT_SIZE + 2) o.2
          (List.replicate DIRENT_MAXLEN 0) 0).bind fun r =>
        if r.1 < 0 then .ret (.error r.1)
        else if r.1 = 0 then .ret (.error ERR_NO_SUCH_FILE)
        else .ret (.ok r.2)

/-- Resolution of a list of segments from the inode `inr`: each segment is looked up in the
inode reached so far; with no segment the result is the starting inode. -/
def resolve (u : unix_filesystem) : Nat → List (List Nat) → Outcome Int
  | inr, [] => .ret (inr : Int)
  | inr, seg :: rest =>
    match lookup_segment u inr seg with
    | .ret (.error e) => .ret e
    | .ret (.ok c) => resolve u c rest
    | .undefined => .undefined
    | .nofuel => .nofuel

/-! ## The FUSE adapter (`u6fs_fuse.c`) -/

/-- The loop of `fs_read`: `l` is the `size_t` byte count and `out` the bytes stored in the
caller's buffer so far, counted from its start. Each call of `filev6_readblock` gets the
pointer `buf + l` and stores a whole sector there; the loop goes on while the last count is
positive and `l < size`. Returns the `int` the function returns and the bytes stored. -/
def fs_read_loop (u : unix_filesystem) (size : Nat) :
    Nat → filev6 → Nat → List Nat → Outcome (Int × List Nat)
  | 0, _, _, _ => .nofuel
  | fuel + 1, fv6, l, out =>
    let r := filev6_readblock u fv6 (out.drop l)
    let out1 := out.take l ++ r.2.2
    if r.1 < 0 then .ret (r.1, out1)
    else
      let l1 := (l + r.1.toNat) % 2 ^ 64
      if r.1 > 0 ∧ l1 < size then fs_read_loop u size fuel r.2.1 l1 out1
      else .ret (to_i32 l1, out1)

/-- `fs_read`: the path is resolved from the root, the inode opened (`fv0` is the content of
the uninitialised handle), the offset (an `off_t`, converted to the `int32_t` parameter of
`filev6_lseek`) is set, and the loop reads; `fuel` bounds the iterations of the loop. -/
def fs_read (fuel : Nat) (u : unix_filesystem) (fv0 : filev6) (path : List Nat) (size : Nat)
    (offset : Int) : Outcome (Int × List Nat) :=
  (direntv6_dirlookup u ROOT_INUMBER path).bind fun inr =>
    if inr < 0 then .ret (inr, [])
    else
      let o := filev6_open u (inr.toNat % 65536) fv0
      if o.1 ≠ ERR_NONE then .ret (o.1, [])
      else
        let s := filev6_lseek o.2 (to_i32 offset)
        if s.1 ≠ ERR_NONE then .ret (s.1, [])
        else fs_read_loop u size fuel s.2 0 []

/-- An image whose superblock announces `s_isize = 4096` inode sectors, that is
`4096*INODES_PER_SECTOR = 65536` inodes: a valid boot sector, the superblock, and fourteen
more sectors. -/
def ex_wrap_disk : Disk :=
  ex_sector (List.replicate 510 0 ++ [213])
    ++ ex_sector (enc16 4096 ++ enc16 15 ++ enc16 0 ++ enc16 0 ++ enc16 2 ++ enc16 3)
    ++ List.replicate (14 * SECTOR_SIZE) 0
/-! ## Sequences of calls on an open handle -/

/-- A call on an open handle: `filev6_lseek` with its offset, or `filev6_readblock`. -/
inductive file_call where
  | lseek (offset : Int)
  | readblock
deriving DecidableEq

/-- The handle after one call, whatever code the call returned. -/
def file_call_apply (u : unix_filesystem) (fv6 : filev6) : file_call → filev6
  | .lseek offset => (filev6_lseek fv6 offset).2
  | .readblock => (filev6_readblock u fv6 (List.replicate SECTOR_SIZE 0)).2.1

/-- The handle after a sequence of calls. -/
def file_calls_apply (u : unix_filesystem) (fv6 : filev6) (cs : List file_call) : filev6 :=
  cs.foldl (file_call_apply u) fv6

/-- Consecutive `filev6_readblock` calls up to the first result that is not positive: that
last code, and the sum of the counts returned before it. -/
def filev6_readcount (u : unix_filesystem) : Nat → filev6 → Outcome (Int × Int)
  | 0, _ => .nofuel
  | fuel + 1, fv6 =>
    let r := filev6_readblock u fv6 (List.replicate SECTOR_SIZE 0)
    if r.1 ≤ 0 then .ret (r.1, 0)
    else (filev6_readcount u fuel r.2.1).bind fun t => .ret (t.1, r.1 + t.2)

/-- The offset invariant of a handle: the offset lies between 0 and the size of the inode, and
it is a multiple of `SECTOR_SIZE` or equal to the size. -/
def offset_inv (fv6 : filev6) : Prop :=
  0 ≤ fv6.offset ∧ fv6.offset ≤ (inode_getsize fv6.i_node : Int)
    ∧ (((SECTOR_SIZE : Nat) : Int) ∣ fv6.offset ∨ fv6.offset = (inode_getsize fv6.i_node : Int))

/-- A directory inode of 255 records (4080 bytes) in the sectors 4 and 7 to 13. -/
def ex_big_dir_inode : inode :=
  { inode_zero with i_mode := IALLOC ||| IFDIR, i_size1 := 4080,
                    i_addr := [4, 7, 8, 9, 10, 11, 12, 13] }

/-- The image of the example with the directory `/a` grown to 255 records: its first record
is `b`, the others have an empty name. -/
def ex_big_disk : Disk :=
  List.replicate (2 * SECTOR_SIZE) 0
    ++ ex_sector (List.replicate INODE_SIZE 0 ++ encode_inode (ex_dir_inode 3)
        ++ encode_inode ex_big_dir_inode ++ encode_inode (ex_dir_inode 5)
        ++ encode_inode ex_file_inode)
    ++ ex_sector (ex_dirent [97] 2) ++ ex_sector (ex_dirent [98] 3) ++ ex_sector (ex_dirent [99] 4)
    ++ ex_sector [1, 2, 3] ++ List.replicate (9 * SECTOR_SIZE) 0

/-- The image `ex_big_disk` as mounted: sectors 3 to 13 and inodes 1 to 4 are marked used. -/
def ex_big_fs : unix_filesystem :=
  { f := ex_big_disk, s := ex_superblock,
    fbm := { min := 3, bits := List.replicate 11 true ++ [false, false] },
    ibm := { min := 1, bits := [true, true, true, true] ++ List.replicate 12 false } }

/-- An empty directory inode. -/
def ex_empty_dir_inode : inode := { inode_zero with i_mode := IALLOC ||| IFDIR }

/-- The image of the example with the directory `/a/b` (inode 3) empty. -/
def ex_stuck_disk : Disk :=
  List.replicate (2 * SECTOR_SIZE) 0
    ++ ex_sector (List.replicate INODE_SIZE 0 ++ encode_inode (ex_dir_inode 3)
        ++ encode_inode (ex_dir_inode 4) ++ encode_inode ex_empty_dir_inode
        ++ encode_inode ex_file_inode)
    ++ ex_sector (ex_dirent [97] 2) ++ ex_sector (ex_dirent [98] 3) ++ ex_sector (ex_dirent [99] 4)
    ++ ex_sector [1, 2, 3] ++ List.replicate (9 * SECTOR_SIZE) 0

/-- The image `ex_stuck_disk` mounted with no free sector left in the sector bitmap; the
inodes 1 to 4 are marked used. -/
def ex_stuck_fs : unix_filesystem :=
  { f := ex_stuck_disk, s := ex_superblock,
    fbm := { min := 3, bits := List.replicate 13 true },
    ibm := { min := 1, bits := [true, true, true, true] ++ List.replicate 12 false } }

/-! # Verified properties -/

/-! ## Lists: replacing a window -/

theorem length_window {α : Type} (l d : List α) (b n : Nat) (hd : d.length = n)
    (hb : b + n ≤ l.length) : (l.take b ++ d ++ l.drop (b + n)).length = l.length := by
  simp only [List.length_append, List.length_take, List.length_drop, hd]
  omega

theorem getElem?_window {α : Type} (l d : List α) (b n : Nat) (hd : d.length = n)
    (hb : b + n ≤ l.length) (i : Nat) :
    (l.take b ++ d ++ l.drop (b + n))[i]? =
      if i < b then l[i]? else if i < b + n then d[i - b]? else l[i]? := by
  have hlt : (l.take b).length = b := by simp only [List.length_take]; omega
  by_cases h1 : i < b
  · simp only [h1, if_true]
    rw [List.append_assoc, List.getElem?_append_left (by omega)]
    rw [List.getElem?_take_of_lt h1]
  · simp only [h1, if_false]
    rw [List.append_assoc, List.getElem?_append_right (by omega), hlt]
    by_cases h2 : i < b + n
    · simp only [h2, if_true]
      rw [List.getElem?_append_left (by omega)]
    · simp only [h2, if_false]
      rw [List.getElem?_append_right (by omega), List.getElem?_drop, hd]
      congr 1
      omega

theorem sector_offset_mod (n : Nat) : sector_offset n % 512 = 0 := by
  simp only [sector_offset, SECTOR_SIZE]
  omega

theorem sector_offset_small (n : Nat) (h : n < 2 ^ 23) : sector_offset n = n * 512 := by
  simp only [sector_offset, SECTOR_SIZE] at *
  omega

/-! ## Sector transfers -/

theorem take_pad_sector (d : List Nat) (hd : d.length = 512) :
    (d ++ List.replicate 512 0).take 512 = d := by
  rw [List.take_append_of_le_length (by omega), List.take_of_length_le (by omega)]

theorem sector_read_length {f : Disk} {n : Nat} {d : List Nat} (h : sector_read f n = some d) :
    d.length = 512 := by
  unfold sector_read at h
  split at h
  · rename_i hle
    injection h with h
    subst h
    simp only [SECTOR_SIZE, List.length_take, List.length_drop] at *
    omega
  · exact absurd h (by simp)

theorem sector_read_eq_some {f : Disk} {n : Nat} (h : sector_offset n + 512 ≤ f.length) :
    sector_read f n = some ((f.drop (sector_offset n)).take 512) := by
  unfold sector_read
  rw [if_pos h]

theorem sector_read_some_bound {f : Disk} {n : Nat} {d : List Nat} (h : sector_read f n = some d) :
    sector_offset n + 512 ≤ f.length := by
  unfold sector_read at h
  split at h
  · assumption
  · exact absurd h (by simp)

theorem sector_write_length {f f1 : Disk} {n : Nat} {d : List Nat}
    (h : sector_write f n d = some f1) : f1.length = f.length := by
  unfold sector_write at h
  split at h
  · rename_i hle
    injection h with h
    subst h
    apply length_window
    · simp only [List.length_take, List.length_append, List.length_replicate]
      omega
    · exact hle
  · exact absurd h (by simp)

theorem sector_write_eq_some {f : Disk} {n : Nat} (d : List Nat)
    (h : sector_offset n + 512 ≤ f.length) :
    ∃ f1, sector_write f n d = some f1 := by
  unfold sector_write
  rw [if_pos h]
  exact ⟨_, rfl⟩

theorem sector_write_some_bound {f f1 : Disk} {n : Nat} {d : List Nat}
    (h : sector_write f n d = some f1) : sector_offset n + 512 ≤ f.length := by
  unfold sector_write at h
  split at h
  · assumption
  · exact absurd h (by simp)

theorem sector_read_write_same {f f1 : Disk} {n : Nat} {d : List Nat}
    (h : sector_write f n d = some f1) (hd : d.length = 512) :
    sector_read f1 n = some d := by
  have hb := sector_write_some_bound h
  have hl := sector_write_length h
  rw [sector_read_eq_some (by omega)]
  unfold sector_write at h
  rw [if_pos hb, take_pad_sector d hd] at h
  injection h with h
  subst h
  congr 1
  apply List.ext_getElem?
  intro i
  rw [List.getElem?_take, List.getElem?_drop, getElem?_window _ _ _ _ hd hb]
  by_cases hi : i < 512
  · rw [if_pos hi, if_neg (by omega), if_pos (by omega)]
    congr 1
    omega
  · rw [if_neg hi]
    rw [List.getElem?_eq_none (by omega)]

theorem sector_read_write_other {f f1 : Disk} {n m : Nat} {d : List Nat}
    (h : sector_write f n d = some f1) (hne : sector_offset m ≠ sector_offset n) :
    sector_read f1 m = sector_read f m := by
  have hb := sector_write_some_bound h
  have hl := sector_write_length h
  have h1 : sector_offset m % 512 = 0 := sector_offset_mod m
  have h2 : sector_offset n % 512 = 0 := sector_offset_mod n

  unfold sector_read
  rw [hl]
  split
  · rename_i hm
    congr 1
    unfold sector_write at h
    rw [if_pos hb] at h
    injection h with h
    subst h
    apply List.ext_getElem?
    intro i
    rw [List.getElem?_take, List.getElem?_take, List.getElem?_drop, List.getElem?_drop,
      getElem?_window _ _ _ 512 (by simp) hb]
    by_cases hi : i < 512
    · rw [if_pos hi, if_pos hi]
      by_cases hlt : sector_offset m + i < sector_offset n
      · rw [if_pos hlt]
      · rw [if_neg hlt, if_neg (by omega)]
    · rw [if_neg hi, if_neg hi]
  · rfl

/-! ## Bitmaps -/

theorem count_false_pos_mem (bits : List Bool) (h : 0 < bits.count false) : false ∈ bits := by
  exact List.count_pos_iff.mp h

theorem count_false_set (bits : List Bool) (k : Nat) (hk : k < bits.length)
    (hf : bits.getD k true = false) :
    (bits.set k true).count false + 1 = bits.count false := by
  induction bits generalizing k with
  | nil => simp at hk
  | cons b bs ih =>
    cases k with
    | zero =>
      simp only [List.getD_cons_zero] at hf
      subst hf
      simp
    | succ k =>
      simp only [List.getD_cons_succ] at hf
      simp only [List.length_cons, Nat.add_lt_add_iff_right] at hk
      have := ih k hk hf
      simp only [List.set_cons_succ, List.count_cons]
      omega

theorem bm_find_next_spec (bm : bmblock_array) (h : 0 < bm.bits.count false) :
    ∃ k, k < bm.bits.length ∧ bm.bits.getD k true = false ∧
      bm_find_next bm = ((bm.min + k : Nat) : Int) := by
  have hmem := count_false_pos_mem _ h
  have hlt : bm.bits.indexOf false < bm.bits.length := List.indexOf_lt_length.mpr hmem
  refine ⟨bm.bits.indexOf false, hlt, ?_, ?_⟩
  · rw [List.getD_eq_getElem _ _ hlt]
    exact List.getElem_indexOf hlt
  · unfold bm_find_next
    rw [if_pos hlt]

/-! ## File content and the effect of one sector write on it -/

theorem getD_window (l d : List Nat) (b n : Nat) (hd : d.length = n)
    (hb : b + n ≤ l.length) (i x : Nat) :
    (l.take b ++ d ++ l.drop (b + n)).getD i x =
      if i < b then l.getD i x else if i < b + n then d.getD (i - b) x else l.getD i x := by
  simp only [List.getD_eq_getElem?_getD, getElem?_window l d b n hd hb]
  split
  · rfl
  · split <;> rfl

theorem sector_data_length {f : Disk} {a : Nat} (h : sector_offset a + 512 ≤ f.length) :
    (sector_data f a).length = 512 := by
  simp only [sector_data, SECTOR_SIZE, List.length_take, List.length_drop]
  omega

theorem sector_read_eq_data {f : Disk} {a : Nat} (h : sector_offset a + 512 ≤ f.length) :
    sector_read f a = some (sector_data f a) := sector_read_eq_some h

theorem sector_data_write_same {f f1 : Disk} {n : Nat} {d : List Nat}
    (h : sector_write f n d = some f1) (hd : d.length = 512) :
    sector_data f1 n = d := by
  have h1 := sector_read_write_same h hd
  have hb := sector_write_some_bound h
  have hl := sector_write_length h
  rw [sector_read_eq_data (by omega)] at h1
  injection h1

theorem sector_data_write_other {f f1 : Disk} {n m : Nat} {d : List Nat}
    (h : sector_write f n d = some f1) (hne : sector_offset m ≠ sector_offset n) :
    sector_data f1 m = sector_data f m := by
  have hb := sector_write_some_bound h
  have h1 : sector_offset m % 512 = 0 := sector_offset_mod m
  have h2 : sector_offset n % 512 = 0 := sector_offset_mod n

  unfold sector_write at h
  rw [if_pos hb] at h
  injection h with h
  subst h
  unfold sector_data
  apply List.ext_getElem?
  intro i
  rw [List.getElem?_take, List.getElem?_take, List.getElem?_drop, List.getElem?_drop,
    getElem?_window _ _ _ 512 (by simp) hb]
  by_cases hi : i < 512
  · rw [if_pos hi, if_pos hi]
    by_cases hlt : sector_offset m + i < sector_offset n
    · rw [if_pos hlt]
    · rw [if_neg hlt, if_neg (by omega)]
  · rw [if_neg hi, if_neg hi]

theorem file_content_length (f : Disk) (addrs : List Nat) (s : Nat) :
    (file_content f addrs s).length = s := by
  simp [file_content]

theorem file_content_getElem? (f : Disk) (addrs : List Nat) (s j : Nat) :
    (file_content f addrs s)[j]? =
      if j < s then
        some ((sector_data f (addrs.getD (j / 512) 0)).getD (j % 512) 0)
      else none := by
  unfold file_content
  rw [List.getElem?_map]
  by_cases h : j < s
  · rw [if_pos h, List.getElem?_range h]
    rfl
  · rw [if_neg h, List.getElem?_eq_none (by simp; omega)]
    rfl

theorem getD_set_same (l : List Nat) (k a d : Nat) (h : k < l.length) :
    (l.set k a).getD k d = a := by
  rw [List.getD_eq_getElem?_getD, List.getElem?_set_self h]
  rfl

theorem getD_set_other (l : List Nat) (k j a d : Nat) (h : k ≠ j) :
    (l.set k a).getD j d = l.getD j d := by
  rw [List.getD_eq_getElem?_getD, List.getD_eq_getElem?_getD, List.getElem?_set_ne h]

theorem file_content_new_sector {f f1 : Disk} {addrs chunk : List Nat} {s a nb : Nat}
    (hs : s % 512 = 0) (hnb : nb ≤ 512) (hc : chunk.length = nb)
    (hw : sector_write f a (chunk ++ List.replicate (512 - nb) 0) = some f1)
    (hk : s / 512 < addrs.length)
    (hne : ∀ k, k < s / 512 → sector_offset (addrs.getD k 0) ≠ sector_offset a) :
    file_content f1 (addrs.set (s / 512) a) (s + nb)
      = file_content f addrs s ++ chunk := by
  have hd : (chunk ++ List.replicate (512 - nb) 0).length = 512 := by
    simp only [List.length_append, List.length_replicate]; omega
  apply List.ext_getElem?
  intro j
  rw [file_content_getElem?]
  by_cases hj : j < s
  · rw [if_pos (by omega), List.getElem?_append_left (by rw [file_content_length]; exact hj),
      file_content_getElem?, if_pos hj]
    have hjk : j / 512 < s / 512 := by omega
    rw [getD_set_other _ _ _ _ _ (by omega), sector_data_write_other hw (hne _ hjk)]
  · rw [List.getElem?_append_right (by rw [file_content_length]; omega), file_content_length]
    by_cases hj2 : j < s + nb
    · rw [if_pos hj2]
      have e1 : j / 512 = s / 512 := by omega
      have e2 : j % 512 = j - s := by omega
      rw [e1, e2, getD_set_same _ _ _ _ hk, sector_data_write_same hw hd,
        List.getD_eq_getElem?_getD, List.getElem?_append_left (by omega)]
      rw [List.getElem?_eq_getElem (by omega)]
      rfl
    · rw [if_neg hj2, List.getElem?_eq_none (by omega)]

theorem file_content_fill_sector {f f1 : Disk} {addrs chunk : List Nat} {s nb : Nat}
    (hnb : s % 512 + nb ≤ 512) (hc : chunk.length = nb)
    (hin : sector_offset (addrs.getD (s / 512) 0) + 512 ≤ f.length)
    (hw : sector_write f (addrs.getD (s / 512) 0)
      ((sector_data f (addrs.getD (s / 512) 0)).take (s % 512) ++ chunk
        ++ (sector_data f (addrs.getD (s / 512) 0)).drop (s % 512 + nb)) = some f1)
    (hne : ∀ k, k < s / 512 →
      sector_offset (addrs.getD k 0) ≠ sector_offset (addrs.getD (s / 512) 0)) :
    file_content f1 addrs (s + nb) = file_content f addrs s ++ chunk := by
  have hsl := sector_data_length hin
  have hd := length_window (sector_data f (addrs.getD (s / 512) 0)) chunk
    (s % 512) nb hc (by omega)
  rw [hsl] at hd
  have hsame := sector_data_write_same hw hd
  apply List.ext_getElem?
  intro j
  rw [file_content_getElem?]
  by_cases hj : j < s
  · rw [if_pos (by omega), List.getElem?_append_left (by rw [file_content_length]; exact hj),
      file_content_getElem?, if_pos hj]
    by_cases hjk : j / 512 < s / 512
    · rw [sector_data_write_other hw (hne _ hjk)]
    · have e1 : j / 512 = s / 512 := by omega
      rw [e1, hsame, getD_window _ _ _ _ hc (by omega), if_pos (by omega)]
  · rw [List.getElem?_append_right (by rw [file_content_length]; omega), file_content_length]
    by_cases hj2 : j < s + nb
    · rw [if_pos hj2]
      have e1 : j / 512 = s / 512 := by omega
      rw [e1, hsame, getD_window _ _ _ _ hc (by omega), if_neg (by omega), if_pos (by omega)]
      have e3 : j % 512 - s % 512 = j - s := by omega
      rw [e3, List.getD_eq_getElem?_getD, List.getElem?_eq_getElem (by omega)]
      rfl
    · rw [if_neg hj2, List.getElem?_eq_none (by omega)]

/-! ## One call of `filev6_writesector` -/

theorem bits_getD_lt {bits : List Bool} {k : Nat} (h : bits.getD k false = true) :
    k < bits.length := by
  by_contra hk
  rw [List.getD_eq_default _ _ (by omega)] at h
  exact absurd h (by simp)

theorem bits_getD_default {bits : List Bool} {k : Nat} (hk : k < bits.length) (a b : Bool) :
    bits.getD k a = bits.getD k b := by
  rw [List.getD_eq_getElem _ _ hk, List.getD_eq_getElem _ _ hk]

theorem bits_getD_set (bits : List Bool) (k j : Nat) (d : Bool) (hk : k < bits.length) :
    (bits.set k true).getD j d = if j = k then true else bits.getD j d := by
  rw [List.getD_eq_getElem?_getD, List.getD_eq_getElem?_getD]
  by_cases h : j = k
  · subst h
    rw [if_pos rfl, List.getElem?_set_self hk]
    rfl
  · rw [if_neg h, List.getElem?_set_ne (fun e => h e.symm)]

theorem blocks_used_lt {f : Disk} {bm : bmblock_array} {addrs : List Nat} {n k : Nat}
    (h : blocks_used f bm addrs n) (hk : k < n) :
    addrs.getD k 0 < bm.min + bm.bits.length := by
  have h1 := (h.1 k hk)
  have := bits_getD_lt h1.2.1
  omega

theorem writesector_new {u : unix_filesystem} {fv : filev6} {buf : List Nat}
    (len : Nat) {left bw size : Nat}
    (hlay : layout_ok u) (hused : blocks_used u.f u.fbm fv.i_node.i_addr (size / 512))
    (hlen8 : fv.i_node.i_addr.length = 8) (hs : size % 512 = 0) (hlt : size + left < 4096)
    (hleft : 0 < left) (hbuf : bw + left ≤ buf.length) (hfree : 0 < u.fbm.bits.count false) :
    ∃ u1 fv1, filev6_writesector u fv buf len left bw size
        = .ret (((if left ≥ 512 then 512 else left : Nat) : Int), u1, fv1)
      ∧ u1.s = u.s ∧ u1.ibm = u.ibm ∧ u1.fbm.min = u.fbm.min
      ∧ u1.fbm.bits.length = u.fbm.bits.length
      ∧ u1.fbm.bits.count false + 1 = u.fbm.bits.count false
      ∧ u1.f.length = u.f.length ∧ layout_ok u1
      ∧ blocks_used u1.f u1.fbm fv1.i_node.i_addr (size / 512 + 1)
      ∧ fv1.i_node.i_addr.length = 8
      ∧ fv1 = { fv with i_node := { fv.i_node with i_addr := fv1.i_node.i_addr } }
      ∧ (∀ m, m < u.fbm.min → sector_data u1.f m = sector_data u.f m)
      ∧ file_content u1.f fv1.i_node.i_addr (size + (if left ≥ 512 then 512 else left))
          = file_content u.f fv.i_node.i_addr size
            ++ (buf.drop bw).take (if left ≥ 512 then 512 else left) := by
  obtain ⟨k, hk, hkfree, hfind⟩ := bm_find_next_spec u.fbm hfree
  obtain ⟨hl1, hl2, hl3, hl4⟩ := hlay
  have hin := hl4 k hk hkfree
  simp only [SECTOR_SIZE] at hin
  have ha16 : u.fbm.min + k < 65536 := by omega
  have hoff : sector_offset (u.fbm.min + k) = (u.fbm.min + k) * 512 :=
    sector_offset_small _ (by omega)
  generalize hnb : (if left ≥ 512 then 512 else left) = nb at *
  have hnb1 : nb ≤ 512 := by split at hnb <;> omega
  have hnb2 : nb ≤ left := by split at hnb <;> omega
  have hnb3 : 0 < nb := by split at hnb <;> omega
  have hchunk : ((buf.drop bw).take nb).length = nb := by
    simp only [List.length_take, List.length_drop]; omega
  obtain ⟨f1, hw⟩ := sector_write_eq_some (f := u.f) (n := u.fbm.min + k)
    ((buf.drop bw).take nb ++ List.replicate (512 - nb) 0) (by rw [hoff]; omega)
  have hf1 := sector_write_length hw
  have hset : bm_set u.fbm (u.fbm.min + k)
      = { u.fbm with bits := u.fbm.bits.set k true } := by
    unfold bm_set
    rw [if_pos (by constructor <;> omega)]
    simp
  refine ⟨{ u with fbm := bm_set u.fbm (u.fbm.min + k), f := f1 },
    { fv with i_node := { fv.i_node with
        i_addr := fv.i_node.i_addr.set (size / 512) (u.fbm.min + k) } }, ?_, rfl, rfl, ?_, ?_, ?_,
    hf1, ?_, ?_, ?_, rfl, ?_, ?_⟩
  · unfold filev6_writesector
    simp only [SECTOR_SIZE, ADDR_SMALL_LENGTH, hs, ne_eq, not_true_eq_false, if_false, hfind, hnb,
      Int.toNat_ofNat]
    rw [if_neg (by omega), if_pos (by omega)]
    simp only [hw]
    rw [if_pos (by omega), Nat.mod_eq_of_lt ha16]
  · rw [hset]
  · rw [hset]; simp
  · rw [hset]; exact count_false_set _ _ hk hkfree
  · refine ⟨hl1, ?_, ?_, ?_⟩
    · rw [hset]; exact hl2
    · rw [hset]; simpa using hl3
    · intro j hj hjf
      rw [hset] at hj hjf ⊢
      simp only [List.length_set] at hj
      simp only [bits_getD_set _ _ _ _ hk] at hjf
      split at hjf
      · exact absurd hjf (by simp)
      · rw [hf1]; exact hl4 j hj hjf
  · constructor
    · intro j hj
      by_cases hjk : j < size / 512
      · simp only [getD_set_other _ _ _ _ _ (Nat.ne_of_gt hjk), hset, hf1]
        obtain ⟨h1, h2, h3⟩ := hused.1 j hjk
        refine ⟨h1, ?_, h3⟩
        rw [bits_getD_set _ _ _ _ hk]
        split
        · rfl
        · exact h2
      · have e : j = size / 512 := by omega
        subst e
        simp only [getD_set_same _ _ _ _ (show size / 512 < fv.i_node.i_addr.length by omega),
          hset, hf1]
        refine ⟨by omega, ?_, by simp only [SECTOR_SIZE]; omega⟩
        rw [Nat.add_sub_cancel_left, bits_getD_set _ _ _ _ hk, if_pos rfl]
    · intro j hj i hi
      by_cases hjk : j < size / 512
      · simp only [getD_set_other _ _ _ _ _ (Nat.ne_of_gt hjk),
          getD_set_other _ _ _ _ _ (Nat.ne_of_gt (Nat.lt_trans hi hjk))]
        exact hused.2 j hjk i hi
      · have e : j = size / 512 := by omega
        subst e
        simp only [getD_set_same _ _ _ _ (show size / 512 < fv.i_node.i_addr.length by omega),
          getD_set_other _ _ _ _ _ (Nat.ne_of_gt hi)]
        obtain ⟨h1, h2, _⟩ := hused.1 i hi
        intro e
        rw [e, Nat.add_sub_cancel_left, bits_getD_default hk false true, hkfree] at h2
        exact absurd h2 (by simp)
  · simp [hlen8]
  · intro m hm
    apply sector_data_write_other hw
    rw [hoff, sector_offset_small m (by omega)]
    omega
  · apply file_content_new_sector hs hnb1 hchunk hw (by omega)
    intro j hj
    have hjl := blocks_used_lt hused hj
    obtain ⟨h1, h2, _⟩ := hused.1 j hj
    rw [hoff, sector_offset_small _ (by omega)]
    intro e
    have e2 : fv.i_node.i_addr.getD j 0 = u.fbm.min + k := by omega
    rw [e2, Nat.add_sub_cancel_left, bits_getD_default hk false true, hkfree] at h2
    exact absurd h2 (by simp)

theorem writesector_fill {u : unix_filesystem} {fv : filev6} {buf : List Nat}
    {len : Nat} (left bw : Nat) {size : Nat}
    (hlay : layout_ok u) (hused : blocks_used u.f u.fbm fv.i_node.i_addr (size / 512 + 1))
    (hs : size % 512 ≠ 0) (hlt : size + len < 4096) (hbuf : len ≤ buf.length) :
    ∃ f1, filev6_writesector u fv buf len left bw size
        = .ret (((if 512 - size % 512 < len then 512 - size % 512 else len : Nat) : Int),
            { u with f := f1 }, fv)
      ∧ f1.length = u.f.length ∧ layout_ok { u with f := f1 }
      ∧ blocks_used f1 u.fbm fv.i_node.i_addr (size / 512 + 1)
      ∧ (∀ m, m < u.fbm.min → sector_data f1 m = sector_data u.f m)
      ∧ file_content f1 fv.i_node.i_addr
            (size + (if 512 - size % 512 < len then 512 - size % 512 else len))
          = file_content u.f fv.i_node.i_addr size
            ++ buf.take (if 512 - size % 512 < len then 512 - size % 512 else len) := by
  obtain ⟨hl1, hl2, hl3, hl4⟩ := hlay
  generalize hnb : (if 512 - size % 512 < len then 512 - size % 512 else len) = nb at *
  have hnb1 : size % 512 + nb ≤ 512 := by split at hnb <;> omega
  have hnb2 : nb ≤ len := by split at hnb <;> omega
  have hchunk : (buf.take nb).length = nb := by
    simp only [List.length_take]; omega
  obtain ⟨h1, h2, h3⟩ := hused.1 (size / 512) (by omega)
  simp only [SECTOR_SIZE] at h3
  have hal := blocks_used_lt hused (show size / 512 < size / 512 + 1 by omega)
  have hoff : sector_offset (fv.i_node.i_addr.getD (size / 512) 0)
      = fv.i_node.i_addr.getD (size / 512) 0 * 512 := sector_offset_small _ (by omega)
  have hin : sector_offset (fv.i_node.i_addr.getD (size / 512) 0) + 512 ≤ u.f.length := by
    rw [hoff]; omega
  obtain ⟨f1, hw⟩ := sector_write_eq_some (f := u.f)
    (n := fv.i_node.i_addr.getD (size / 512) 0)
    ((sector_data u.f (fv.i_node.i_addr.getD (size / 512) 0)).take (size % 512) ++ buf.take nb
      ++ (sector_data u.f (fv.i_node.i_addr.getD (size / 512) 0)).drop (size % 512 + nb)) hin
  have hf1 := sector_write_length hw
  refine ⟨f1, ?_, hf1, ?_, ?_, ?_, ?_⟩
  · unfold filev6_writesector
    simp only [SECTOR_SIZE, ADDR_SMALL_LENGTH, hs, ne_eq, not_false_eq_true, if_true, hnb]
    rw [if_pos (by omega), sector_read_eq_data hin]
    simp only []
    rw [if_pos (by omega), hw]
  · refine ⟨hl1, hl2, hl3, ?_⟩
    intro j hj hjf
    simp only [hf1]
    exact hl4 j hj hjf
  · constructor
    · intro j hj
      obtain ⟨g1, g2, g3⟩ := hused.1 j hj
      exact ⟨g1, g2, by rw [hf1]; exact g3⟩
    · exact hused.2
  · intro m hm
    apply sector_data_write_other hw
    rw [hoff, sector_offset_small m (by omega)]
    omega
  · apply file_content_fill_sector hnb1 hchunk hin hw
    intro j hj
    have hjl := blocks_used_lt hused (show j < size / 512 + 1 by omega)
    rw [hoff, sector_offset_small _ (by omega)]
    have := hused.2 (size / 512) (by omega) j hj
    omega

/-! ## The loop of `filev6_writebytes` -/

theorem size_t_of_nat (n : Nat) (h : n < 2 ^ 64) : ((n : Int) % 2 ^ 64).toNat = n := by
  omega

theorem writebytes_loop_aligned (buf : List Nat) (len : Nat) :
    ∀ (fuel : Nat) (u : unix_filesystem) (fv : filev6) (left bw size : Nat),
      layout_ok u → blocks_used u.f u.fbm fv.i_node.i_addr ((size + 511) / 512) →
      fv.i_node.i_addr.length = 8 → (size % 512 = 0 ∨ left = 0) → size + left < 4096 →
      bw ≤ size → bw + left ≤ buf.length → (left + 511) / 512 ≤ u.fbm.bits.count false →
      (left + 511) / 512 ≤ fuel →
      ∃ u1 fv1, filev6_writebytes_loop buf len fuel u fv left bw size
          = .ret (u1, fv1, size + left)
        ∧ u1.s = u.s ∧ u1.ibm = u.ibm ∧ u1.fbm.min = u.fbm.min ∧ u1.f.length = u.f.length
        ∧ layout_ok u1 ∧ blocks_used u1.f u1.fbm fv1.i_node.i_addr ((size + left + 511) / 512)
        ∧ fv1.i_node.i_addr.length = 8
        ∧ fv1 = { fv with i_node := { fv.i_node with i_addr := fv1.i_node.i_addr } }
        ∧ (∀ m, m < u.fbm.min → sector_data u1.f m = sector_data u.f m)
        ∧ file_content u1.f fv1.i_node.i_addr (size + left)
            = file_content u.f fv.i_node.i_addr size ++ (buf.drop bw).take left := by
  intro fuel
  induction fuel with
  | zero =>
    intro u fv left bw size hlay hused hlen8 _ _ _ _ _ hfuel
    have h0 : left = 0 := by omega
    subst h0
    exact ⟨u, fv, by simp [filev6_writebytes_loop], rfl, rfl, rfl, rfl, hlay, hused, hlen8, rfl,
      fun _ _ => rfl, by simp⟩
  | succ fuel ih =>
    intro u fv left bw size hlay hused hlen8 hal hlt hbw hbuf hcount hfuel
    by_cases h0 : left = 0
    · subst h0
      exact ⟨u, fv, by simp [filev6_writebytes_loop], rfl, rfl, rfl, rfl, hlay, hused, hlen8, rfl,
        fun _ _ => rfl, by simp⟩
    · have hs : size % 512 = 0 := by omega
      have e0 : (size + 511) / 512 = size / 512 := by omega
      rw [e0] at hused
      obtain ⟨u1, fv1, hstep, g1, g2, g3, g4, g5, g6, g7, g8, g9, g10, g11, g12⟩ :=
        writesector_new len hlay hused hlen8 hs hlt (by omega) hbuf (by omega)
      generalize hnb : (if left ≥ 512 then 512 else left) = nb at *
      have hnb1 : nb ≤ 512 := by split at hnb <;> omega
      have hnb2 : nb ≤ left := by split at hnb <;> omega
      have hnb3 : 0 < nb := by split at hnb <;> omega
      have hnb4 : left < 512 → nb = left := by split at hnb <;> omega
      have hnb5 : 512 ≤ left → nb = 512 := by split at hnb <;> omega
      have e1 : (size + nb + 511) / 512 = size / 512 + 1 := by omega
      obtain ⟨u2, fv2, hrest, k1, k2, k3, k4, k5, k6, k7, k8, k9, k10⟩ :=
        ih u1 fv1 (left - nb) (bw + nb) (size + nb) g7 (by rw [e1]; exact g8) g9
          (by omega) (by omega) (by omega) (by omega) (by omega) (by omega)
      have e2 : size + nb + (left - nb) = size + left := by omega
      rw [e2] at hrest k6 k10
      refine ⟨u2, fv2, ?_, by rw [k1, g1], by rw [k2, g2], by rw [k3, g3], by rw [k4, g6], k5, k6,
        k7, ?_, ?_, ?_⟩
      · rw [filev6_writebytes_loop, if_neg h0, hstep]
        simp only [Outcome.bind, size_t_of_nat nb (by omega)]
        have a1 : (left + (2 ^ 64 - nb)) % 2 ^ 64 = left - nb := by omega
        have a2 : (bw + nb) % 2 ^ 64 = bw + nb := by omega
        have a3 : (size + nb) % 2 ^ 32 = size + nb := by omega
        rw [a1, a2, a3, hrest]
      · rw [k8, g10]
      · intro m hm
        rw [k9 m (by omega), g11 m hm]
      · rw [k10, g12, List.append_assoc]
        congr 1
        have e3 : left = nb + (left - nb) := by omega
        conv_rhs => rw [e3, List.take_add, List.drop_drop]

theorem writebytes_loop_ok {u : unix_filesystem} {fv : filev6} {buf : List Nat}
    {len size fuel : Nat}
    (hlay : layout_ok u) (hused : blocks_used u.f u.fbm fv.i_node.i_addr ((size + 511) / 512))
    (hlen8 : fv.i_node.i_addr.length = 8) (hlt : size + len < 4096) (hbuf : len ≤ buf.length)
    (hcount : (size + len + 511) / 512 - (size + 511) / 512 ≤ u.fbm.bits.count false)
    (hfuel : len / 512 + 2 ≤ fuel) :
    ∃ u1 fv1, filev6_writebytes_loop buf len fuel u fv len 0 size = .ret (u1, fv1, size + len)
      ∧ u1.s = u.s ∧ u1.ibm = u.ibm ∧ u1.fbm.min = u.fbm.min ∧ u1.f.length = u.f.length
      ∧ layout_ok u1 ∧ blocks_used u1.f u1.fbm fv1.i_node.i_addr ((size + len + 511) / 512)
      ∧ fv1.i_node.i_addr.length = 8
      ∧ fv1 = { fv with i_node := { fv.i_node with i_addr := fv1.i_node.i_addr } }
      ∧ (∀ m, m < u.fbm.min → sector_data u1.f m = sector_data u.f m)
      ∧ file_content u1.f fv1.i_node.i_addr (size + len)
          = file_content u.f fv.i_node.i_addr size ++ buf.take len := by
  by_cases hal : size % 512 = 0 ∨ len = 0
  · have := writebytes_loop_aligned buf len fuel u fv len 0 size hlay hused hlen8 hal hlt
      (by omega) (by omega) (by omega) (by omega)
    simpa using this
  · have hs : size % 512 ≠ 0 := by omega
    have hl0 : len ≠ 0 := by omega
    have e0 : (size + 511) / 512 = size / 512 + 1 := by omega
    rw [e0] at hused hcount
    obtain ⟨f1, hstep, g1, g2, g3, g4, g5⟩ :=
      writesector_fill len 0 hlay hused hs hlt hbuf
    generalize hnb : (if 512 - size % 512 < len then 512 - size % 512 else len) = nb at *
    have hnb1 : size % 512 + nb ≤ 512 := by split at hnb <;> omega
    have hnb2 : nb ≤ len := by split at hnb <;> omega
    have hnb3 : 0 < nb := by split at hnb <;> omega
    have hnb4 : (size + nb) % 512 = 0 ∨ len - nb = 0 := by split at hnb <;> omega
    have e1 : (size + nb + 511) / 512 = size / 512 + 1 := by omega
    obtain ⟨fuel1, hf⟩ : ∃ fuel1, fuel = fuel1 + 1 := ⟨fuel - 1, by omega⟩
    subst hf
    obtain ⟨u2, fv2, hrest, k1, k2, k3, k4, k5, k6, k7, k8, k9, k10⟩ :=
      writebytes_loop_aligned buf len fuel1 { u with f := f1 } fv (len - nb) nb (size + nb) g2
        (by rw [e1]; exact g3) hlen8 hnb4 (by omega) (by omega) (by omega)
        (by simp only []; omega) (by omega)
    have e2 : size + nb + (len - nb) = size + len := by omega
    rw [e2] at hrest k6 k10
    refine ⟨u2, fv2, ?_, k1, k2, k3, by rw [k4]; exact g1, k5, k6, k7, k8, ?_, ?_⟩
    · rw [filev6_writebytes_loop, if_neg hl0, hstep]
      simp only [Outcome.bind, size_t_of_nat nb (by omega)]
      have a1 : (len + (2 ^ 64 - nb)) % 2 ^ 64 = len - nb := by omega
      have a2 : (0 + nb) % 2 ^ 64 = nb := by omega
      have a3 : (size + nb) % 2 ^ 32 = size + nb := by omega
      rw [a1, a2, a3, hrest]
    · intro m hm
      rw [k9 m hm, g4 m hm]
    · rw [k10, g5, List.append_assoc]
      congr 1
      have e3 : len = nb + (len - nb) := by omega
      conv_rhs => rw [e3, List.take_add]

/-! ## Inode records -/

theorem byte_at_lt (bs : List Nat) (k : Nat) : byte_at bs k < 256 := by
  unfold byte_at; omega

theorem le16_lt (bs : List Nat) (k : Nat) : le16 bs k < 65536 := by
  have h1 := byte_at_lt bs k
  have h2 := byte_at_lt bs (k + 1)
  unfold le16; omega

theorem encode_inode_length (i : inode) : (encode_inode i).length = 32 := by
  simp [encode_inode, enc16, ADDR_SMALL_LENGTH, List.range, List.range.loop]

theorem decode_encode_mode (i : inode) : (decode_inode (encode_inode i)).i_mode = i.i_mode % 65536 := by
  simp only [decode_inode, encode_inode, enc16, le16, byte_at, List.cons_append, List.nil_append,
    List.getD_cons_zero, List.getD_cons_succ]
  omega

theorem decode_encode_size (i : inode) :
    inode_getsize (decode_inode (encode_inode i)) = inode_getsize i := by
  simp only [inode_getsize, decode_inode, encode_inode, enc16, le16, byte_at, List.cons_append,
    List.nil_append, List.getD_cons_zero, List.getD_cons_succ]
  omega

theorem take_drop_window {α : Type} (l d : List α) (b n : Nat) (hd : d.length = n)
    (hb : b + n ≤ l.length) : ((l.take b ++ d ++ l.drop (b + n)).drop b).take n = d := by
  apply List.ext_getElem?
  intro i
  rw [List.getElem?_take, List.getElem?_drop, getElem?_window l d b n hd hb]
  by_cases hi : i < n
  · rw [if_pos hi, if_neg (by omega), if_pos (by omega)]
    congr 1
    omega
  · rw [if_neg hi, List.getElem?_eq_none (by omega)]

theorem inode_write_ok (u : unix_filesystem) (inr : Nat) (i : inode)
    (hr1 : ROOT_INUMBER ≤ inr) (hr2 : inr < u.s.s_isize * 16)
    (hsec : u.s.s_inode_start + inr / 16 < 2 ^ 23)
    (hin : (u.s.s_inode_start + inr / 16 + 1) * 512 ≤ u.f.length) :
    ∃ f2, inode_write u inr i = (ERR_NONE, { u with f := f2 }) ∧ f2.length = u.f.length
      ∧ (∀ m, m < 2 ^ 23 → m ≠ u.s.s_inode_start + inr / 16 →
          sector_data f2 m = sector_data u.f m)
      ∧ (∀ x, inode_read { u with f := f2 } inr x
          = (if (decode_inode (encode_inode i)).i_mode &&& IALLOC = 0
              then ERR_UNALLOCATED_INODE else ERR_NONE, decode_inode (encode_inode i))) := by
  have hoff := sector_offset_small _ hsec
  have hin2 : sector_offset (u.s.s_inode_start + inr / 16) + 512 ≤ u.f.length := by
    rw [hoff]; omega
  have hsl := sector_data_length hin2
  have hwl := length_window (sector_data u.f (u.s.s_inode_start + inr / 16)) (encode_inode i)
    (32 * (inr % 16)) 32 (encode_inode_length i) (by omega)
  obtain ⟨f2, hw⟩ := sector_write_eq_some (f := u.f) (n := u.s.s_inode_start + inr / 16)
    ((sector_data u.f (u.s.s_inode_start + inr / 16)).take (32 * (inr % 16)) ++ encode_inode i
      ++ (sector_data u.f (u.s.s_inode_start + inr / 16)).drop (32 * (inr % 16) + 32)) hin2
  have hf2 := sector_write_length hw
  refine ⟨f2, ?_, hf2, ?_, ?_⟩
  · unfold inode_write
    rw [if_neg (by simp only [ROOT_INUMBER, INODES_PER_SECTOR] at *; omega)]
    simp only [INODES_PER_SECTOR, INODE_SIZE, sector_read_eq_data hin2, hw]
  · intro m hm hne
    apply sector_data_write_other hw
    rw [hoff, sector_offset_small m hm]
    omega
  · intro x
    unfold inode_read
    rw [if_neg (by simp only [ROOT_INUMBER, INODES_PER_SECTOR] at *; omega)]
    have hrd : sector_read f2 (u.s.s_inode_start + inr / 16) = some _ :=
      sector_read_write_same hw (by rw [hwl, hsl])
    simp only [INODES_PER_SECTOR, INODE_SIZE, hrd]
    rw [take_drop_window _ _ _ _ (encode_inode_length i) (by omega)]
    split <;> rfl

theorem and_ialloc_mod (m : Nat) : (m % 65536) &&& IALLOC = m &&& IALLOC := by
  apply Nat.eq_of_testBit_eq
  intro j
  simp only [Nat.testBit_and, IALLOC, show (65536 : Nat) = 2 ^ 16 by norm_num,
    Nat.testBit_mod_two_pow]
  by_cases hj : j < 16
  · simp [hj]
  · have : Nat.testBit 32768 j = false := by
      apply Nat.testBit_lt_two_pow
      calc 32768 < 2 ^ 16 := by norm_num
        _ ≤ 2 ^ j := Nat.pow_le_pow_right (by norm_num) (by omega)
    simp [this]

/-! ## Reading a file back -/

theorem to_u32_nat (n : Nat) (h : n < 2 ^ 32) : to_u32 (n : Int) = n := by
  unfold to_u32; omega

theorem to_i32_nat (n : Nat) (h : n < 2 ^ 31) : to_i32 (n : Int) = (n : Int) := by
  unfold to_i32; omega

theorem inode_getsize_lt (i : inode) : inode_getsize i < 2 ^ 24 := by
  unfold inode_getsize; omega

theorem findsector_direct {u : unix_filesystem} {i : inode} {k : Nat}
    (hall : i.i_mode &&& IALLOC ≠ 0) (hs : inode_getsize i < 4096)
    (hk : k * 512 < inode_getsize i) :
    inode_findsector u i (k : Int) = ((i.i_addr.getD k 0 : Nat) : Int) := by
  unfold inode_findsector
  simp only [SECTOR_SIZE, ADDR_SMALL_LENGTH]
  rw [if_neg hall, if_neg (by omega), if_pos (by omega)]
  simp

theorem readblock_direct {u : unix_filesystem} (fv : filev6) {o : Nat} (buf0 : List Nat)
    (hall : fv.i_node.i_mode &&& IALLOC ≠ 0) (hs : inode_getsize fv.i_node < 4096)
    (ho : o % 512 = 0) (hlt : o < inode_getsize fv.i_node) (hfo : fv.offset = (o : Int))
    (hin : sector_offset (fv.i_node.i_addr.getD (o / 512) 0) + 512 ≤ u.f.length) :
    filev6_readblock u fv buf0
      = (((if o + 512 ≤ inode_getsize fv.i_node then 512 else inode_getsize fv.i_node - o : Nat)
            : Int),
          { fv with offset := ((o + (if o + 512 ≤ inode_getsize fv.i_node then 512
              else inode_getsize fv.i_node - o) : Nat) : Int) },
          sector_data u.f (fv.i_node.i_addr.getD (o / 512) 0)) := by
  unfold filev6_readblock
  simp only [SECTOR_SIZE, hfo]
  rw [if_neg (by rw [to_u32_nat o (by omega)]; omega)]
  have e1 : Int.tdiv (o : Int) ((512 : Nat) : Int) = ((o / 512 : Nat) : Int) := by
    rw [Int.tdiv_eq_ediv (by omega) (by omega)]; rfl
  rw [e1, findsector_direct hall hs (by omega)]
  rw [if_neg (by omega)]
  simp only [Int.toNat_ofNat, sector_read_eq_data hin]
  have e2 : to_u32 ((o : Int) + ((512 : Nat) : Int)) = o + 512 := by
    rw [← Int.ofNat_add, to_u32_nat _ (by omega)]
  rw [e2]
  by_cases hc : o + 512 ≤ inode_getsize fv.i_node
  · simp only [hc, if_true]
    rw [← Int.ofNat_add, to_i32_nat _ (by omega), to_i32_nat _ (by omega)]
  · simp only [hc, if_false]
    have e3 : to_u32 ((inode_getsize fv.i_node : Int) - (o : Int)) = inode_getsize fv.i_node - o := by
      unfold to_u32; omega
    rw [e3, ← Int.ofNat_add, to_i32_nat _ (by omega), to_i32_nat _ (by omega)]

theorem readblock_eof {u : unix_filesystem} {fv : filev6} (buf0 : List Nat)
    (hfo : fv.offset = (inode_getsize fv.i_node : Int)) :
    filev6_readblock u fv buf0 = (0, fv, buf0) := by
  unfold filev6_readblock
  have := inode_getsize_lt fv.i_node
  simp only [hfo]
  rw [if_pos (to_u32_nat _ (by omega))]

theorem getElem?_eq_some_getD {α : Type} (l : List α) (j : Nat) (d : α) (h : j < l.length) :
    l[j]? = some (l.getD j d) := by
  rw [List.getD_eq_getElem _ _ h, List.getElem?_eq_getElem h]

theorem file_content_drop_block (f : Disk) (addrs : List Nat) (s o b : Nat)
    (ho : o % 512 = 0) (hb : b = if o + 512 ≤ s then 512 else s - o) (hlt : o < s)
    (hin : sector_offset (addrs.getD (o / 512) 0) + 512 ≤ f.length) :
    (sector_data f (addrs.getD (o / 512) 0)).take b ++ (file_content f addrs s).drop (o + b)
      = (file_content f addrs s).drop o := by
  have hsl := sector_data_length hin
  have hb1 : b ≤ 512 := by split at hb <;> omega
  have hb2 : o + b ≤ s := by split at hb <;> omega
  have htl : ((sector_data f (addrs.getD (o / 512) 0)).take b).length = b := by
    rw [List.length_take]; omega
  apply List.ext_getElem?
  intro j
  rw [List.getElem?_drop, file_content_getElem?]
  by_cases hj : j < b
  · rw [List.getElem?_append_left (by omega), List.getElem?_take_of_lt hj, if_pos (by omega)]
    have e1 : (o + j) / SECTOR_SIZE = o / 512 := by simp only [SECTOR_SIZE]; omega
    have e2 : (o + j) % SECTOR_SIZE = j := by simp only [SECTOR_SIZE]; omega
    rw [e1, e2, getElem?_eq_some_getD _ _ 0 (by omega)]
  · rw [List.getElem?_append_right (by omega), htl, List.getElem?_drop, file_content_getElem?]
    have e3 : o + b + (j - b) = o + j := by omega
    rw [e3]

theorem readall_loop_ok {u : unix_filesystem} {fv : filev6}
    (hall : fv.i_node.i_mode &&& IALLOC ≠ 0) (hs : inode_getsize fv.i_node < 4096)
    (hrd : ∀ k, k < (inode_getsize fv.i_node + 511) / 512 →
      sector_offset (fv.i_node.i_addr.getD k 0) + 512 ≤ u.f.length) :
    ∀ (fuel o : Nat), (o % 512 = 0 ∨ o = inode_getsize fv.i_node) → o ≤ inode_getsize fv.i_node →
      (inode_getsize fv.i_node - o + 511) / 512 + 1 ≤ fuel →
      filev6_readall_loop u fuel { fv with offset := (o : Int) }
        = .ret (0, { fv with offset := (inode_getsize fv.i_node : Int) },
            (file_content u.f fv.i_node.i_addr (inode_getsize fv.i_node)).drop o) := by
  intro fuel
  induction fuel with
  | zero => intro o _ _ h; omega
  | succ fuel ih =>
    intro o hal hle hfuel
    by_cases heq : o = inode_getsize fv.i_node
    · subst heq
      rw [filev6_readall_loop, readblock_eof _ rfl]
      simp only [le_refl, if_true]
      rw [List.drop_of_length_le (by rw [file_content_length])]
    · have ho : o % 512 = 0 := by omega
      have hlt : o < inode_getsize fv.i_node := by omega
      have hin := hrd (o / 512) (by omega)
      rw [filev6_readall_loop,
        readblock_direct { fv with offset := (o : Int) } _ hall hs ho hlt rfl hin]
      generalize hb : (if o + 512 ≤ inode_getsize fv.i_node then 512
        else inode_getsize fv.i_node - o) = b
      have hb1 : 0 < b := by split at hb <;> omega
      have hb2 : o + b ≤ inode_getsize fv.i_node := by split at hb <;> omega
      have hb3 : b = 512 ∨ o + b = inode_getsize fv.i_node := by split at hb <;> omega
      simp only []
      rw [if_neg (by omega)]
      have := ih (o + b) (by omega) hb2 (by omega)
      simp only [] at this ⊢
      rw [this]
      simp only [Outcome.bind, Int.toNat_ofNat]
      rw [file_content_drop_block u.f fv.i_node.i_addr _ o b ho hb.symm hlt hin]

theorem readall_ok (u : unix_filesystem) (fv : filev6)
    (hall : fv.i_node.i_mode &&& IALLOC ≠ 0) (hs : inode_getsize fv.i_node < 4096)
    (hrd : ∀ k, k < (inode_getsize fv.i_node + 511) / 512 →
      sector_offset (fv.i_node.i_addr.getD k 0) + 512 ≤ u.f.length)
    (ho : fv.offset = 0) :
    filev6_readall u fv
      = .ret (0, { fv with offset := (inode_getsize fv.i_node : Int) },
          file_content u.f fv.i_node.i_addr (inode_getsize fv.i_node)) := by
  have := readall_loop_ok hall hs hrd (inode_getsize fv.i_node / 512 + 2) 0 (by omega) (by omega)
    (by omega)
  simp only [List.drop_zero, Nat.cast_zero] at this
  rw [← this]
  unfold filev6_readall
  congr 1
  cases fv
  simp only [] at ho
  simp [ho]

/-! ## `filev6_writebytes` in the direct range -/

theorem file_content_congr {f1 f2 : Disk} {addrs : List Nat} {n : Nat}
    (h : ∀ k, k < (n + 511) / 512 →
      sector_data f2 (addrs.getD k 0) = sector_data f1 (addrs.getD k 0)) :
    file_content f2 addrs n = file_content f1 addrs n := by
  unfold file_content
  apply List.map_congr_left
  intro j hj
  rw [List.mem_range] at hj
  rw [h (j / SECTOR_SIZE) (by simp only [SECTOR_SIZE]; omega)]

theorem inode_setsize_nat (i : inode) (n : Nat) :
    inode_setsize i (n : Int)
      = (ERR_NONE, { i with i_size0 := (n / 65536) % 256, i_size1 := n % 65536 }) := by
  unfold inode_setsize
  rw [if_neg (by omega)]
  simp

theorem bind_ret {α β : Type} (a : α) (k : α → Outcome β) : (Outcome.ret a).bind k = k a := rfl

theorem writebytes_ok (u : unix_filesystem) (fv : filev6) (buf : List Nat) (len fuel : Nat)
    (hlay : layout_ok u)
    (hused : blocks_used u.f u.fbm fv.i_node.i_addr ((inode_getsize fv.i_node + 511) / 512))
    (hlen8 : fv.i_node.i_addr.length = 8) (hlt : inode_getsize fv.i_node + len < 4096)
    (hbuf : len ≤ buf.length)
    (hcount : (inode_getsize fv.i_node + len + 511) / 512 - (inode_getsize fv.i_node + 511) / 512
      ≤ u.fbm.bits.count false)
    (hfuel : len / 512 + 2 ≤ fuel)
    (hr1 : ROOT_INUMBER ≤ fv.i_number) (hr2 : fv.i_number < u.s.s_isize * 16)
    (hin : (u.s.s_inode_start + fv.i_number / 16 + 1) * 512 ≤ u.f.length) :
    ∃ u1 fv1, filev6_writebytes fuel u fv buf len = .ret (ERR_NONE, u1, fv1)
      ∧ u1.s = u.s ∧ u1.ibm = u.ibm ∧ u1.f.length = u.f.length
      ∧ layout_ok u1
      ∧ blocks_used u1.f u1.fbm fv1.i_node.i_addr ((inode_getsize fv.i_node + len + 511) / 512)
      ∧ fv1.i_node.i_addr.length = 8 ∧ fv1.i_number = fv.i_number ∧ fv1.offset = fv.offset
      ∧ fv1.i_node.i_mode = fv.i_node.i_mode
      ∧ inode_getsize fv1.i_node = inode_getsize fv.i_node + len
      ∧ (∀ x, inode_read u1 fv.i_number x
          = (if (decode_inode (encode_inode fv1.i_node)).i_mode &&& IALLOC = 0
              then ERR_UNALLOCATED_INODE else ERR_NONE, decode_inode (encode_inode fv1.i_node)))
      ∧ file_content u1.f fv1.i_node.i_addr (inode_getsize fv.i_node + len)
          = file_content u.f fv.i_node.i_addr (inode_getsize fv.i_node) ++ buf.take len := by
  obtain ⟨u1, fv1, hloop, g1, g2, g3, g4, g5, g6, g7, g8, g9, g10⟩ :=
    writebytes_loop_ok hlay hused hlen8 hlt hbuf hcount hfuel
  generalize hn : inode_getsize fv.i_node + len = n at *
  obtain ⟨hl1, hl2, hl3, hl4⟩ := g5
  have hnum : fv1.i_number = fv.i_number := by rw [g8]
  have hsecb : u1.s.s_inode_start + fv.i_number / 16 < u1.fbm.min := by
    rw [g1] at hl1 hl2 ⊢
    have : fv.i_number / 16 < u.s.s_isize := by omega
    omega
  obtain ⟨f2, hw, k1, k2, k3⟩ := inode_write_ok u1 fv.i_number
    { fv1.i_node with i_size0 := (n / 65536) % 256, i_size1 := n % 65536 }
    hr1 (by rw [g1]; exact hr2) (by omega) (by rw [g1, g4]; exact hin)
  refine ⟨{ u1 with f := f2 },
    { fv1 with i_node := { fv1.i_node with i_size0 := (n / 65536) % 256, i_size1 := n % 65536 } },
    ?_, g1, g2, by rw [k1, g4], ⟨hl1, hl2, hl3, ?_⟩, ⟨?_, g6.2⟩, g7, hnum, by rw [g8], by rw [g8],
    ?_, k3, ?_⟩
  · unfold filev6_writebytes
    simp only [ADDR_SMALL_LENGTH, ADDRESSES_PER_SECTOR, SECTOR_SIZE, hn]
    have e1 : n % 2 ^ 64 = n := by omega
    rw [e1, if_neg (by omega), if_neg (by omega), hloop, bind_ret]
    simp only [to_i32_nat n (by omega), inode_setsize_nat, ne_eq,
      not_true_eq_false, if_false, hnum, hw]
  · intro j hj hjf
    simp only [k1]
    exact hl4 j hj hjf
  · intro j hj
    obtain ⟨a1, a2, a3⟩ := g6.1 j hj
    exact ⟨a1, a2, by simp only [k1]; exact a3⟩
  · simp only [inode_getsize]
    omega
  · rw [← g10]
    apply file_content_congr
    intro j hj
    obtain ⟨a1, a2, a3⟩ := g6.1 j hj
    have := bits_getD_lt a2
    show sector_data f2 (fv1.i_node.i_addr.getD j 0) = sector_data u1.f (fv1.i_node.i_addr.getD j 0)
    exact k2 _ (by omega) (by omega)

/-! ## `filev6_create` -/


/-! ## `filev6_create` -/

theorem inode_write_inv {u u1 : unix_filesystem} {inr : Nat} {i : inode}
    (h : inode_write u inr i = (ERR_NONE, u1)) :
    ROOT_INUMBER ≤ inr ∧ inr < u.s.s_isize * 16
      ∧ sector_offset (u.s.s_inode_start + inr / 16) + 512 ≤ u.f.length
      ∧ u1.s = u.s ∧ u1.fbm = u.fbm ∧ u1.ibm = u.ibm ∧ u1.f.length = u.f.length := by
  unfold inode_write at h
  simp only [INODES_PER_SECTOR, ROOT_INUMBER] at h ⊢
  split at h
  · exact absurd (congrArg Prod.fst h) (by simp)
  · rename_i hr
    split at h
    · exact absurd (congrArg Prod.fst h) (by simp)
    · rename_i sec hrd
      split at h
      · exact absurd (congrArg Prod.fst h) (by simp)
      · rename_i f1 hw
        have hb := sector_read_some_bound hrd
        have hl := sector_write_length hw
        have e := congrArg Prod.snd h
        simp only [] at e
        subst e
        exact ⟨by omega, by omega, hb, rfl, rfl, rfl, hl⟩

theorem or_and_ialloc (mode : Nat) : (IALLOC ||| mode) &&& IALLOC ≠ 0 := by
  have h0 : Nat.testBit 32768 15 = true := by decide
  have h : ((IALLOC ||| mode) &&& IALLOC).testBit 15 = true := by
    simp [Nat.testBit_and, Nat.testBit_or, IALLOC, h0]
  intro e
  rw [e] at h
  simp at h

theorem bm_find_next_range (bm : bmblock_array) :
    bm_find_next bm = ERR_BITMAP_FULL ∨ (bm.min : Int) ≤ bm_find_next bm := by
  unfold bm_find_next
  split
  · right; omega
  · left; rfl

theorem filev6_create_inv (u : unix_filesystem) (mode : Nat) (fv0 : filev6)
    {u0 : unix_filesystem} {fv : filev6}
    (hmin : ROOT_INUMBER ≤ u.ibm.min)
    (h : filev6_create u mode fv0 = (ERR_NONE, u0, fv)) :
    fv.i_node = { inode_zero with i_mode := IALLOC ||| mode } ∧ fv.offset = 0
      ∧ ROOT_INUMBER ≤ fv.i_number ∧ fv.i_number < u.s.s_isize * 16
      ∧ sector_offset (u.s.s_inode_start + fv.i_number / 16) + 512 ≤ u.f.length
      ∧ u0.s = u.s ∧ u0.fbm = u.fbm ∧ u0.f.length = u.f.length
      ∧ ((bm_find_next u.ibm).toNat % 65536 = fv.i_number ∧ 1 ≤ bm_find_next u.ibm
          ∧ u0.ibm = bm_set u.ibm (bm_find_next u.ibm).toNat) := by
  unfold filev6_create at h
  simp only [inode_alloc, ROOT_INUMBER] at h
  by_cases h1 : bm_find_next u.ibm < ((1 : Nat) : Int)
  · simp only [h1, if_true] at h
    have e2 : bm_find_next u.ibm = 0 := congrArg Prod.fst h
    have e3 := bm_find_next_range u.ibm
    simp only [ROOT_INUMBER, ERR_BITMAP_FULL] at hmin e3
    omega
  · simp only [h1, if_false] at h
    split at h
    · rename_i hne
      exact absurd (congrArg Prod.fst h) hne
    · rename_i hw
      have hw0 : (inode_write { u with ibm := bm_set u.ibm (bm_find_next u.ibm).toNat }
          ((bm_find_next u.ibm).toNat % 65536) { inode_zero with i_mode := IALLOC ||| mode }).1
          = ERR_NONE := by
        by_contra hc
        exact hw hc
      obtain ⟨g1, g2, g3, g4, g5, g6, g7⟩ := inode_write_inv (Prod.ext hw0 rfl)
      have e2 := congrArg (fun x => x.2.1) h
      have e3 := congrArg (fun x => x.2.2) h
      simp only [] at e2 e3
      subst e2 e3
      simp only [] at g2 g3 g4 g5 g6 g7
      exact ⟨rfl, rfl, g1, g2, g3, g4, g5, g7, rfl, by omega, g6⟩

/-! ## C1, C2: what is written is what is read -/

/-- C1. Write/read round trip in the direct range. On a file system with the expected layout
(`layout_ok`: the free sectors of the bitmap are data sectors inside the image; the inode
bitmap starts at the root inode), if
`filev6_create` succeeds and the sector bitmap has a free sector for each sector of `b`, then
for every byte string `b` of length `1 ≤ N < ADDR_SMALL_LENGTH * SECTOR_SIZE = 4096`
`filev6_writebytes(b, N)` on the new handle returns `ERR_NONE`, and reading the handle with
`filev6_readblock` until it returns 0, keeping the first `count` bytes of each block, yields
exactly `b`. -/
theorem C1_create_write_read_roundtrip (u : unix_filesystem) (mode : Nat) (fv0 : filev6)
    (b : List Nat) (fuel : Nat) (hlay : layout_ok u) (hibm : ROOT_INUMBER ≤ u.ibm.min)
    (hcreate : (filev6_create u mode fv0).1 = ERR_NONE)
    (_hN1 : 1 ≤ b.length) (hN2 : b.length < ADDR_SMALL_LENGTH * SECTOR_SIZE)
    (hfree : (b.length + (SECTOR_SIZE - 1)) / SECTOR_SIZE ≤ u.fbm.bits.count false)
    (hfuel : b.length / SECTOR_SIZE + 2 ≤ fuel) :
    ∃ u1 fv1 fv2,
      filev6_writebytes fuel (filev6_create u mode fv0).2.1 (filev6_create u mode fv0).2.2
          b b.length = .ret (ERR_NONE, u1, fv1)
      ∧ filev6_readall u1 fv1 = .ret (0, fv2, b) := by
  obtain ⟨g1, g2, g3, g4, g5, g6, g7, g8, _⟩ :=
    filev6_create_inv u mode fv0 hibm (Prod.ext hcreate rfl)
  generalize (filev6_create u mode fv0).2.1 = u0 at *
  generalize (filev6_create u mode fv0).2.2 = fv at *
  simp only [ADDR_SMALL_LENGTH, SECTOR_SIZE] at hN2 hfree hfuel
  have hsz : inode_getsize fv.i_node = 0 := by rw [g1]; simp [inode_getsize, inode_zero]
  have hl8 : fv.i_node.i_addr.length = 8 := by rw [g1]; simp [inode_zero]
  obtain ⟨hl1, hl2, hl3, hl4⟩ := hlay
  have hlay0 : layout_ok u0 := by
    refine ⟨by rw [g6]; exact hl1, by rw [g6, g7]; exact hl2, by rw [g7]; exact hl3, ?_⟩
    rw [g7, g8]; exact hl4
  have hsec : u.s.s_inode_start + fv.i_number / 16 < 2 ^ 23 := by
    have : fv.i_number / 16 < u.s.s_isize := by omega
    omega
  have hoff := sector_offset_small _ hsec
  obtain ⟨u1, fv1, hw, k1, k2, k3, k4, k5, k6, k7, k8, k9, k10, k11, k12⟩ :=
    writebytes_ok u0 fv b b.length fuel hlay0
      (by rw [hsz]; exact ⟨fun k hk => absurd hk (by omega), fun k hk => absurd hk (by omega)⟩)
      hl8 (by omega) (le_refl _) (by rw [hsz, g7]; omega) hfuel g3 (by rw [g6]; exact g4)
      (by rw [g6, g8]; omega)
  rw [hsz, Nat.zero_add] at k5 k10 k12
  have hall : fv1.i_node.i_mode &&& IALLOC ≠ 0 := by
    rw [k9, g1]; exact or_and_ialloc mode
  have hrd : ∀ k, k < (inode_getsize fv1.i_node + 511) / 512 →
      sector_offset (fv1.i_node.i_addr.getD k 0) + 512 ≤ u1.f.length := by
    intro k hk
    rw [k10] at hk
    obtain ⟨a1, a2, a3⟩ := k5.1 k hk
    have := bits_getD_lt a2
    have := k4.2.2.1
    rw [sector_offset_small _ (by omega)]
    simp only [SECTOR_SIZE] at a3
    omega
  refine ⟨u1, fv1, { fv1 with offset := (inode_getsize fv1.i_node : Int) }, hw, ?_⟩
  rw [readall_ok u1 fv1 hall (by omega) hrd (by rw [k8, g2]), k10, k12]
  simp [file_content]

/-- C2. Strict append. For a handle of an allocated inode of size `s` whose data sectors are
marked used in the sector bitmap (`blocks_used`), on a file system with the expected layout,
and a buffer `b` with `s + len < 4096` for which allocation and I/O succeed (a free sector for
each new sector, the inode in range and its sector inside the image): `filev6_writebytes`
returns `ERR_NONE`; reading the file from offset 0 gave `old` (`s` bytes) before the call and
gives `old ++ b` after it; the size in the handle and in the inode record on disk is
`s + len`. Nothing is assumed about `s % 512`. -/
theorem C2_writebytes_strict_append (u : unix_filesystem) (fv : filev6) (b : List Nat)
    (fuel : Nat) (hopen : fv.i_node.i_mode &&& IALLOC ≠ 0) (hlay : layout_ok u)
    (hused : blocks_used u.f u.fbm fv.i_node.i_addr
      ((inode_getsize fv.i_node + (SECTOR_SIZE - 1)) / SECTOR_SIZE))
    (hlen8 : fv.i_node.i_addr.length = ADDR_SMALL_LENGTH)
    (hlt : inode_getsize fv.i_node + b.length < ADDR_SMALL_LENGTH * SECTOR_SIZE)
    (hcount : (inode_getsize fv.i_node + b.length + (SECTOR_SIZE - 1)) / SECTOR_SIZE
        - (inode_getsize fv.i_node + (SECTOR_SIZE - 1)) / SECTOR_SIZE ≤ u.fbm.bits.count false)
    (hfuel : b.length / SECTOR_SIZE + 2 ≤ fuel)
    (hr1 : ROOT_INUMBER ≤ fv.i_number) (hr2 : fv.i_number < u.s.s_isize * INODES_PER_SECTOR)
    (hin : (u.s.s_inode_start + fv.i_number / INODES_PER_SECTOR + 1) * SECTOR_SIZE ≤ u.f.length) :
    ∃ old u1 fv1 fva fvb i1,
      filev6_readall u { fv with offset := 0 } = .ret (0, fva, old)
      ∧ old.length = inode_getsize fv.i_node
      ∧ filev6_writebytes fuel u fv b b.length = .ret (ERR_NONE, u1, fv1)
      ∧ filev6_readall u1 { fv1 with offset := 0 } = .ret (0, fvb, old ++ b)
      ∧ inode_getsize fv1.i_node = inode_getsize fv.i_node + b.length
      ∧ inode_read u1 fv.i_number inode_zero = (ERR_NONE, i1)
      ∧ inode_getsize i1 = inode_getsize fv.i_node + b.length := by
  simp only [ADDR_SMALL_LENGTH, SECTOR_SIZE, INODES_PER_SECTOR] at hused hlen8 hlt hcount hfuel hr2 hin
  simp only [show 512 - 1 = 511 by norm_num] at hused hcount
  obtain ⟨u1, fv1, hw, k1, k2, k3, k4, k5, k6, k7, k8, k9, k10, k11, k12⟩ :=
    writebytes_ok u fv b b.length fuel hlay
      hused hlen8 hlt (le_refl _) hcount hfuel hr1 hr2 hin
  have hrd0 : ∀ k, k < (inode_getsize fv.i_node + 511) / 512 →
      sector_offset (fv.i_node.i_addr.getD k 0) + 512 ≤ u.f.length := by
    intro k hk
    obtain ⟨a1, a2, a3⟩ := hused.1 k hk
    have := bits_getD_lt a2
    have := hlay.2.2.1
    rw [sector_offset_small _ (by omega)]
    simp only [SECTOR_SIZE] at a3
    omega
  have hrd1 : ∀ k, k < (inode_getsize fv1.i_node + 511) / 512 →
      sector_offset (fv1.i_node.i_addr.getD k 0) + 512 ≤ u1.f.length := by
    intro k hk
    rw [k10] at hk
    obtain ⟨a1, a2, a3⟩ := k5.1 k hk
    have := bits_getD_lt a2
    have := k4.2.2.1
    rw [sector_offset_small _ (by omega)]
    simp only [SECTOR_SIZE] at a3
    omega
  have hmode : (decode_inode (encode_inode fv1.i_node)).i_mode &&& IALLOC ≠ 0 := by
    rw [decode_encode_mode, and_ialloc_mod, k9]; exact hopen
  refine ⟨file_content u.f fv.i_node.i_addr (inode_getsize fv.i_node), u1, fv1,
    { fv with offset := (inode_getsize fv.i_node : Int) },
    { fv1 with offset := (inode_getsize fv1.i_node : Int) },
    decode_inode (encode_inode fv1.i_node), ?_, file_content_length _ _ _, hw, ?_, k10, ?_, ?_⟩
  · exact readall_ok u { fv with offset := 0 } hopen (by simp only []; omega) hrd0 rfl
  · rw [readall_ok u1 { fv1 with offset := 0 } (by rw [k9]; exact hopen)
      (by simp only []; omega) hrd1 rfl]
    simp only [k10, k12, List.take_length]
  · rw [k11, if_neg hmode]
  · rw [decode_encode_size, k10]

theorem C1_witness : ∃ u1 fv1 fv2,
      filev6_writebytes 2 (filev6_create ex_fs 0 filev6_zero).2.1
          (filev6_create ex_fs 0 filev6_zero).2.2 [104, 105] ([104, 105] : List Nat).length
        = .ret (ERR_NONE, u1, fv1)
      ∧ filev6_readall u1 fv1 = .ret (0, fv2, [104, 105]) :=
  C1_create_write_read_roundtrip ex_fs 0 filev6_zero [104, 105] 2 (by decide!) (by decide)
    (by decide!) (by decide) (by decide) (by decide) (by decide)

theorem C2_witness : ∃ old u1 fv1 fva fvb i1,
      filev6_readall ex_fs { ex_file with offset := 0 } = .ret (0, fva, old)
      ∧ old.length = inode_getsize ex_file.i_node
      ∧ filev6_writebytes 2 ex_fs ex_file [4, 5] ([4, 5] : List Nat).length
          = .ret (ERR_NONE, u1, fv1)
      ∧ filev6_readall u1 { fv1 with offset := 0 } = .ret (0, fvb, old ++ [4, 5])
      ∧ inode_getsize fv1.i_node = inode_getsize ex_file.i_node + ([4, 5] : List Nat).length
      ∧ inode_read u1 ex_file.i_number inode_zero = (ERR_NONE, i1)
      ∧ inode_getsize i1 = inode_getsize ex_file.i_node + ([4, 5] : List Nat).length :=
  C2_writebytes_strict_append ex_fs ex_file [4, 5] 2 (by decide) (by decide!) (by decide!)
    (by decide) (by decide) (by decide) (by decide) (by decide) (by decide) (by decide!)

/-! ## C3, C4: the size limit of `filev6_writebytes` -/

theorem writebytes_too_large (fuel : Nat) (u : unix_filesystem) (fv : filev6) (buf : List Nat)
    (len : Nat) (hwrap : inode_getsize fv.i_node + len < 2 ^ 64)
    (h : ADDR_SMALL_LENGTH * SECTOR_SIZE ≤ inode_getsize fv.i_node + len) :
    filev6_writebytes fuel u fv buf len = .ret (ERR_FILE_TOO_LARGE, u, fv) := by
  unfold filev6_writebytes
  simp only [ADDR_SMALL_LENGTH, SECTOR_SIZE] at h ⊢
  rw [Nat.mod_eq_of_lt hwrap]
  by_cases h1 : inode_getsize fv.i_node + len > (8 - 1) * ADDRESSES_PER_SECTOR * 512
  · rw [if_pos h1]
  · rw [if_neg h1, if_pos h]

theorem readall_empty (u : unix_filesystem) (fv : filev6)
    (h : fv.offset = (inode_getsize fv.i_node : Int)) :
    filev6_readall u fv = .ret (0, fv, []) := by
  unfold filev6_readall
  rw [filev6_readall_loop, readblock_eof _ h]
  simp

/-- C3, the claim as stated fails: on the example image, with 9 free data sectors, the file
`/a/b/c` has size 3, and writing `917500` bytes, which makes the total
`(ADDR_SMALL_LENGTH-1)*ADDRESSES_PER_SECTOR*SECTOR_SIZE - 1`, does not succeed: the call
returns `ERR_FILE_TOO_LARGE` and changes nothing. -/
theorem C3_counterexample :
    inode_getsize ex_file.i_node + 917500
        = (ADDR_SMALL_LENGTH - 1) * ADDRESSES_PER_SECTOR * SECTOR_SIZE - 1
      ∧ ∀ fuel, filev6_writebytes fuel ex_fs ex_file (List.replicate 917500 0) 917500
          = .ret (ERR_FILE_TOO_LARGE, ex_fs, ex_file) :=
  ⟨by decide, fun fuel => writebytes_too_large fuel ex_fs ex_file _ 917500 (by decide) (by decide)⟩

/-- C3, amended. Let `s` be the size in the handle and `len` a length whose sum with `s` does
not wrap in `size_t`. `filev6_writebytes` fails with `ERR_FILE_TOO_LARGE`, changing neither
the handle nor the file system, when `s + len ≥ (ADDR_SMALL_LENGTH-1)*ADDRESSES_PER_SECTOR*
SECTOR_SIZE`, and already when `s + len ≥ ADDR_SMALL_LENGTH*SECTOR_SIZE = 4096`; it succeeds
when `s + len = ADDR_SMALL_LENGTH*SECTOR_SIZE - 1`, sector allocation and I/O succeeding (the
layout is as expected, the data sectors of the file are marked used, the bitmap has a free
sector for each new sector, the inode is in range and its sector inside the image). -/
theorem C3_capacity_boundary (u : unix_filesystem) (fv : filev6) (buf : List Nat)
    (len fuel : Nat) (hwrap : inode_getsize fv.i_node + len < 2 ^ 64) :
    ((ADDR_SMALL_LENGTH - 1) * ADDRESSES_PER_SECTOR * SECTOR_SIZE ≤ inode_getsize fv.i_node + len →
        filev6_writebytes fuel u fv buf len = .ret (ERR_FILE_TOO_LARGE, u, fv))
    ∧ (ADDR_SMALL_LENGTH * SECTOR_SIZE ≤ inode_getsize fv.i_node + len →
        filev6_writebytes fuel u fv buf len = .ret (ERR_FILE_TOO_LARGE, u, fv))
    ∧ (inode_getsize fv.i_node + len = ADDR_SMALL_LENGTH * SECTOR_SIZE - 1 →
        layout_ok u →
        blocks_used u.f u.fbm fv.i_node.i_addr
          ((inode_getsize fv.i_node + (SECTOR_SIZE - 1)) / SECTOR_SIZE) →
        fv.i_node.i_addr.length = ADDR_SMALL_LENGTH → len ≤ buf.length →
        ADDR_SMALL_LENGTH - (inode_getsize fv.i_node + (SECTOR_SIZE - 1)) / SECTOR_SIZE
          ≤ u.fbm.bits.count false →
        len / SECTOR_SIZE + 2 ≤ fuel →
        ROOT_INUMBER ≤ fv.i_number → fv.i_number < u.s.s_isize * INODES_PER_SECTOR →
        (u.s.s_inode_start + fv.i_number / INODES_PER_SECTOR + 1) * SECTOR_SIZE ≤ u.f.length →
        ∃ u1 fv1, filev6_writebytes fuel u fv buf len = .ret (ERR_NONE, u1, fv1)
          ∧ inode_getsize fv1.i_node = ADDR_SMALL_LENGTH * SECTOR_SIZE - 1) := by
  refine ⟨fun h => writebytes_too_large fuel u fv buf len hwrap ?_,
    fun h => writebytes_too_large fuel u fv buf len hwrap h, ?_⟩
  · simp only [ADDR_SMALL_LENGTH, ADDRESSES_PER_SECTOR, SECTOR_SIZE] at h ⊢
    omega
  · intro hs hlay hused hlen8 hbuf hcount hfuel hr1 hr2 hin
    simp only [ADDR_SMALL_LENGTH, SECTOR_SIZE, INODES_PER_SECTOR] at hs hused hlen8 hcount hfuel hr2 hin ⊢
    simp only [show 512 - 1 = 511 by norm_num] at hused hcount
    obtain ⟨u1, fv1, hw, _, _, _, _, _, _, _, _, _, k10, _⟩ :=
      writebytes_ok u fv buf len fuel hlay
        hused hlen8 (by omega) hbuf (by omega) hfuel hr1 hr2 hin
    exact ⟨u1, fv1, hw, by rw [k10]; omega⟩

/-- C3 instantiated on the example image: appending 4093 bytes to the 3-byte file is refused,
appending 4092 bytes succeeds. -/
theorem C3_witness :
    filev6_writebytes 9 ex_fs ex_file (List.replicate 4093 7) 4093
        = .ret (ERR_FILE_TOO_LARGE, ex_fs, ex_file)
    ∧ ∃ u1 fv1, filev6_writebytes 9 ex_fs ex_file (List.replicate 4092 7) 4092
          = .ret (ERR_NONE, u1, fv1)
        ∧ inode_getsize fv1.i_node = ADDR_SMALL_LENGTH * SECTOR_SIZE - 1 :=
  ⟨(C3_capacity_boundary ex_fs ex_file (List.replicate 4093 7) 4093 9 (by decide)).2.1
      (by decide),
    (C3_capacity_boundary ex_fs ex_file (List.replicate 4092 7) 4092 9 (by decide)).2.2
      (by decide) (by decide!) (by decide!) (by decide) (by rw [List.length_replicate])
      (by decide) (by decide) (by decide) (by decide) (by decide!)⟩

/-- C4, the claim as stated fails: on the example image, which has 9 free data sectors,
writing 4096 bytes to a newly created file does not succeed: the call returns
`ERR_FILE_TOO_LARGE` and changes nothing. -/
theorem C4_counterexample :
    (filev6_create ex_fs 0 filev6_zero).1 = ERR_NONE
      ∧ ∀ fuel, filev6_writebytes fuel (filev6_create ex_fs 0 filev6_zero).2.1
          (filev6_create ex_fs 0 filev6_zero).2.2 (List.replicate 4096 7) 4096
        = .ret (ERR_FILE_TOO_LARGE, (filev6_create ex_fs 0 filev6_zero).2.1,
            (filev6_create ex_fs 0 filev6_zero).2.2) :=
  ⟨by decide!, fun fuel => writebytes_too_large fuel _ _ _ 4096
    (by have := inode_getsize_lt (filev6_create ex_fs 0 filev6_zero).2.2.i_node; omega)
    (by simp only [ADDR_SMALL_LENGTH, SECTOR_SIZE]; omega)⟩

/-- C4, amended. For every byte string `b` of length `N` with
`ADDR_SMALL_LENGTH*SECTOR_SIZE ≤ N < (ADDR_SMALL_LENGTH-1)*ADDRESSES_PER_SECTOR*SECTOR_SIZE`,
`filev6_writebytes` on a newly created file (the inode bitmap starting at the root inode)
returns `ERR_FILE_TOO_LARGE` and changes neither the handle nor the file system; the file
stays empty, reading it from offset 0 with `filev6_readblock` yields no byte. -/
theorem C4_indirect_range_rejected (u : unix_filesystem) (mode : Nat) (fv0 : filev6)
    (b : List Nat) (fuel : Nat) (hibm : ROOT_INUMBER ≤ u.ibm.min)
    (hcreate : (filev6_create u mode fv0).1 = ERR_NONE)
    (hN1 : ADDR_SMALL_LENGTH * SECTOR_SIZE ≤ b.length)
    (hN2 : b.length < (ADDR_SMALL_LENGTH - 1) * ADDRESSES_PER_SECTOR * SECTOR_SIZE) :
    filev6_writebytes fuel (filev6_create u mode fv0).2.1 (filev6_create u mode fv0).2.2
        b b.length
      = .ret (ERR_FILE_TOO_LARGE, (filev6_create u mode fv0).2.1, (filev6_create u mode fv0).2.2)
    ∧ filev6_readall (filev6_create u mode fv0).2.1 (filev6_create u mode fv0).2.2
      = .ret (0, (filev6_create u mode fv0).2.2, []) := by
  obtain ⟨g1, g2, _⟩ :=
    filev6_create_inv u mode fv0 hibm (Prod.ext hcreate rfl)
  generalize (filev6_create u mode fv0).2.1 = u0 at *
  generalize (filev6_create u mode fv0).2.2 = fv at *
  have hsz : inode_getsize fv.i_node = 0 := by rw [g1]; simp [inode_getsize, inode_zero]
  simp only [ADDR_SMALL_LENGTH, ADDRESSES_PER_SECTOR, SECTOR_SIZE] at hN1 hN2
  constructor
  · apply writebytes_too_large
    · rw [hsz]; omega
    · simp only [ADDR_SMALL_LENGTH, SECTOR_SIZE]; omega
  · apply readall_empty
    rw [hsz, g2]; rfl

/-- C4 instantiated on the example image with 4096 bytes. -/
theorem C4_witness :
    filev6_writebytes 9 (filev6_create ex_fs 0 filev6_zero).2.1
        (filev6_create ex_fs 0 filev6_zero).2.2 (List.replicate 4096 7)
        (List.replicate 4096 7).length
      = .ret (ERR_FILE_TOO_LARGE, (filev6_create ex_fs 0 filev6_zero).2.1,
          (filev6_create ex_fs 0 filev6_zero).2.2)
    ∧ filev6_readall (filev6_create ex_fs 0 filev6_zero).2.1
        (filev6_create ex_fs 0 filev6_zero).2.2
      = .ret (0, (filev6_create ex_fs 0 filev6_zero).2.2, []) :=
  C4_indirect_range_rejected ex_fs 0 filev6_zero (List.replicate 4096 7) 9 (by decide)
    (by decide!) (by rw [List.length_replicate]; decide) (by rw [List.length_replicate]; decide)

/-! ## Strings and segments -/

theorem take_length_takeWhile {α : Type} (p : α → Bool) (l : List α) :
    l.take (l.takeWhile p).length = l.takeWhile p := by
  induction l with
  | nil => rfl
  | cons a l ih =>
    rw [List.takeWhile_cons]
    split
    · simp [ih]
    · simp

theorem drop_length_takeWhile {α : Type} (p : α → Bool) (l : List α) :
    l.drop (l.takeWhile p).length = l.dropWhile p := by
  induction l with
  | nil => rfl
  | cons a l ih =>
    rw [List.takeWhile_cons, List.dropWhile_cons]
    split
    · simp [ih]
    · simp

theorem cstr_slashes (l : List Nat) :
    cstr l = l.takeWhile (fun c => c == 47) ++ cstr (l.dropWhile (fun c => c == 47)) := by
  induction l with
  | nil => rfl
  | cons a l ih =>
    rw [List.takeWhile_cons, List.dropWhile_cons]
    by_cases h : a = 47
    · subst h
      simp only [beq_self_eq_true, if_true, List.cons_append]
      rw [← ih]
      simp [cstr, List.takeWhile_cons]
    · simp [h]

theorem cstr_word (l : List Nat) :
    cstr l = l.takeWhile (fun c => c != 47 && c != 0)
      ++ cstr (l.dropWhile (fun c => c != 47 && c != 0)) := by
  induction l with
  | nil => rfl
  | cons a l ih =>
    rw [List.takeWhile_cons, List.dropWhile_cons]
    by_cases h : (a != 47 && a != 0) = true
    · simp only [h, if_true, List.cons_append]
      rw [← ih]
      have h0 : a ≠ 0 := by
        simp only [Bool.and_eq_true, bne_iff_ne, ne_eq] at h
        exact h.2
      simp [cstr, List.takeWhile_cons, h0]
    · simp [h]

theorem cstr_rest_shape (l : List Nat) :
    cstr (l.dropWhile (fun c => c != 47 && c != 0)) = [] ∨
      (cstr (l.dropWhile (fun c => c != 47 && c != 0))).head? = some 47 := by
  induction l with
  | nil => left; rfl
  | cons a l ih =>
    rw [List.dropWhile_cons]
    by_cases h : (a != 47 && a != 0) = true
    · simp only [h, if_true]; exact ih
    · simp only [h]
      simp only [Bool.and_eq_true, bne_iff_ne, ne_eq, not_and, not_not] at h
      by_cases h47 : a = 47
      · right; subst h47; simp [cstr, List.takeWhile_cons]
      · left; simp [cstr, List.takeWhile_cons, h h47]

theorem splitOn_slash_cons (l : List Nat) :
    List.splitOn 47 (47 :: l) = [] :: List.splitOn 47 l := by
  simp [List.splitOn, List.splitOnP_cons]

theorem splitOn_word (w r : List Nat) (hw : ∀ c ∈ w, c ≠ 47) :
    List.splitOn 47 (w ++ r) = List.modifyHead (fun s => w ++ s) (List.splitOn 47 r) := by
  induction w with
  | nil =>
    simp only [List.nil_append]
    cases h : List.splitOn 47 r with
    | nil => rfl
    | cons a t => rfl
  | cons c w ih =>
    have hc : c ≠ 47 := hw c (List.mem_cons_self _ _)
    have ih2 := ih (fun x hx => hw x (List.mem_cons_of_mem _ hx))
    simp only [List.splitOn] at ih2 ⊢
    rw [List.cons_append, List.splitOnP_cons]
    simp only [beq_iff_eq, hc, if_false]
    rw [ih2]
    cases List.splitOnP (fun x => x == 47) r with
    | nil => rfl
    | cons a t => rfl

theorem segments_slashes (l : List Nat) :
    segments (l.dropWhile (fun c => c == 47)) = segments l := by
  unfold segments
  rw [cstr_slashes l]
  generalize cstr (l.dropWhile (fun c => c == 47)) = r
  have hall : ∀ c ∈ l.takeWhile (fun c => c == 47), c = 47 := by
    intro c hc
    have := List.mem_takeWhile_imp hc
    simpa using this
  generalize l.takeWhile (fun c => c == 47) = w at hall
  induction w with
  | nil => rfl
  | cons a w ih =>
    have ha : a = 47 := hall a (List.mem_cons_self _ _)
    subst ha
    rw [List.cons_append, splitOn_slash_cons]
    simp only [List.filter_cons, List.isEmpty_nil, Bool.not_true]
    exact ih (fun c hc => hall c (List.mem_cons_of_mem _ hc))

theorem segments_word (l : List Nat)
    (hne : l.takeWhile (fun c => c != 47 && c != 0) ≠ []) :
    segments l = l.takeWhile (fun c => c != 47 && c != 0)
      :: segments (l.dropWhile (fun c => c != 47 && c != 0)) := by
  unfold segments
  rw [cstr_word l]
  have hshape := cstr_rest_shape l
  generalize cstr (l.dropWhile (fun c => c != 47 && c != 0)) = r at hshape
  have hall : ∀ c ∈ l.takeWhile (fun c => c != 47 && c != 0), c ≠ 47 := by
    intro c hc
    have := List.mem_takeWhile_imp hc
    simp only [Bool.and_eq_true, bne_iff_ne, ne_eq] at this
    exact this.1
  generalize l.takeWhile (fun c => c != 47 && c != 0) = w at hne hall
  rw [splitOn_word w r hall]
  have hwe : (!w.isEmpty) = true := by
    cases w with
    | nil => exact absurd rfl hne
    | cons a t => rfl
  rcases hshape with h | h
  · subst h
    simp [List.splitOn, List.splitOnP_nil, List.modifyHead, List.filter_cons, hwe]
  · cases r with
    | nil => simp at h
    | cons a r =>
      simp only [List.head?_cons, Option.some.injEq] at h
      subst h
      rw [splitOn_slash_cons]
      simp [List.modifyHead, List.filter_cons, hwe]

theorem strlen_slashes (l : List Nat) :
    strlen l = (l.takeWhile (fun c => c == 47)).length
      + strlen (l.dropWhile (fun c => c == 47)) := by
  unfold strlen
  conv_lhs => rw [cstr_slashes l]
  rw [List.length_append]

theorem strlen_word (l : List Nat) :
    strlen l = (l.takeWhile (fun c => c != 47 && c != 0)).length
      + strlen (l.dropWhile (fun c => c != 47 && c != 0)) := by
  unfold strlen
  conv_lhs => rw [cstr_word l]
  rw [List.length_append]

theorem word_ne_nil (l : List Nat) (h : strlen (l.dropWhile (fun c => c == 47)) ≠ 0) :
    (l.dropWhile (fun c => c == 47)).takeWhile (fun c => c != 47 && c != 0) ≠ [] := by
  induction l with
  | nil => simp [strlen, cstr] at h
  | cons a l ih =>
    rw [List.dropWhile_cons] at h ⊢
    by_cases ha : a = 47
    · subst ha
      simp only [beq_self_eq_true, if_true] at h ⊢
      exact ih h
    · simp only [beq_iff_eq, ha, if_false] at h ⊢
      have h0 : a ≠ 0 := by
        intro e
        subst e
        simp [strlen, cstr, List.takeWhile_cons] at h
      simp [List.takeWhile_cons, ha, h0]

theorem segments_of_strlen_zero (l : List Nat) (h : strlen l = 0) : segments l = [] := by
  unfold strlen at h
  unfold segments
  rw [List.length_eq_zero.mp h]
  rfl

theorem size_t_sub_eq (a b : Nat) (ha : a < 2 ^ 64) (hb : b ≤ a) : size_t_sub a b = a - b := by
  unfold size_t_sub
  omega

theorem dirlookup_core_eq_resolve (u : unix_filesystem) :
    ∀ (fuel inr : Nat) (entry : List Nat), strlen entry < fuel → strlen entry < 2 ^ 64 →
      direntv6_dirlookup_core u fuel inr entry (strlen entry)
        = resolve u inr (segments entry) := by
  intro fuel
  induction fuel with
  | zero => intro inr entry h; omega
  | succ fuel ih =>
    intro inr entry hfuel hlen
    rw [direntv6_dirlookup_core]
    by_cases h0 : strlen entry = 0
    · rw [if_pos h0, segments_of_strlen_zero entry h0, resolve]
    · rw [if_neg h0]
      have hs := strlen_slashes entry
      by_cases h1 : strlen (entry.dropWhile (fun c => c == 47)) = 0
      · simp only [h1, if_true]
        rw [← segments_slashes entry, segments_of_strlen_zero _ h1, resolve]
      · simp only [h1, if_false]
        have hw := strlen_word (entry.dropWhile (fun c => c == 47))
        have hne := word_ne_nil entry h1
        rw [← segments_slashes entry, segments_word _ hne, resolve, lookup_segment]
        have hpos : 0 < ((entry.dropWhile (fun c => c == 47)).takeWhile
            (fun c => c != 47 && c != 0)).length := List.length_pos.mpr hne
        rw [take_length_takeWhile, drop_length_takeWhile,
          size_t_sub_eq _ _ hlen (by omega), size_t_sub_eq _ _ (by omega) (by omega)]
        have hrest : strlen entry - (entry.takeWhile (fun c => c == 47)).length
            - ((entry.dropWhile (fun c => c == 47)).takeWhile
                (fun c => c != 47 && c != 0)).length
            = strlen ((entry.dropWhile (fun c => c == 47)).dropWhile
                (fun c => c != 47 && c != 0)) := by omega
        rw [hrest]
        by_cases hlong : ((entry.dropWhile (fun c => c == 47)).takeWhile
            (fun c => c != 47 && c != 0)).length > DIRENT_MAXLEN + 1
        · simp only [hlong, if_true]
        · simp only [hlong, if_false]
          by_cases ho : (direntv6_opendir u inr directory_reader_zero).1 ≠ ERR_NONE
          · rw [if_pos ho, if_pos ho]
          · rw [if_neg ho, if_neg ho]
            cases hscan : direntv6_dirlookup_scan u
                ((entry.dropWhile (fun c => c == 47)).takeWhile (fun c => c != 47 && c != 0)
                  ++ List.replicate (DIRENT_MAXLEN + 1
                    - ((entry.dropWhile (fun c => c == 47)).takeWhile
                        (fun c => c != 47 && c != 0)).length) 0)
                (inode_getsize (direntv6_opendir u inr directory_reader_zero).2.fv6.i_node
                  / DIRENT_SIZE + 2)
                (direntv6_opendir u inr directory_reader_zero).2
                (List.replicate DIRENT_MAXLEN 0) 0 with
            | undefined => rfl
            | nofuel => rfl
            | ret r =>
              rw [bind_ret, bind_ret]
              by_cases hr1 : r.1 < 0
              · rw [if_pos hr1, if_pos hr1]
              · rw [if_neg hr1, if_neg hr1]
                by_cases hr2 : r.1 = 0
                · rw [if_pos hr2, if_pos hr2]
                · rw [if_neg hr2, if_neg hr2]
                  exact ih r.2 _ (by omega) (by omega)

theorem dirlookup_eq_resolve (u : unix_filesystem) (inr : Nat) (p : List Nat)
    (hp : strlen p < 2 ^ 64) :
    direntv6_dirlookup u inr p = resolve u inr (segments p) := by
  unfold direntv6_dirlookup
  exact dirlookup_core_eq_resolve u _ inr p (by omega) hp

theorem strlen_le_length (p : List Nat) : strlen p ≤ p.length := by
  unfold strlen cstr
  exact (List.takeWhile_sublist _).length_le

/-! ## C5: resolution depends on the segments only -/

/-- C5. For every file system state, every starting inode and every two paths `p`, `q` (that
fit in memory) with the same list of non-empty `'/'`-delimited segments,
`direntv6_dirlookup` gives the same result on both (so `a/b/c`, `/a/b/c` and `a//b/c/` agree);
for a path with no segment the result is the starting inode number. The bound of
`DIRENT_MAXLEN` characters per segment is not needed for this. -/
theorem C5_dirlookup_depends_on_segments (u : unix_filesystem) (inr : Nat) (p q : List Nat)
    (hp : p.length < 2 ^ 64) (hq : q.length < 2 ^ 64) (hseg : segments p = segments q) :
    direntv6_dirlookup u inr p = direntv6_dirlookup u inr q
      ∧ (segments p = [] → direntv6_dirlookup u inr p = .ret (inr : Int)) := by
  have h1 := strlen_le_length p
  have h2 := strlen_le_length q
  constructor
  · rw [dirlookup_eq_resolve u inr p (by omega), dirlookup_eq_resolve u inr q (by omega), hseg]
  · intro h
    rw [dirlookup_eq_resolve u inr p (by omega), h, resolve]

/-- C5 on the example image: `a/b/c` and `a//b/c/` resolve alike from the root (to inode 4). -/
theorem C5_witness :
    direntv6_dirlookup ex_fs ROOT_INUMBER [97, 47, 98, 47, 99]
        = direntv6_dirlookup ex_fs ROOT_INUMBER [97, 47, 47, 98, 47, 99, 47]
      ∧ (segments [97, 47, 98, 47, 99] = [] →
          direntv6_dirlookup ex_fs ROOT_INUMBER [97, 47, 98, 47, 99]
            = .ret (ROOT_INUMBER : Int)) :=
  C5_dirlookup_depends_on_segments ex_fs ROOT_INUMBER [97, 47, 98, 47, 99]
    [97, 47, 47, 98, 47, 99, 47] (by decide) (by decide) (by decide)

/-! ## C6: the scan of one directory -/

theorem strncmp_eq_zero_iff (n : Nat) : ∀ (a b : List Nat),
    strncmp a b n = 0 ↔ cstr (a.take n) = cstr (b.take n) := by
  induction n with
  | zero => intro a b; simp [strncmp]
  | succ n ih =>
    intro a b
    rw [strncmp]
    cases a with
    | nil =>
      cases b with
      | nil => simp
      | cons y b =>
        by_cases hy : y = 0
        · subst hy; simp [cstr, List.takeWhile_cons]
        · have : ¬ (0 : Nat) = y := fun e => hy e.symm
          simp only [List.headD_nil, List.headD_cons, ne_eq, this, not_false_eq_true, if_true,
            List.take_nil, List.take_succ_cons]
          constructor
          · intro h; omega
          · intro h; simp [cstr, List.takeWhile_cons, hy] at h
    | cons x a =>
      cases b with
      | nil =>
        by_cases hx : x = 0
        · subst hx; simp [cstr, List.takeWhile_cons]
        · simp only [List.headD_nil, List.headD_cons, ne_eq, hx, not_false_eq_true, if_true,
            List.take_nil, List.take_succ_cons]
          constructor
          · intro h; omega
          · intro h; simp [cstr, List.takeWhile_cons, hx] at h
      | cons y b =>
        simp only [List.headD_cons, List.tail_cons, List.take_succ_cons]
        by_cases hxy : x = y
        · subst hxy
          simp only [ne_eq, not_true_eq_false, if_false]
          by_cases hx : x = 0
          · subst hx; simp [cstr, List.takeWhile_cons]
          · simp only [hx, if_false]
            rw [ih a b]
            simp [cstr, List.takeWhile_cons, hx]
        · simp only [ne_eq, hxy, not_false_eq_true, if_true]
          constructor
          · intro h; omega
          · intro h
            exfalso
            by_cases hx : x = 0
            · subst hx
              have hy : y ≠ 0 := fun e => hxy e.symm
              simp [cstr, List.takeWhile_cons, hy] at h
            · by_cases hy : y = 0
              · subst hy; simp [cstr, List.takeWhile_cons, hx] at h
              · simp [cstr, List.takeWhile_cons, hx, hy] at h
                exact hxy h.1

theorem cstr_append_zeros (s : List Nat) (k : Nat) (hs : ∀ c ∈ s, c ≠ 0) :
    cstr (s ++ List.replicate k 0) = s := by
  induction s with
  | nil =>
    cases k with
    | zero => rfl
    | succ k => simp [cstr, List.replicate_succ, List.takeWhile_cons]
  | cons a s ih =>
    have ha : a ≠ 0 := hs a (List.mem_cons_self _ _)
    have := ih (fun c hc => hs c (List.mem_cons_of_mem _ hc))
    simp only [cstr] at this ⊢
    simp [List.takeWhile_cons, ha, this]

theorem strncmp_repertory_name (seg name : List Nat) (hs : ∀ c ∈ seg, c ≠ 0)
    (hl : seg.length ≤ DIRENT_MAXLEN + 1) :
    strncmp (seg ++ List.replicate (DIRENT_MAXLEN + 1 - seg.length) 0) name DIRENT_MAXLEN = 0
      ↔ cstr (name.take DIRENT_MAXLEN) = seg.take DIRENT_MAXLEN := by
  rw [strncmp_eq_zero_iff]
  have e : (seg ++ List.replicate (DIRENT_MAXLEN + 1 - seg.length) 0).take DIRENT_MAXLEN
      = seg.take DIRENT_MAXLEN ++ List.replicate (DIRENT_MAXLEN - seg.length) 0 := by
    rw [List.take_append_eq_append_take, List.take_replicate]
    congr 2
    simp only [DIRENT_MAXLEN] at hl ⊢
    omega
  rw [e, cstr_append_zeros _ _ (fun c hc => hs c (List.mem_of_mem_take hc))]
  constructor
  · intro h; exact h.symm
  · intro h; exact h.symm

theorem mem_splitOnP_mem (p : Nat → Bool) : ∀ (l s : List Nat), s ∈ List.splitOnP p l →
    ∀ c ∈ s, c ∈ l ∧ p c = false := by
  intro l
  induction l with
  | nil =>
    intro s hs c hc
    rw [List.splitOnP_nil] at hs
    simp only [List.mem_singleton] at hs
    subst hs
    simp at hc
  | cons x xs ih =>
    intro s hs c hc
    rw [List.splitOnP_cons] at hs
    by_cases hx : p x = true
    · rw [if_pos hx] at hs
      rcases List.mem_cons.mp hs with h | h
      · subst h; simp at hc
      · have := ih s h c hc
        exact ⟨List.mem_cons_of_mem _ this.1, this.2⟩
    · rw [if_neg hx] at hs
      cases hsp : List.splitOnP p xs with
      | nil => rw [hsp] at hs; simp [List.modifyHead] at hs
      | cons h t =>
        rw [hsp] at hs
        simp only [List.modifyHead] at hs
        rcases List.mem_cons.mp hs with e | e
        · subst e
          rcases List.mem_cons.mp hc with e2 | e2
          · subst e2
            exact ⟨List.mem_cons_self _ _, by simpa using hx⟩
          · have := ih h (by rw [hsp]; exact List.mem_cons_self _ _) c e2
            exact ⟨List.mem_cons_of_mem _ this.1, this.2⟩
        · have := ih s (by rw [hsp]; exact List.mem_cons_of_mem _ e) c hc
          exact ⟨List.mem_cons_of_mem _ this.1, this.2⟩

theorem segments_chars (p s : List Nat) (hs : s ∈ segments p) : ∀ c ∈ s, c ≠ 0 ∧ c ≠ 47 := by
  intro c hc
  unfold segments at hs
  have h1 := (List.mem_filter.mp hs).1
  have h2 := mem_splitOnP_mem _ _ _ h1 c hc
  constructor
  · have := List.mem_takeWhile_imp h2.1
    simpa using this
  · simpa using h2.2

theorem readdir_indep (u : unix_filesystem) (d : directory_reader) (n n1 : List Nat)
    (c c1 : Nat) :
    (direntv6_readdir u d n c).1 = (direntv6_readdir u d n1 c1).1
      ∧ (direntv6_readdir u d n c).2.1 = (direntv6_readdir u d n1 c1).2.1
      ∧ (0 < (direntv6_readdir u d n c).1 →
          (direntv6_readdir u d n c).2.2 = (direntv6_readdir u d n1 c1).2.2) := by
  unfold direntv6_readdir
  by_cases h1 : d.cur = d.last
  · rw [if_pos h1, if_pos h1]
    by_cases h2 : (filev6_readblock u d.fv6 d.dirs).1 < 0
    · simp only [h2, if_true, true_and]
      intro h; omega
    · simp only [h2, if_false]
      by_cases h3 : (filev6_readblock u d.fv6 d.dirs).1.toNat / DIRENT_SIZE = 0
      · simp only [h3, if_true, true_and]
        intro h; simp only [ERR_NONE] at h; omega
      · simp only [h3, if_false, true_and]
        intro _; trivial
  · rw [if_neg h1, if_neg h1]
    exact ⟨rfl, rfl, fun _ => rfl⟩

theorem scan_of_listall (u : unix_filesystem) (rep : List Nat) :
    ∀ (fuel : Nat) (d : directory_reader) (recs : List (List Nat × Nat)) (name : List Nat)
      (newInr : Nat),
      direntv6_listall_loop u fuel d = .ret (0, recs) →
      ((∀ r ∈ recs, strncmp rep r.1 DIRENT_MAXLEN ≠ 0) →
          ∃ x, direntv6_dirlookup_scan u rep fuel d name newInr = .ret (0, x))
        ∧ (∀ pre nm ch post, recs = pre ++ (nm, ch) :: post →
            (∀ r ∈ pre, strncmp rep r.1 DIRENT_MAXLEN ≠ 0) → strncmp rep nm DIRENT_MAXLEN = 0 →
            ∃ c, 0 < c ∧ direntv6_dirlookup_scan u rep fuel d name newInr = .ret (c, ch)) := by
  intro fuel
  induction fuel with
  | zero =>
    intro d recs name newInr h
    simp [direntv6_listall_loop] at h
  | succ fuel ih =>
    intro d recs name newInr h
    rw [direntv6_listall_loop] at h
    obtain ⟨e1, e2, e3⟩ := readdir_indep u d name (List.replicate DIRENT_MAXLEN 0) newInr 0
    rw [direntv6_dirlookup_scan]
    by_cases h0 : (direntv6_readdir u d (List.replicate DIRENT_MAXLEN 0) 0).1 ≤ 0
    · simp only [h0, if_true] at h
      injection h with h
      have hz : (direntv6_readdir u d (List.replicate DIRENT_MAXLEN 0) 0).1 = 0 :=
        congrArg Prod.fst h
      have hr : recs = [] := (congrArg Prod.snd h).symm
      subst hr
      rw [e1, hz]
      simp only [lt_self_iff_false, if_false, false_and]
      exact ⟨fun _ => ⟨_, rfl⟩, fun pre nm ch post hp => by simp at hp⟩
    · simp only [h0, if_false] at h
      have hpos : 0 < (direntv6_readdir u d name newInr).1 := by rw [e1]; omega
      have e4 := e3 hpos
      cases hrest : direntv6_listall_loop u fuel
          (direntv6_readdir u d (List.replicate DIRENT_MAXLEN 0) 0).2.1 with
      | undefined => rw [hrest] at h; simp [Outcome.bind] at h
      | nofuel => rw [hrest] at h; simp [Outcome.bind] at h
      | ret t =>
        rw [hrest, bind_ret] at h
        injection h with h
        have ht : t.1 = 0 := congrArg Prod.fst h
        have hrecs : recs = ((direntv6_readdir u d (List.replicate DIRENT_MAXLEN 0) 0).2.2.1,
            (direntv6_readdir u d (List.replicate DIRENT_MAXLEN 0) 0).2.2.2) :: t.2 :=
          (congrArg Prod.snd h).symm
        have ih2 := ih (direntv6_readdir u d (List.replicate DIRENT_MAXLEN 0) 0).2.1 t.2
          (direntv6_readdir u d name newInr).2.2.1 (direntv6_readdir u d name newInr).2.2.2
          (by rw [hrest]; exact congrArg Outcome.ret (Prod.ext ht rfl))
        rw [if_neg (by omega : ¬ (direntv6_readdir u d name newInr).1 < 0)]
        rw [e2, e4]
        rw [e4] at ih2
        constructor
        · intro hall
          have hhead := hall _ (by rw [hrecs]; exact List.mem_cons_self _ _)
          rw [if_pos ⟨hpos, hhead⟩]
          exact ih2.1 (fun r hr => hall r (by rw [hrecs]; exact List.mem_cons_of_mem _ hr))
        · intro pre nm ch post hp hpre hm
          cases pre with
          | nil =>
            rw [hrecs, List.nil_append] at hp
            injection hp with hp1 hp2
            have hnm := congrArg Prod.fst hp1
            have hch := congrArg Prod.snd hp1
            simp only [] at hnm hch
            rw [if_neg (by rw [hnm]; exact fun hc => hc.2 hm)]
            exact ⟨_, hpos, by rw [hch]⟩
          | cons x pre =>
            rw [hrecs, List.cons_append] at hp
            injection hp with hp1 hp2
            have hx := hpre x (List.mem_cons_self _ _)
            rw [← hp1] at hx
            rw [if_pos ⟨hpos, hx⟩]
            exact ih2.2 pre nm ch post hp2
              (fun r hr => hpre r (List.mem_cons_of_mem _ hr)) hm

theorem lookup_segment_of_listall (u : unix_filesystem) (inr : Nat) (seg : List Nat)
    (recs : List (List Nat × Nat)) (hs : ∀ c ∈ seg, c ≠ 0) (hl : seg.length ≤ DIRENT_MAXLEN + 1)
    (hlist : direntv6_listall u inr = .ret (0, recs)) :
    ((∀ r ∈ recs, cstr (r.1.take DIRENT_MAXLEN) ≠ seg.take DIRENT_MAXLEN) →
        lookup_segment u inr seg = .ret (.error ERR_NO_SUCH_FILE))
      ∧ (∀ pre nm ch post, recs = pre ++ (nm, ch) :: post →
          (∀ r ∈ pre, cstr (r.1.take DIRENT_MAXLEN) ≠ seg.take DIRENT_MAXLEN) →
          cstr (nm.take DIRENT_MAXLEN) = seg.take DIRENT_MAXLEN →
          lookup_segment u inr seg = .ret (.ok ch)) := by
  unfold direntv6_listall at hlist
  by_cases ho : (direntv6_opendir u inr directory_reader_zero).1 ≠ ERR_NONE
  · rw [if_pos ho] at hlist
    injection hlist with h
    exact absurd (congrArg Prod.fst h) ho
  · rw [if_neg ho] at hlist
    have hsc := scan_of_listall u (seg ++ List.replicate (DIRENT_MAXLEN + 1 - seg.length) 0) _ _
      recs (List.replicate DIRENT_MAXLEN 0) 0 hlist
    unfold lookup_segment
    rw [if_neg (by omega), if_neg ho]
    constructor
    · intro hall
      obtain ⟨x, hx⟩ := hsc.1 (fun r hr hc =>
        hall r hr ((strncmp_repertory_name seg r.1 hs hl).mp hc))
      rw [hx, bind_ret]
      rfl
    · intro pre nm ch post hp hpre hm
      obtain ⟨c, hc, hx⟩ := hsc.2 pre nm ch post hp
        (fun r hr hc => hpre r hr ((strncmp_repertory_name seg r.1 hs hl).mp hc))
        ((strncmp_repertory_name seg nm hs hl).mpr hm)
      rw [hx, bind_ret]
      simp only []
      rw [if_neg (by omega), if_neg (by omega)]

/-- Lookup of one segment that fits the array `repertory_name`. Let the path `p` have first
segment `seg` of at most `DIRENT_MAXLEN + 1` characters and let `q` be a path holding the
remaining segments; let the inode `inr` reached so far be a directory that
`direntv6_opendir` opens and that `direntv6_readdir` lists to its end as `recs`. Names are
compared over at most `DIRENT_MAXLEN` characters. If no record of `recs` has a name equal to
`seg`, `direntv6_dirlookup` returns `ERR_NO_SUCH_FILE`; if a record matches, resolution
continues with the child inode number of the first matching record in directory order: the
result is that of resolving `q` from it. -/
theorem dirlookup_segment_match (u : unix_filesystem) (inr : Nat) (p q seg : List Nat)
    (recs : List (List Nat × Nat)) (hp : p.length < 2 ^ 64) (hq : q.length < 2 ^ 64)
    (hsegs : segments p = seg :: segments q) (hl : seg.length ≤ DIRENT_MAXLEN + 1)
    (hlist : direntv6_listall u inr = .ret (0, recs)) :
    ((∀ r ∈ recs, cstr (r.1.take DIRENT_MAXLEN) ≠ seg.take DIRENT_MAXLEN) →
        direntv6_dirlookup u inr p = .ret ERR_NO_SUCH_FILE)
      ∧ (∀ pre nm ch post, recs = pre ++ (nm, ch) :: post →
          (∀ r ∈ pre, cstr (r.1.take DIRENT_MAXLEN) ≠ seg.take DIRENT_MAXLEN) →
          cstr (nm.take DIRENT_MAXLEN) = seg.take DIRENT_MAXLEN →
          direntv6_dirlookup u inr p = direntv6_dirlookup u ch q) := by
  have h1 := strlen_le_length p
  have h2 := strlen_le_length q
  have hs : ∀ c ∈ seg, c ≠ 0 := fun c hc =>
    (segments_chars p seg (by rw [hsegs]; exact List.mem_cons_self _ _) c hc).1
  obtain ⟨k1, k2⟩ := lookup_segment_of_listall u inr seg recs hs hl hlist
  rw [dirlookup_eq_resolve u inr p (by omega), hsegs, resolve]
  constructor
  · intro hall
    rw [k1 hall]
  · intro pre nm ch post hrec hpre hm
    rw [k2 pre nm ch post hrec hpre hm, dirlookup_eq_resolve u ch q (by omega)]

/-- On the example image, whose root directory lists as the single record (`a`, 2): `x/b` is
not found, and `a/b` resolves as `b` does from inode 2. -/
theorem dirlookup_segment_match_example :
    direntv6_dirlookup ex_fs ROOT_INUMBER [120, 47, 98] = .ret ERR_NO_SUCH_FILE
      ∧ direntv6_dirlookup ex_fs ROOT_INUMBER [97, 47, 98] = direntv6_dirlookup ex_fs 2 [98] :=
  ⟨(dirlookup_segment_match ex_fs ROOT_INUMBER [120, 47, 98] [98] [120]
      [(97 :: List.replicate 13 0, 2)] (by decide) (by decide) (by decide!) (by decide)
      (by decide!)).1 (by decide!),
    (dirlookup_segment_match ex_fs ROOT_INUMBER [97, 47, 98] [98] [97]
      [(97 :: List.replicate 13 0, 2)] (by decide) (by decide) (by decide!) (by decide)
      (by decide!)).2 [] (97 :: List.replicate 13 0) 2 [] rfl (by decide) (by decide!)⟩

/-- C6, evaluation of the code at a failing input. On the image `ex_fs` the segment `a`
resolves from the root to the directory inode 2, which `direntv6_readdir` lists to its end as
the single record (`b`, 3). The next segment of the path `/a/xxxxxxxxxxxxxxxx` has 16
characters and equals the name of no record, over `DIRENT_MAXLEN` characters or otherwise, so
the claim asks for `ERR_NO_SUCH_FILE`. `direntv6_dirlookup_core` copies the segment into
`char repertory_name[DIRENT_MAXLEN+1]` with no test of its length: the sixteenth character is
stored past the end of the array, and the lookup leaves defined behaviour. -/
theorem C6_long_segment_not_reported :
    direntv6_dirlookup ex_fs ROOT_INUMBER [47, 97] = .ret 2
    ∧ direntv6_listall ex_fs 2 = .ret (0, [(98 :: List.replicate 13 0, 3)])
    ∧ cstr ((98 :: List.replicate 13 0).take DIRENT_MAXLEN) ≠ List.replicate 16 120
    ∧ cstr ((98 :: List.replicate 13 0).take DIRENT_MAXLEN)
        ≠ (List.replicate 16 120).take DIRENT_MAXLEN
    ∧ segments (47 :: 97 :: 47 :: List.replicate 16 120) = [[97], List.replicate 16 120]
    ∧ direntv6_dirlookup ex_fs ROOT_INUMBER (47 :: 97 :: 47 :: List.replicate 16 120)
        = .undefined := by
  decide!

/-! ## `direntv6_create`: the split of the path -/

theorem dropWhile_append_all {α : Type} (p : α → Bool) (a b : List α) (h : ∀ x ∈ a, p x = true) :
    (a ++ b).dropWhile p = b.dropWhile p := by
  induction a with
  | nil => rfl
  | cons x a ih =>
    rw [List.cons_append, List.dropWhile_cons, if_pos (h x (List.mem_cons_self _ _))]
    exact ih (fun y hy => h y (List.mem_cons_of_mem _ hy))

theorem cstr_of_no_nul (s : List Nat) (h : ∀ c ∈ s, c ≠ 0) : cstr s = s := by
  unfold cstr
  rw [List.takeWhile_eq_self_iff]
  intro c hc
  simpa using h c hc

theorem cstr_no_nul (p : List Nat) : ∀ c ∈ cstr p, c ≠ 0 := by
  intro c hc
  have := List.mem_takeWhile_imp hc
  simpa using this

theorem strip_length (parent name slashes : List Nat) (hname : ∀ c ∈ name, c ≠ 47)
    (hne : name ≠ []) (hsl : ∀ c ∈ slashes, c = 47) :
    ((parent ++ name ++ slashes).reverse.dropWhile (fun c => c == 47)).length
      = (parent ++ name).length := by
  rw [List.reverse_append, dropWhile_append_all _ _ _
    (fun x hx => by simpa using hsl x (List.mem_reverse.mp hx))]
  rw [List.reverse_append]
  cases hrev : name.reverse with
  | nil => exact absurd (List.reverse_eq_nil_iff.mp hrev) hne
  | cons c t =>
    have hc : c ≠ 47 := hname c (List.mem_reverse.mp (by rw [hrev]; exact List.mem_cons_self _ _))
    rw [List.cons_append, List.dropWhile_cons, if_neg (by simpa using hc)]
    rw [← List.cons_append, ← hrev, ← List.reverse_append, List.length_reverse]

theorem strrchr_slash_name (name : List Nat) (hname : ∀ c ∈ name, c ≠ 47) :
    strrchr_slash name = none := by
  unfold strrchr_slash
  rw [if_neg (fun h => hname 47 h rfl)]

theorem strrchr_slash_parent (parent name : List Nat) (hname : ∀ c ∈ name, c ≠ 47) :
    strrchr_slash (parent ++ 47 :: name) = some parent.length := by
  unfold strrchr_slash
  rw [if_pos (by simp)]
  have e : (parent ++ 47 :: name).reverse = name.reverse ++ 47 :: parent.reverse := by simp
  rw [e, List.indexOf_append_of_not_mem (fun h => hname 47 (List.mem_reverse.mp h) rfl),
    List.indexOf_cons_self]
  simp only [List.length_append, List.length_cons, List.length_reverse]
  congr 1
  omega

theorem strncpy_exact (s : List Nat) (n : Nat) (hs : ∀ c ∈ s, c ≠ 0) (hn : n ≤ s.length) :
    strncpy s n = s.take n := by
  unfold strncpy
  rw [cstr_of_no_nul s hs, List.length_take, Nat.min_eq_left hn, Nat.sub_self]
  simp

/-- The value of `direntv6_create` on a path whose characters are `pre ++ name ++ slashes`:
`pre` is empty or ends with a slash, `name` is the final component, `slashes` the trailing
slashes. -/
theorem direntv6_create_split (fuel : Nat) (u : unix_filesystem) (p : List Nat) (mode : Nat)
    (pre name slashes : List Nat) (hdec : cstr p = pre ++ name ++ slashes)
    (hpre : pre = [] ∨ ∃ par, pre = par ++ [47]) (hname : ∀ c ∈ name, c ≠ 47)
    (hne : name ≠ []) (hsl : ∀ c ∈ slashes, c = 47) :
    direntv6_create fuel u p mode =
      if name.length > DIRENT_MAXLEN then .ret (ERR_FILENAME_TOO_LONG, u)
      else
        (direntv6_dirlookup u ROOT_INUMBER pre.dropLast).bind fun parent_inr =>
          if parent_inr < ROOT_INUMBER then .ret (ERR_NO_SUCH_FILE, u)
          else
            (direntv6_dirlookup u ROOT_INUMBER p).bind fun inr_if_exists =>
              if inr_if_exists ≥ ROOT_INUMBER then .ret (ERR_FILENAME_ALREADY_EXISTS, u)
              else direntv6_create_append fuel u mode name
                (name.length + (if pre = [] then 0 else 1)) parent_inr := by
  have hnul := cstr_no_nul p
  rw [hdec] at hnul
  have hlen := strip_length pre name slashes hname hne hsl
  have hnl : 0 < name.length := List.length_pos.mpr hne
  have htemp : strncpy p (pre ++ name).length = pre ++ name := by
    unfold strncpy
    rw [hdec, List.take_left' rfl]
    simp
  have hnn : ∀ c ∈ name, c ≠ 0 := fun c hc => hnul c (by simp [hc])
  have hpn : ∀ c ∈ pre, c ≠ 0 := fun c hc => hnul c (by simp [hc])
  unfold direntv6_create
  simp only []
  rw [hdec, hlen, if_neg (by rw [List.length_append]; omega), htemp]
  rcases hpre with h | ⟨par, h⟩
  · subst h
    simp only [List.nil_append, strrchr_slash_name name hname, Option.getD_none, List.dropLast_nil,
      if_true, List.length_nil, Nat.zero_add, Nat.sub_zero, Nat.add_zero]
    have e0 : strncpy name 0 = [] := by simp [strncpy]
    rw [e0]
    unfold strlen
    rw [cstr_of_no_nul name hnn]
  · subst h
    have e1 : par ++ [47] ++ name = par ++ 47 :: name := by simp
    have hpar : ∀ c ∈ par, c ≠ 0 := fun c hc => hpn c (by simp [hc])
    rw [e1, strrchr_slash_parent par name hname]
    simp only [Option.getD_some, List.dropLast_concat]
    have e2 : (par ++ 47 :: name).drop (par.length + 1) = name := by
      rw [show par ++ 47 :: name = (par ++ [47]) ++ name by simp]
      exact List.drop_left' (by simp)
    have e3 : strncpy (par ++ 47 :: name) par.length = par := by
      rw [strncpy_exact _ _ (by
        intro c hc
        rcases List.mem_append.mp hc with h | h
        · exact hpar c h
        · rcases List.mem_cons.mp h with h | h
          · subst h; decide
          · exact hnn c h) (by simp)]
      exact List.take_left' rfl
    rw [e2, e3]
    unfold strlen
    rw [cstr_of_no_nul name hnn]
    have e4 : (par ++ 47 :: name).length - par.length = name.length + 1 := by
      simp only [List.length_append, List.length_cons]; omega
    have e5 : ¬ (par ++ [47] = []) := by simp
    rw [e4, if_neg e5]

/-! ## The codes that the second half of `direntv6_create` can return -/

theorem inode_write_code (u : unix_filesystem) (inr : Nat) (i : inode) :
    (inode_write u inr i).1 = ERR_NONE ∨ (inode_write u inr i).1 = ERR_INODE_OUT_OF_RANGE
      ∨ (inode_write u inr i).1 = ERR_IO := by
  unfold inode_write
  split
  · right; left; rfl
  · split
    · right; right; rfl
    · split
      · right; right; rfl
      · left; rfl

theorem filev6_create_code (u : unix_filesystem) (mode : Nat) (fv0 : filev6) :
    (filev6_create u mode fv0).1 ≠ ERR_FILENAME_TOO_LONG := by
  unfold filev6_create inode_alloc
  by_cases h : bm_find_next u.ibm < (ROOT_INUMBER : Int)
  · simp only [h, if_true]
    rcases bm_find_next_range u.ibm with e | e
    · rw [e]; decide
    · simp only [ERR_FILENAME_TOO_LONG]; omega
  · simp only [h, if_false]
    split
    · rcases inode_write_code { u with ibm := bm_set u.ibm (bm_find_next u.ibm).toNat }
        ((bm_find_next u.ibm).toNat % 65536) { inode_zero with i_mode := IALLOC ||| mode }
        with e | e | e <;> rw [e] <;> decide
    · show ERR_NONE ≠ ERR_FILENAME_TOO_LONG
      decide

theorem finish_code (s : Int × inode) (w : Int × unix_filesystem) (a : unix_filesystem)
    (b c d : filev6) (r : Int × unix_filesystem × filev6)
    (h1 : s.1 ≠ ERR_FILENAME_TOO_LONG) (h2 : w.1 ≠ ERR_FILENAME_TOO_LONG)
    (h : (if s.1 ≠ ERR_NONE then Outcome.ret (s.1, a, b)
      else if w.1 ≠ ERR_NONE then Outcome.ret (w.1, w.2, c)
      else Outcome.ret (ERR_NONE, w.2, d)) = Outcome.ret r) :
    r.1 ≠ ERR_FILENAME_TOO_LONG := by
  by_cases c1 : s.1 ≠ ERR_NONE
  · rw [if_pos c1] at h
    rw [← Outcome.ret.inj h]
    exact h1
  · rw [if_neg c1] at h
    by_cases c2 : w.1 ≠ ERR_NONE
    · rw [if_pos c2] at h
      rw [← Outcome.ret.inj h]
      exact h2
    · rw [if_neg c2] at h
      rw [← Outcome.ret.inj h]
      show ERR_NONE ≠ ERR_FILENAME_TOO_LONG
      decide

theorem inode_setsize_code (i : inode) (x : Int) :
    (inode_setsize i x).1 ≠ ERR_FILENAME_TOO_LONG := by
  unfold inode_setsize
  split
  · show ERR_BAD_PARAMETER ≠ ERR_FILENAME_TOO_LONG; decide
  · show ERR_NONE ≠ ERR_FILENAME_TOO_LONG; decide

theorem inode_write_code_ne (u : unix_filesystem) (n : Nat) (i : inode) :
    (inode_write u n i).1 ≠ ERR_FILENAME_TOO_LONG := by
  rcases inode_write_code u n i with e | e | e <;> rw [e] <;> decide

theorem writebytes_code (fuel : Nat) (u : unix_filesystem) (fv : filev6) (buf : List Nat)
    (len : Nat) (r : Int × unix_filesystem × filev6)
    (h : filev6_writebytes fuel u fv buf len = .ret r) : r.1 ≠ ERR_FILENAME_TOO_LONG := by
  unfold filev6_writebytes at h
  simp only [] at h
  split at h
  · rw [← Outcome.ret.inj h]; show ERR_FILE_TOO_LARGE ≠ ERR_FILENAME_TOO_LONG; decide
  · split at h
    · rw [← Outcome.ret.inj h]; show ERR_FILE_TOO_LARGE ≠ ERR_FILENAME_TOO_LONG; decide
    · cases hl : filev6_writebytes_loop buf len fuel u fv len 0 (inode_getsize fv.i_node) with
      | undefined => rw [hl] at h; simp [Outcome.bind] at h
      | nofuel => rw [hl] at h; simp [Outcome.bind] at h
      | ret t =>
        rw [hl, bind_ret] at h
        exact finish_code _ _ _ _ _ _ r (inode_setsize_code _ _) (inode_write_code_ne _ _ _) h
theorem create_append_code (fuel : Nat) (u : unix_filesystem) (mode : Nat) (name : List Nat)
    (n : Nat) (parent_inr : Int) (r : Int × unix_filesystem)
    (h : direntv6_create_append fuel u mode name n parent_inr = .ret r) :
    r.1 ≠ ERR_FILENAME_TOO_LONG := by
  unfold direntv6_create_append at h
  simp only [] at h
  split at h
  · rw [← Outcome.ret.inj h]
    exact filev6_create_code u mode filev6_zero
  · split at h
    · exact absurd h (by simp)
    · cases hw : filev6_writebytes fuel (filev6_create u mode filev6_zero).2.1
          { i_number := parent_inr.toNat % 65536,
            i_node := (inode_read (filev6_create u mode filev6_zero).2.1
              (parent_inr.toNat % 65536) inode_zero).2, offset := 0 }
          (strncpy name n ++ List.replicate (DIRENT_MAXLEN - n) 0
            ++ enc16 (filev6_create u mode filev6_zero).2.2.i_number) DIRENT_SIZE with
      | undefined => rw [hw] at h; simp [Outcome.bind] at h
      | nofuel => rw [hw] at h; simp [Outcome.bind] at h
      | ret w =>
        rw [hw, bind_ret] at h
        have hwc := writebytes_code _ _ _ _ _ w hw
        by_cases c : w.1 ≠ ERR_NONE
        · rw [if_pos c] at h
          rw [← Outcome.ret.inj h]
          exact hwc
        · rw [if_neg c] at h
          rw [← Outcome.ret.inj h]
          show ((filev6_create u mode filev6_zero).2.2.i_number : Int) ≠ ERR_FILENAME_TOO_LONG
          simp only [ERR_FILENAME_TOO_LONG]
          omega
/-! ## C9: over-long names -/

theorem bind_ne_ret_of {α β : Type} (x : Outcome α) (k : α → Outcome β) (b : β)
    (h : ∀ a, x = .ret a → k a ≠ .ret b) : x.bind k ≠ .ret b := by
  cases x with
  | ret a => rw [bind_ret]; exact h a rfl
  | undefined => intro hc; cases hc
  | nofuel => intro hc; cases hc

/-- C9: over-long names are rejected atomically. The characters of the path are
`pre ++ name ++ slashes`, where `slashes` are the trailing slashes, `name` is the (non-empty)
final component and `pre` is empty or ends with the last slash before the name. If `name` has
more than `DIRENT_MAXLEN` characters, `direntv6_create` returns filename-too-long and the file
system (image and both bitmaps) is the one given, whatever the parent and the path resolve to;
if `name` has exactly `DIRENT_MAXLEN` characters the call does not return filename-too-long. -/
theorem C9_overlong_name_rejected (fuel : Nat) (u : unix_filesystem) (p : List Nat) (mode : Nat)
    (pre name slashes : List Nat) (hdec : cstr p = pre ++ name ++ slashes)
    (hpre : pre = [] ∨ ∃ par, pre = par ++ [47]) (hname : ∀ c ∈ name, c ≠ 47)
    (hne : name ≠ []) (hsl : ∀ c ∈ slashes, c = 47) :
    (name.length > DIRENT_MAXLEN →
        direntv6_create fuel u p mode = .ret (ERR_FILENAME_TOO_LONG, u))
      ∧ (name.length = DIRENT_MAXLEN →
        ∀ u1, direntv6_create fuel u p mode ≠ .ret (ERR_FILENAME_TOO_LONG, u1)) := by
  rw [direntv6_create_split fuel u p mode pre name slashes hdec hpre hname hne hsl]
  constructor
  · intro h
    rw [if_pos h]
  · intro h u1
    rw [if_neg (by omega)]
    apply bind_ne_ret_of
    intro parent_inr _
    by_cases c1 : parent_inr < (ROOT_INUMBER : Int)
    · rw [if_pos c1]
      intro hc
      have hx : ERR_NO_SUCH_FILE = ERR_FILENAME_TOO_LONG := congrArg Prod.fst (Outcome.ret.inj hc)
      exact absurd hx (by decide)
    · rw [if_neg c1]
      apply bind_ne_ret_of
      intro inr_if_exists _
      by_cases c2 : inr_if_exists ≥ (ROOT_INUMBER : Int)
      · rw [if_pos c2]
        intro hc
        have hx : ERR_FILENAME_ALREADY_EXISTS = ERR_FILENAME_TOO_LONG :=
          congrArg Prod.fst (Outcome.ret.inj hc)
        exact absurd hx (by decide)
      · rw [if_neg c2]
        intro hc
        exact create_append_code _ _ _ _ _ _ _ hc rfl

/-- C9 on the example image: a name of 15 characters under the directory `/a` is refused and
the file system is unchanged; a name of 14 characters in the root is not refused for length. -/
theorem C9_witness :
    direntv6_create 3 ex_fs ([47, 97, 47] ++ List.replicate 15 120) 0
        = .ret (ERR_FILENAME_TOO_LONG, ex_fs)
      ∧ ∀ u1, direntv6_create 3 ex_fs (List.replicate 14 120) 0
        ≠ .ret (ERR_FILENAME_TOO_LONG, u1) :=
  ⟨(C9_overlong_name_rejected 3 ex_fs ([47, 97, 47] ++ List.replicate 15 120) 0 [47, 97, 47]
      (List.replicate 15 120) [] (by decide) (Or.inr ⟨[47, 97], rfl⟩) (by decide) (by decide)
      (by decide)).1 (by decide),
    (C9_overlong_name_rejected 3 ex_fs (List.replicate 14 120) 0 []
      (List.replicate 14 120) [] (by decide) (Or.inl rfl) (by decide) (by decide)
      (by decide)).2 (by decide)⟩
/-! ## C8: the path already resolves -/

theorem splitOn_ne_nil (l : List Nat) : List.splitOn 47 l ≠ [] := by
  unfold List.splitOn
  exact List.splitOnP_ne_nil _ _

theorem splitOn_append_sep (a b : List Nat) :
    List.splitOn 47 (a ++ 47 :: b) = List.splitOn 47 a ++ List.splitOn 47 b := by
  induction a with
  | nil =>
    rw [List.nil_append, splitOn_slash_cons]
    rfl
  | cons x a ih =>
    by_cases hx : x = 47
    · subst hx
      rw [List.cons_append, splitOn_slash_cons, splitOn_slash_cons, ih]
      rfl
    · have e1 := splitOn_word [x] (a ++ 47 :: b) (by simpa using hx)
      have e2 := splitOn_word [x] a (by simpa using hx)
      simp only [List.singleton_append] at e1 e2
      rw [List.cons_append, e1, e2, ih]
      cases h : List.splitOn 47 a with
      | nil => exact absurd h (splitOn_ne_nil a)
      | cons y ys => rfl

theorem splitOn_no_sep (w : List Nat) (hw : ∀ c ∈ w, c ≠ 47) : List.splitOn 47 w = [w] := by
  have e := splitOn_word w [] hw
  rw [List.append_nil] at e
  rw [e]
  show List.modifyHead (fun s => w ++ s) [[]] = [w]
  simp [List.modifyHead]

theorem segs_slashes (s : List Nat) (hs : ∀ c ∈ s, c = 47) :
    (List.splitOn 47 s).filter (fun t => !t.isEmpty) = [] := by
  induction s with
  | nil => rfl
  | cons x s ih =>
    have hx : x = 47 := hs x (List.mem_cons_self _ _)
    subst hx
    rw [splitOn_slash_cons]
    simp only [List.filter_cons, List.isEmpty_nil, Bool.not_true, Bool.false_eq_true, if_false]
    exact ih (fun c hc => hs c (List.mem_cons_of_mem _ hc))

theorem segs_name_slashes (name s : List Nat) (hname : ∀ c ∈ name, c ≠ 47) (hne : name ≠ [])
    (hs : ∀ c ∈ s, c = 47) :
    (List.splitOn 47 (name ++ s)).filter (fun t => !t.isEmpty) = [name] := by
  have hnm : (!name.isEmpty) = true := by
    cases name with
    | nil => exact absurd rfl hne
    | cons a l => rfl
  cases s with
  | nil =>
    rw [List.append_nil, splitOn_no_sep name hname]
    simp [hnm]
  | cons x s =>
    have hx : x = 47 := hs x (List.mem_cons_self _ _)
    subst hx
    rw [splitOn_append_sep, List.filter_append, splitOn_no_sep name hname,
      segs_slashes s (fun c hc => hs c (List.mem_cons_of_mem _ hc))]
    simp [hnm]

/-- The segments of a path whose characters are `pre ++ name ++ slashes`: those of the parent
portion followed by the final name. -/
theorem segments_split (p pre name slashes : List Nat) (hdec : cstr p = pre ++ name ++ slashes)
    (hpre : pre = [] ∨ ∃ par, pre = par ++ [47]) (hname : ∀ c ∈ name, c ≠ 47)
    (hne : name ≠ []) (hsl : ∀ c ∈ slashes, c = 47) :
    segments p = segments pre.dropLast ++ [name] := by
  have hnul := cstr_no_nul p
  rw [hdec] at hnul
  unfold segments
  rw [hdec]
  rcases hpre with h | ⟨par, h⟩
  · subst h
    rw [List.nil_append, segs_name_slashes name slashes hname hne hsl]
    rfl
  · subst h
    have hpar : cstr par = par := cstr_of_no_nul par (fun c hc => hnul c (by simp [hc]))
    rw [List.dropLast_concat, hpar]
    have e : par ++ [47] ++ name ++ slashes = par ++ 47 :: (name ++ slashes) := by simp
    rw [e, splitOn_append_sep, List.filter_append, segs_name_slashes name slashes hname hne hsl]
theorem inode_read_code (u : unix_filesystem) (inr : Nat) (i0 : inode) :
    ((inode_read u inr i0).1 = ERR_NONE ∧ ROOT_INUMBER ≤ inr ∧ inr < u.s.s_isize * INODES_PER_SECTOR)
      ∨ (inode_read u inr i0).1 < 0 := by
  unfold inode_read
  by_cases h : inr < ROOT_INUMBER ∨ inr ≥ u.s.s_isize * INODES_PER_SECTOR
  · rw [if_pos h]; right; show ERR_INODE_OUT_OF_RANGE < 0; decide
  · rw [if_neg h]
    cases hs : sector_read u.f (u.s.s_inode_start + inr / INODES_PER_SECTOR) with
    | none => right; show ERR_IO < 0; decide
    | some sec =>
      simp only []
      by_cases hm : (decode_inode ((sec.drop (INODE_SIZE * (inr % INODES_PER_SECTOR))).take
          INODE_SIZE)).i_mode &&& IALLOC = 0
      · rw [if_pos hm]; right; show ERR_UNALLOCATED_INODE < 0; decide
      · rw [if_neg hm]; left; exact ⟨rfl, by omega, by omega⟩

theorem opendir_code (u : unix_filesystem) (inr : Nat) (d0 : directory_reader) :
    ((direntv6_opendir u inr d0).1 = ERR_NONE ∧ ROOT_INUMBER ≤ inr)
      ∨ (direntv6_opendir u inr d0).1 < 0 := by
  unfold direntv6_opendir filev6_open
  simp only []
  rcases inode_read_code u inr filev6_zero.i_node with ⟨e, h1, _⟩ | e
  · simp only [e, ne_eq, not_true_eq_false, if_false]
    split
    · right; show ERR_INVALID_DIRECTORY_INODE < 0; decide
    · left; exact ⟨rfl, h1⟩
  · have hne : (inode_read u inr filev6_zero.i_node).1 ≠ ERR_NONE := by
      intro hc; rw [hc] at e; exact absurd e (by decide)
    simp only [hne, ne_eq, not_false_eq_true, if_true]
    right; exact e

theorem lookup_segment_code (u : unix_filesystem) (inr : Nat) (seg : List Nat) :
    (∀ e, lookup_segment u inr seg = .ret (.error e) → e < 0)
      ∧ (∀ c, lookup_segment u inr seg = .ret (.ok c) → ROOT_INUMBER ≤ inr) := by
  unfold lookup_segment
  simp only []
  split
  · exact ⟨fun e h => (by cases h), fun c h => (by cases h)⟩
  · rcases opendir_code u inr directory_reader_zero with ⟨e0, h1⟩ | e0
    · refine ⟨fun e h => ?_, fun c _ => h1⟩
      rw [if_neg (by rw [e0]; exact fun hc => hc rfl)] at h
      generalize direntv6_dirlookup_scan u (seg ++ List.replicate (DIRENT_MAXLEN + 1 - seg.length) 0)
          (inode_getsize (direntv6_opendir u inr directory_reader_zero).2.fv6.i_node / DIRENT_SIZE + 2)
          (direntv6_opendir u inr directory_reader_zero).2 (List.replicate DIRENT_MAXLEN 0) 0 = x at h
      cases x with
      | undefined => cases h
      | nofuel => cases h
      | ret r =>
        rw [bind_ret] at h
        by_cases c1 : r.1 < 0
        · rw [if_pos c1] at h
          have := Outcome.ret.inj h
          injection this with this
          omega
        · rw [if_neg c1] at h
          by_cases c2 : r.1 = 0
          · rw [if_pos c2] at h
            have := Outcome.ret.inj h
            injection this with this
            rw [← this]; show ERR_NO_SUCH_FILE < 0; decide
          · rw [if_neg c2] at h
            have := Outcome.ret.inj h
            cases this
    · refine ⟨fun e h => ?_, fun c h => ?_⟩
      · have hne : (direntv6_opendir u inr directory_reader_zero).1 ≠ ERR_NONE := by
          intro hc; rw [hc] at e0; exact absurd e0 (by decide)
        rw [if_pos hne] at h
        have := Outcome.ret.inj h
        injection this with this
        omega
      · have hne : (direntv6_opendir u inr directory_reader_zero).1 ≠ ERR_NONE := by
          intro hc; rw [hc] at e0; exact absurd e0 (by decide)
        rw [if_pos hne] at h
        have := Outcome.ret.inj h
        cases this

/-- If a list of segments followed by one more resolves to a valid inode number, the list
itself resolves to a valid inode number. -/
theorem resolve_snoc (u : unix_filesystem) (name : List Nat) (n : Int) (hn : ROOT_INUMBER ≤ n) :
    ∀ (a : List (List Nat)) (inr : Nat), resolve u inr (a ++ [name]) = .ret n →
      ∃ m : Int, resolve u inr a = .ret m ∧ ROOT_INUMBER ≤ m := by
  intro a
  induction a with
  | nil =>
    intro inr h
    refine ⟨inr, rfl, ?_⟩
    rw [List.nil_append] at h
    unfold resolve at h
    obtain ⟨k1, k2⟩ := lookup_segment_code u inr name
    cases hl : lookup_segment u inr name with
    | undefined => rw [hl] at h; cases h
    | nofuel => rw [hl] at h; cases h
    | ret r =>
      cases r with
      | error e =>
        rw [hl] at h
        have := k1 e hl
        have := Outcome.ret.inj h
        omega
      | ok c =>
        have := k2 c hl
        omega
  | cons seg rest ih =>
    intro inr h
    rw [List.cons_append] at h
    unfold resolve at h
    unfold resolve
    obtain ⟨k1, k2⟩ := lookup_segment_code u inr seg
    cases hl : lookup_segment u inr seg with
    | undefined => rw [hl] at h; cases h
    | nofuel => rw [hl] at h; cases h
    | ret r =>
      cases r with
      | error e =>
        rw [hl] at h
        have := k1 e hl
        have := Outcome.ret.inj h
        omega
      | ok c =>
        rw [hl] at h
        exact ih c h
theorem dropLast_no_nul (pre : List Nat) (h : ∀ c ∈ pre, c ≠ 0) : ∀ c ∈ pre.dropLast, c ≠ 0 :=
  fun c hc => h c (List.dropLast_subset pre hc)

/-- C8: duplicate creation is rejected atomically. The characters of the path are
`pre ++ name ++ slashes` (`name` the final component, of at most `DIRENT_MAXLEN` characters,
`slashes` the trailing slashes, `pre` empty or ending with the slash before the name). If the
path already resolves from the root to an inode number `n ≥ ROOT_INUMBER`, `direntv6_create`
returns filename-already-exists and the file system it leaves is the one it was given: the
image and both bitmaps are unchanged, so no inode is allocated. -/
theorem C8_duplicate_rejected (fuel : Nat) (u : unix_filesystem) (p : List Nat) (mode : Nat)
    (pre name slashes : List Nat) (n : Int) (hdec : cstr p = pre ++ name ++ slashes)
    (hpre : pre = [] ∨ ∃ par, pre = par ++ [47]) (hname : ∀ c ∈ name, c ≠ 47)
    (hne : name ≠ []) (hsl : ∀ c ∈ slashes, c = 47) (hlen : name.length ≤ DIRENT_MAXLEN)
    (hp : p.length < 2 ^ 64) (hres : direntv6_dirlookup u ROOT_INUMBER p = .ret n)
    (hn : ROOT_INUMBER ≤ n) :
    direntv6_create fuel u p mode = .ret (ERR_FILENAME_ALREADY_EXISTS, u) := by
  have hsp : strlen p < 2 ^ 64 := Nat.lt_of_le_of_lt (strlen_le_length p) hp
  have hnul := cstr_no_nul p
  rw [hdec] at hnul
  have hlp : strlen pre.dropLast < 2 ^ 64 := by
    have h1 : strlen p = (pre ++ name ++ slashes).length := by unfold strlen; rw [hdec]
    have h2 : strlen pre.dropLast ≤ pre.dropLast.length := strlen_le_length _
    have h3 : pre.dropLast.length ≤ pre.length := by rw [List.length_dropLast]; omega
    simp only [List.length_append] at h1
    omega
  have hr := hres
  rw [dirlookup_eq_resolve u ROOT_INUMBER p hsp,
    segments_split p pre name slashes hdec hpre hname hne hsl] at hr
  obtain ⟨m, hm, hm1⟩ := resolve_snoc u name n hn _ _ hr
  rw [direntv6_create_split fuel u p mode pre name slashes hdec hpre hname hne hsl,
    if_neg (by omega), dirlookup_eq_resolve u ROOT_INUMBER pre.dropLast hlp, hm, bind_ret,
    if_neg (by omega), hres, bind_ret, if_pos hn]

/-- C8 on the example image: `/a/b` resolves to inode 3, and creating it again is refused
with the file system unchanged. -/
theorem C8_witness :
    direntv6_create 3 ex_fs [47, 97, 47, 98] IFDIR = .ret (ERR_FILENAME_ALREADY_EXISTS, ex_fs) :=
  C8_duplicate_rejected 3 ex_fs [47, 97, 47, 98] IFDIR [47, 97, 47] [98] [] 3 (by decide)
    (Or.inr ⟨[47, 97], rfl⟩) (by decide) (by decide) (by decide) (by decide) (by decide)
    (by decide!) (by decide)
/-! ## C7 and C10: a final name of 14 characters behind a slash -/

/-- C7, evaluation of the code at a failing input. In the example image the root has no entry
`abcdefghijklmn` (14 characters). Creating `/abcdefghijklmn` passes the length check, the parent
and duplicate lookups and `filev6_create`, and then calls
`strncpy(direntv6.d_name, start_relativ, len - len_parent)` with `len - len_parent = 15`, the
slash being counted: 15 bytes are written into the 14-byte name field, which is undefined
behaviour, so the call has no defined result. -/
theorem C7_create_name14_after_slash :
    direntv6_create 3 ex_fs [47, 97, 98, 99, 100, 101, 102, 103, 104, 105, 106, 107, 108, 109, 110] 0
      = .undefined := by
  decide!

/-- C10, evaluation of the code at a failing input. In the example image the directory `/d`
is created as inode 5 and lists as empty; creating in it the entry `abcdefghijklmn`
(14 characters) runs into the same `strncpy` of 15 bytes into the 14-byte name field, so the
first of the creations that the listing is to report has no defined result. -/
theorem C10_create_name14_in_new_directory :
    (direntv6_create 3 ex_fs [47, 100] IFDIR).bind (fun r => .ret r.1) = .ret 5
      ∧ (direntv6_create 3 ex_fs [47, 100] IFDIR).bind (fun r => direntv6_listall r.2 5)
        = .ret (0, [])
      ∧ (direntv6_create 3 ex_fs [47, 100] IFDIR).bind (fun r =>
          direntv6_create 3 r.2
            [47, 100, 47, 97, 98, 99, 100, 101, 102, 103, 104, 105, 106, 107, 108, 109, 110] 0)
        = .undefined := by
  decide!
/-! ## C11: `filev6_lseek` -/

theorem i32_to_size_t (o : Int) (s : Nat) (ho : -2 ^ 31 ≤ o ∧ o < 2 ^ 31) (hs : s < 2 ^ 24) :
    ((o % 2 ^ 64).toNat = s ↔ o = (s : Int))
      ∧ (0 ≤ o → ((o % 2 ^ 64).toNat > s ↔ o > (s : Int))) := by
  constructor
  · constructor
    · intro h
      omega
    · intro h
      omega
  · intro h0
    omega

/-- C11: the result of a seek is fully determined. For every handle, whose inode has size `s`,
and every signed 32-bit offset `o`: `filev6_lseek` succeeds exactly when `o = s` or `o` is a
multiple of `SECTOR_SIZE` with `0 ≤ o ≤ s`, and then the handle has offset `o` and is otherwise
unchanged; in every other case the handle is unchanged and the result is bad-parameter when `o`
is not a multiple of `SECTOR_SIZE`, and offset-out-of-range when it is one (and so is negative
or beyond `s`). -/
theorem C11_lseek_determined (fv : filev6) (o : Int) (ho : -2 ^ 31 ≤ o ∧ o < 2 ^ 31) :
    ((filev6_lseek fv o).1 = ERR_NONE ↔
        (o = (inode_getsize fv.i_node : Int)
          ∨ ((SECTOR_SIZE : Int) ∣ o ∧ 0 ≤ o ∧ o ≤ (inode_getsize fv.i_node : Int))))
      ∧ ((filev6_lseek fv o).1 = ERR_NONE → (filev6_lseek fv o).2 = { fv with offset := o })
      ∧ ((filev6_lseek fv o).1 ≠ ERR_NONE →
          (filev6_lseek fv o).2 = fv
            ∧ (¬ (SECTOR_SIZE : Int) ∣ o → (filev6_lseek fv o).1 = ERR_BAD_PARAMETER)
            ∧ ((SECTOR_SIZE : Int) ∣ o → (filev6_lseek fv o).1 = ERR_OFFSET_OUT_OF_RANGE
                ∧ (o < 0 ∨ o > (inode_getsize fv.i_node : Int)))) := by
  have hs := inode_getsize_lt fv.i_node
  obtain ⟨k1, k2⟩ := i32_to_size_t o (inode_getsize fv.i_node) ho hs
  have hdvd : Int.tmod o SECTOR_SIZE = 0 ↔ (SECTOR_SIZE : Int) ∣ o := Int.dvd_iff_tmod_eq_zero.symm
  unfold filev6_lseek
  simp only []
  by_cases c1 : (o % 2 ^ 64).toNat = inode_getsize fv.i_node
  · rw [if_pos c1]
    exact ⟨⟨fun _ => Or.inl (k1.mp c1), fun _ => rfl⟩, fun _ => rfl, fun h => absurd rfl h⟩
  · rw [if_neg c1]
    have c1' : o ≠ (inode_getsize fv.i_node : Int) := fun h => c1 (k1.mpr h)
    by_cases c2 : Int.tmod o SECTOR_SIZE ≠ 0
    · rw [if_pos c2]
      have c2' : ¬ (SECTOR_SIZE : Int) ∣ o := fun h => c2 (hdvd.mpr h)
      have hbp : ERR_BAD_PARAMETER ≠ ERR_NONE := by decide
      refine ⟨⟨fun h => absurd h hbp, fun h => ?_⟩, fun h => absurd h hbp,
        fun _ => ⟨rfl, fun _ => rfl, fun h => absurd h c2'⟩⟩
      rcases h with h | ⟨h, _⟩
      · exact absurd h c1'
      · exact absurd h c2'
    · rw [if_neg c2]
      have c2' : (SECTOR_SIZE : Int) ∣ o := hdvd.mp (not_not.mp c2)
      by_cases c3 : o < 0 ∨ (o % 2 ^ 64).toNat > inode_getsize fv.i_node
      · rw [if_pos c3]
        have c3' : o < 0 ∨ o > (inode_getsize fv.i_node : Int) := by
          rcases c3 with h | h
          · exact Or.inl h
          · by_cases h0 : 0 ≤ o
            · exact Or.inr ((k2 h0).mp h)
            · exact Or.inl (by omega)
        have hbp : ERR_OFFSET_OUT_OF_RANGE ≠ ERR_NONE := by decide
        refine ⟨⟨fun h => absurd h hbp, fun h => ?_⟩, fun h => absurd h hbp,
          fun _ => ⟨rfl, fun h => absurd c2' h, fun _ => ⟨rfl, c3'⟩⟩⟩
        rcases h with h | ⟨_, h1, h2⟩
        · exact absurd h c1'
        · omega
      · rw [if_neg c3]
        have h0 : 0 ≤ o := by
          by_contra hc
          exact c3 (Or.inl (by omega))
        have h1 : o ≤ (inode_getsize fv.i_node : Int) := by
          by_contra hc
          exact c3 (Or.inr ((k2 h0).mpr (by omega)))
        exact ⟨⟨fun _ => Or.inr ⟨c2', h0, h1⟩, fun _ => rfl⟩, fun _ => rfl, fun h => absurd rfl h⟩

/-- C11 on the handle of the example file (3 bytes): seeking to 3 and to 0 succeeds, seeking
to 1 is a bad parameter and seeking to 512 is out of range. -/
theorem C11_witness :
    (filev6_lseek ex_file 3).1 = ERR_NONE ∧ (filev6_lseek ex_file 0).2 = { ex_file with offset := 0 }
      ∧ (filev6_lseek ex_file 1).1 = ERR_BAD_PARAMETER
      ∧ (filev6_lseek ex_file 512).1 = ERR_OFFSET_OUT_OF_RANGE :=
  ⟨(C11_lseek_determined ex_file 3 (by decide)).1.mpr (Or.inl (by decide)),
    (C11_lseek_determined ex_file 0 (by decide)).2.1 (by decide),
    ((C11_lseek_determined ex_file 1 (by decide)).2.2 (by decide)).2.1 (by decide),
    (((C11_lseek_determined ex_file 512 (by decide)).2.2 (by decide)).2.2 (by decide)).1⟩
/-! ## C12: `filev6_readblock` -/

theorem tdiv_512_nonneg (o : Int) (h : 0 ≤ Int.tdiv o 512) : -512 < o := by
  by_contra hc
  have e : o = -(-o) := by omega
  rw [e, Int.neg_tdiv, Int.tdiv_eq_ediv (by omega) (by decide)] at h
  omega

theorem findsector_nonneg_inv (u : unix_filesystem) (i : inode) (k : Int)
    (h : 0 ≤ inode_findsector u i k) :
    i.i_mode &&& IALLOC ≠ 0 ∧ 0 ≤ k ∧ k * SECTOR_SIZE < (inode_getsize i : Int) := by
  unfold inode_findsector at h
  simp only [] at h
  by_cases c1 : i.i_mode &&& IALLOC = 0
  · rw [if_pos c1] at h
    exact absurd h (by decide)
  · rw [if_neg c1] at h
    by_cases c2 : k < 0 ∨ k * SECTOR_SIZE ≥ (inode_getsize i : Int)
    · rw [if_pos c2] at h
      exact absurd h (by decide)
    · exact ⟨c1, by omega, by omega⟩

/-- C12: block read. For every handle with a signed 32-bit offset `o` and inode size `s`:
if `o = s`, `filev6_readblock` returns 0 and leaves handle and buffer unchanged; if `o < s`,
`inode_findsector` gives a sector (no error) for the logical sector `o / SECTOR_SIZE` and
the read of that sector succeeds, it returns `min(SECTOR_SIZE, s - o)`, the offset of the
handle is advanced by exactly that amount, nothing else in the handle changes, and the buffer
holds the content of that sector. -/
theorem C12_readblock (u : unix_filesystem) (fv : filev6) (buf0 : List Nat)
    (ho : -2 ^ 31 ≤ fv.offset ∧ fv.offset < 2 ^ 31) :
    (fv.offset = (inode_getsize fv.i_node : Int) → filev6_readblock u fv buf0 = (0, fv, buf0))
      ∧ (fv.offset < (inode_getsize fv.i_node : Int) →
          0 ≤ inode_findsector u fv.i_node (Int.tdiv fv.offset SECTOR_SIZE) →
          ∀ data, sector_read u.f
              (inode_findsector u fv.i_node (Int.tdiv fv.offset SECTOR_SIZE)).toNat = some data →
            filev6_readblock u fv buf0
                = (min (SECTOR_SIZE : Int) ((inode_getsize fv.i_node : Int) - fv.offset),
                    { fv with offset := (fv.offset
                        + min (SECTOR_SIZE : Int) ((inode_getsize fv.i_node : Int) - fv.offset)) },
                    data)
              ∧ data = sector_data u.f
                  (inode_findsector u fv.i_node (Int.tdiv fv.offset SECTOR_SIZE)).toNat) := by
  have hs := inode_getsize_lt fv.i_node
  constructor
  · intro h
    exact readblock_eof buf0 h
  · intro hlt hsec data hrd
    have hin := sector_read_some_bound hrd
    have hdata : data = sector_data u.f
        (inode_findsector u fv.i_node (Int.tdiv fv.offset SECTOR_SIZE)).toNat := by
      have h2 := sector_read_eq_data hin
      rw [hrd] at h2
      exact Option.some.inj h2
    refine ⟨?_, hdata⟩
    have hk := (findsector_nonneg_inv u fv.i_node _ hsec).2.1
    have hlow := tdiv_512_nonneg fv.offset hk
    unfold filev6_readblock
    simp only []
    have e1 : to_u32 fv.offset ≠ inode_getsize fv.i_node := by
      unfold to_u32; omega
    rw [if_neg e1, if_neg (by omega), hrd]
    simp only []
    have e0 : to_u32 (fv.offset + (SECTOR_SIZE : Nat)) = (fv.offset + 512).toNat := by
      unfold to_u32; simp only [SECTOR_SIZE, Nat.cast_ofNat]; omega
    rw [e0]
    by_cases c : (fv.offset + 512).toNat ≤ inode_getsize fv.i_node
    · rw [if_pos c]
      have c' : fv.offset + 512 ≤ (inode_getsize fv.i_node : Int) := by omega
      have e2 : min (SECTOR_SIZE : Int) ((inode_getsize fv.i_node : Int) - fv.offset) = 512 := by
        simp only [SECTOR_SIZE]; omega
      have e3 : to_i32 (fv.offset + ((SECTOR_SIZE : Nat) : Int)) = fv.offset + 512 := by
        unfold to_i32; simp only [SECTOR_SIZE, Nat.cast_ofNat]; omega
      rw [e2, e3]
      rfl
    · rw [if_neg c]
      have c' : (inode_getsize fv.i_node : Int) < fv.offset + 512 := by omega
      have e2 : min (SECTOR_SIZE : Int) ((inode_getsize fv.i_node : Int) - fv.offset)
          = (inode_getsize fv.i_node : Int) - fv.offset := by
        simp only [SECTOR_SIZE]; omega
      have e4 : ((to_u32 ((inode_getsize fv.i_node : Int) - fv.offset) : Nat) : Int)
          = (inode_getsize fv.i_node : Int) - fv.offset := by
        unfold to_u32; omega
      have e3 : to_i32 (fv.offset + ((to_u32 ((inode_getsize fv.i_node : Int) - fv.offset) : Nat) : Int))
          = fv.offset + ((inode_getsize fv.i_node : Int) - fv.offset) := by
        rw [e4]; unfold to_i32; omega
      have e5 : to_i32 ((inode_getsize fv.i_node : Int) - fv.offset)
          = (inode_getsize fv.i_node : Int) - fv.offset := by
        unfold to_i32; omega
      rw [e2, e3, e4, e5]

/-- C12 on the example file (3 bytes in sector 6): at offset 0 the call returns 3 bytes, moves
the offset to 3 and delivers sector 6; at offset 3 it returns 0. -/
theorem C12_witness :
    filev6_readblock ex_fs ex_file [] = (3, { ex_file with offset := 3 }, sector_data ex_disk 6)
      ∧ filev6_readblock ex_fs { ex_file with offset := 3 } [] = (0, { ex_file with offset := 3 }, []) :=
  ⟨((C12_readblock ex_fs ex_file [] (by decide)).2 (by decide) (by decide!)
      (sector_data ex_disk 6) (by decide!)).1,
    (C12_readblock ex_fs { ex_file with offset := 3 } [] (by decide)).1 (by decide)⟩
/-! ## C13, C14: `inode_findsector` -/

/-- C13: three-tier sector addressing. For every allocated inode of size `s` and every logical
sector offset `k` with `0 ≤ k` and `k*SECTOR_SIZE < s`: below the direct threshold
`ADDR_SMALL_LENGTH*SECTOR_SIZE`, `inode_findsector` returns `i_addr[k]`; from that threshold up
to the indirect capacity `(ADDR_SMALL_LENGTH-1)*ADDRESSES_PER_SECTOR*SECTOR_SIZE` it returns
entry `k mod ADDRESSES_PER_SECTOR` (a little-endian 16-bit number) of the sector whose number
is `i_addr[k / ADDRESSES_PER_SECTOR]`, when the read of that sector succeeds; at or above the
indirect capacity it fails with file-too-large. -/
theorem C13_three_tier_addressing (u : unix_filesystem) (i : inode) (k : Int)
    (hall : i.i_mode &&& IALLOC ≠ 0) (hk0 : 0 ≤ k)
    (hk : k * SECTOR_SIZE < (inode_getsize i : Int)) :
    (inode_getsize i < ADDR_SMALL_LENGTH * SECTOR_SIZE →
        inode_findsector u i k = ((i.i_addr.getD k.toNat 0 : Nat) : Int))
      ∧ (ADDR_SMALL_LENGTH * SECTOR_SIZE ≤ inode_getsize i →
          inode_getsize i < (ADDR_SMALL_LENGTH - 1) * ADDRESSES_PER_SECTOR * SECTOR_SIZE →
          ∀ data, sector_read u.f (i.i_addr.getD (k.toNat / ADDRESSES_PER_SECTOR) 0) = some data →
            inode_findsector u i k
              = ((le16 data (2 * (k.toNat % ADDRESSES_PER_SECTOR)) : Nat) : Int))
      ∧ ((ADDR_SMALL_LENGTH - 1) * ADDRESSES_PER_SECTOR * SECTOR_SIZE ≤ inode_getsize i →
          inode_findsector u i k = ERR_FILE_TOO_LARGE) := by
  unfold inode_findsector
  simp only []
  rw [if_neg hall, if_neg (by omega)]
  refine ⟨fun h => ?_, fun h1 h2 data hd => ?_, fun h => ?_⟩
  · rw [if_pos (by exact_mod_cast h)]
  · rw [if_neg (by simp only [ADDR_SMALL_LENGTH, SECTOR_SIZE] at *; omega),
      if_pos (by simp only [ADDR_SMALL_LENGTH, ADDRESSES_PER_SECTOR, SECTOR_SIZE] at *; omega), hd]
  · rw [if_neg (by simp only [ADDR_SMALL_LENGTH, ADDRESSES_PER_SECTOR, SECTOR_SIZE] at *; omega),
      if_neg (by simp only [ADDR_SMALL_LENGTH, ADDRESSES_PER_SECTOR, SECTOR_SIZE] at *; omega)]

/-- C13 on the inode of the example file (3 bytes, direct addressing): logical sector 0 is
sector 6. -/
theorem C13_witness : inode_findsector ex_fs ex_file_inode 0 = 6 :=
  (C13_three_tier_addressing ex_fs ex_file_inode 0 (by decide) (by decide) (by decide)).1
    (by decide)

/-- Below `2^22`, and for every offset when the inode is not allocated, the `int` product of
the range check is exact and `inode_findsector_c` returns what `inode_findsector` gives. -/
theorem findsector_c_eq (u : unix_filesystem) (i : inode) (k : Int)
    (h : i.i_mode &&& IALLOC = 0 ∨ k < 2 ^ 22) :
    inode_findsector_c u i k = .ret (inode_findsector u i k) := by
  unfold inode_findsector_c inode_findsector
  simp only []
  by_cases c0 : i.i_mode &&& IALLOC = 0
  · rw [if_pos c0, if_pos c0]
  · rw [if_neg c0, if_neg c0]
    have hk : k < 2 ^ 22 := h.resolve_left c0
    by_cases c1 : k < 0
    · rw [if_pos c1, if_pos (Or.inl c1)]
    · rw [if_neg c1, if_neg (by simp only [SECTOR_SIZE, Nat.cast_ofNat]; omega)]
      by_cases c2 : k * SECTOR_SIZE ≥ (inode_getsize i : Int)
      · rw [if_pos c2, if_pos (Or.inr c2)]
      · have c12 : ¬ (k < 0 ∨ k * SECTOR_SIZE ≥ (inode_getsize i : Int)) := by
          intro hh
          rcases hh with hh | hh
          · exact c1 hh
          · exact c2 hh
        rw [if_neg c2, if_neg c12]
        by_cases c3 : (inode_getsize i : Int) < ADDR_SMALL_LENGTH * SECTOR_SIZE
        · rw [if_pos c3, if_pos c3]
        · rw [if_neg c3, if_neg c3]
          by_cases c4 : (inode_getsize i : Int)
              < (ADDR_SMALL_LENGTH - 1) * ADDRESSES_PER_SECTOR * SECTOR_SIZE
          · rw [if_pos c4, if_pos c4]
            cases sector_read u.f (i.i_addr.getD (k.toNat / ADDRESSES_PER_SECTOR) 0) <;> rfl
          · rw [if_neg c4, if_neg c4]

/-- From `2^22` on, the range check of an allocated inode overflows `int`. -/
theorem findsector_c_overflow (u : unix_filesystem) (i : inode) (k : Int)
    (hall : i.i_mode &&& IALLOC ≠ 0) (hk : 2 ^ 22 ≤ k) :
    inode_findsector_c u i k = .undefined := by
  unfold inode_findsector_c
  simp only []
  rw [if_neg hall, if_neg (by omega),
    if_pos (by simp only [SECTOR_SIZE, Nat.cast_ofNat]; omega)]

/-- The callers in `filev6_readblock` pass `offset / SECTOR_SIZE` for an `int32_t` offset,
which is below `2^22`: there the `int` product of the range check is exact. -/
theorem findsector_c_of_offset (u : unix_filesystem) (i : inode) (o : Int)
    (ho : -2 ^ 31 ≤ o ∧ o < 2 ^ 31) :
    inode_findsector_c u i (Int.tdiv o SECTOR_SIZE)
      = .ret (inode_findsector u i (Int.tdiv o SECTOR_SIZE)) := by
  apply findsector_c_eq
  right
  simp only [SECTOR_SIZE, Nat.cast_ofNat]
  by_cases c : 0 ≤ o
  · rw [Int.tdiv_eq_ediv c (by decide)]
    omega
  · have e : o = -(-o) := by omega
    rw [e, Int.neg_tdiv, Int.tdiv_eq_ediv (by omega) (by decide)]
    omega

/-- Failures of the sector lookup where the arithmetic of the range check is exact. Whenever
the allocated bit of the inode is clear, `inode_findsector` returns unallocated-inode,
whatever the offset and the size. For an allocated inode and a logical sector offset `k`
below `2^22` (the offsets for which the product `k*SECTOR_SIZE` of the range check is
representable in a 32-bit `int`; file sizes are below `2^24`), it returns
offset-out-of-range exactly when `k < 0` or `k*SECTOR_SIZE ≥ size`; in particular every such
lookup on an allocated inode of size 0 fails with offset-out-of-range. -/
theorem findsector_failures (u : unix_filesystem) (i : inode) (k : Int) :
    (i.i_mode &&& IALLOC = 0 → inode_findsector_c u i k = .ret ERR_UNALLOCATED_INODE)
      ∧ (i.i_mode &&& IALLOC ≠ 0 → k < 2 ^ 22 →
          (inode_findsector_c u i k = .ret ERR_OFFSET_OUT_OF_RANGE
            ↔ (k < 0 ∨ k * SECTOR_SIZE ≥ (inode_getsize i : Int))))
      ∧ (i.i_mode &&& IALLOC ≠ 0 → k < 2 ^ 22 → inode_getsize i = 0 →
          inode_findsector_c u i k = .ret ERR_OFFSET_OUT_OF_RANGE) := by
  have key : i.i_mode &&& IALLOC ≠ 0 →
      (inode_findsector u i k = ERR_OFFSET_OUT_OF_RANGE
        ↔ (k < 0 ∨ k * SECTOR_SIZE ≥ (inode_getsize i : Int))) := by
    intro hall
    unfold inode_findsector
    simp only []
    rw [if_neg hall]
    by_cases c : k < 0 ∨ k * SECTOR_SIZE ≥ (inode_getsize i : Int)
    · rw [if_pos c]
      exact ⟨fun _ => c, fun _ => rfl⟩
    · rw [if_neg c]
      refine ⟨fun h => ?_, fun h => absurd h c⟩
      exfalso
      split at h
      · simp only [ERR_OFFSET_OUT_OF_RANGE] at h; omega
      · split at h
        · split at h
          · exact absurd h (by decide)
          · simp only [ERR_OFFSET_OUT_OF_RANGE] at h; omega
        · exact absurd h (by decide)
  refine ⟨fun h => ?_, fun hall hk => ?_, fun hall hk hz => ?_⟩
  · rw [findsector_c_eq u i k (Or.inl h)]
    unfold inode_findsector
    simp only []
    rw [if_pos h]
  · rw [findsector_c_eq u i k (Or.inr hk)]
    exact ⟨fun h => (key hall).mp (Outcome.ret.inj h), fun h => by rw [(key hall).mpr h]⟩
  · rw [findsector_c_eq u i k (Or.inr hk), (key hall).mpr ?_]
    rw [hz]
    by_cases c : k < 0
    · exact Or.inl c
    · exact Or.inr (by simp only [SECTOR_SIZE]; omega)

/-- On the example: the file inode (3 bytes) has no logical sector 1 and none below 0; an
unallocated inode has none at all. -/
theorem findsector_failures_example :
    inode_findsector_c ex_fs ex_file_inode 1 = .ret ERR_OFFSET_OUT_OF_RANGE
      ∧ inode_findsector_c ex_fs inode_zero 0 = .ret ERR_UNALLOCATED_INODE
      ∧ inode_findsector_c ex_fs { ex_file_inode with i_size1 := 0 } 0
          = .ret ERR_OFFSET_OUT_OF_RANGE :=
  ⟨((findsector_failures ex_fs ex_file_inode 1).2.1 (by decide) (by decide)).mpr
      (Or.inr (by decide)),
    (findsector_failures ex_fs inode_zero 0).1 (by decide),
    (findsector_failures ex_fs { ex_file_inode with i_size1 := 0 } 0).2.2 (by decide)
      (by decide) (by decide)⟩

/-- C14, evaluation of the code at a failing input. The file inode of the example is
allocated and has 3 bytes, and for the logical sector offset `k = 2^22 = 4194304`
`k*SECTOR_SIZE = 2^31 ≥ size`, so the claim asks for offset-out-of-range. The range check
computes `file_sec_off*SECTOR_SIZE` in `int`, where `2^31` is not representable: the signed
overflow is undefined behaviour, and `inode_findsector` does not return that code. With the
offset `2^22 - 1`, the last one whose product is representable, it does. -/
theorem C14_range_check_overflows :
    ex_file_inode.i_mode &&& IALLOC ≠ 0
    ∧ (4194304 : Int) * SECTOR_SIZE ≥ (inode_getsize ex_file_inode : Int)
    ∧ (4194304 : Int) * SECTOR_SIZE = 2 ^ 31
    ∧ inode_findsector_c ex_fs ex_file_inode 4194304 = .undefined
    ∧ inode_findsector_c ex_fs ex_file_inode 4194303 = .ret ERR_OFFSET_OUT_OF_RANGE := by
  decide

/-! ## C15: `inode_read` -/

/-- C15: inode read. For every file system and inode number `inr`, `inode_read` returns
inode-out-of-range if and only if `inr < ROOT_INUMBER` or `inr ≥ s_isize*INODES_PER_SECTOR`.
Otherwise, when the read of sector `s_inode_start + inr / INODES_PER_SECTOR` succeeds, the
inode delivered is the record decoded from slot `inr mod INODES_PER_SECTOR` of that sector
(the `INODE_SIZE` bytes at `INODE_SIZE * (inr mod INODES_PER_SECTOR)` of the sector as it
stands in the image), the result being unallocated-inode if the allocated bit of that record is
clear and success otherwise. The function takes the file system through a pointer to `const`
and has only these two results, so the image is not modified. -/
theorem C15_inode_read (u : unix_filesystem) (inr : Nat) (i0 : inode) :
    ((inode_read u inr i0).1 = ERR_INODE_OUT_OF_RANGE
        ↔ (inr < ROOT_INUMBER ∨ inr ≥ u.s.s_isize * INODES_PER_SECTOR))
      ∧ (ROOT_INUMBER ≤ inr → inr < u.s.s_isize * INODES_PER_SECTOR →
          ∀ sec, sector_read u.f (u.s.s_inode_start + inr / INODES_PER_SECTOR) = some sec →
            sec = sector_data u.f (u.s.s_inode_start + inr / INODES_PER_SECTOR)
              ∧ (inode_read u inr i0).2
                = decode_inode ((sec.drop (INODE_SIZE * (inr % INODES_PER_SECTOR))).take INODE_SIZE)
              ∧ ((inode_read u inr i0).2.i_mode &&& IALLOC = 0 →
                  (inode_read u inr i0).1 = ERR_UNALLOCATED_INODE)
              ∧ ((inode_read u inr i0).2.i_mode &&& IALLOC ≠ 0 →
                  (inode_read u inr i0).1 = ERR_NONE)) := by
  constructor
  · unfold inode_read
    by_cases h : inr < ROOT_INUMBER ∨ inr ≥ u.s.s_isize * INODES_PER_SECTOR
    · rw [if_pos h]
      exact ⟨fun _ => h, fun _ => rfl⟩
    · rw [if_neg h]
      refine ⟨fun hc => ?_, fun hc => absurd hc h⟩
      exfalso
      cases hs : sector_read u.f (u.s.s_inode_start + inr / INODES_PER_SECTOR) with
      | none =>
        rw [hs] at hc
        have hc2 : ERR_IO = ERR_INODE_OUT_OF_RANGE := hc
        exact absurd hc2 (by decide)
      | some sec =>
        rw [hs] at hc
        simp only [] at hc
        split at hc
        · have hc2 : ERR_UNALLOCATED_INODE = ERR_INODE_OUT_OF_RANGE := hc
          exact absurd hc2 (by decide)
        · have hc2 : ERR_NONE = ERR_INODE_OUT_OF_RANGE := hc
          exact absurd hc2 (by decide)
  · intro h1 h2 sec hsec
    have hdata : sec = sector_data u.f (u.s.s_inode_start + inr / INODES_PER_SECTOR) := by
      have h3 := sector_read_eq_data (sector_read_some_bound hsec)
      rw [hsec] at h3
      exact Option.some.inj h3
    refine ⟨hdata, ?_⟩
    unfold inode_read
    rw [if_neg (by omega), hsec]
    simp only []
    by_cases hm : (decode_inode ((sec.drop (INODE_SIZE * (inr % INODES_PER_SECTOR))).take
        INODE_SIZE)).i_mode &&& IALLOC = 0
    · rw [if_pos hm]
      exact ⟨rfl, fun _ => rfl, fun h => absurd hm h⟩
    · rw [if_neg hm]
      exact ⟨rfl, fun h => absurd h hm, fun _ => rfl⟩

/-- C15 on the example image (16 inode slots): inode 4 is the file inode, inode 0 and inode
16 are out of range, and inode 5 is read as unallocated. -/
theorem C15_witness :
    (inode_read ex_fs 0 inode_zero).1 = ERR_INODE_OUT_OF_RANGE
      ∧ (inode_read ex_fs 16 inode_zero).1 = ERR_INODE_OUT_OF_RANGE
      ∧ (inode_read ex_fs 5 inode_zero).1 = ERR_UNALLOCATED_INODE
      ∧ (inode_read ex_fs 4 inode_zero).1 = ERR_NONE :=
  ⟨(C15_inode_read ex_fs 0 inode_zero).1.mpr (Or.inl (by decide)),
    (C15_inode_read ex_fs 16 inode_zero).1.mpr (Or.inr (by decide)),
    ((C15_inode_read ex_fs 5 inode_zero).2 (by decide) (by decide)
      (sector_data ex_disk 2) (by decide!)).2.2.1 (by decide!),
    ((C15_inode_read ex_fs 4 inode_zero).2 (by decide) (by decide)
      (sector_data ex_disk 2) (by decide!)).2.2.2 (by decide!)⟩
/-! ## C16: `inode_write` -/

theorem exists_cons_of_length {α : Type} {n : Nat} (l : List α) (h : l.length = n + 1) :
    ∃ a t, l = a :: t ∧ t.length = n := by
  cases l with
  | nil => simp at h
  | cons a t => exact ⟨a, t, rfl, by simpa using h⟩

theorem enc16_le16 (x : Nat) (h : x < 65536) : x % 256 % 256 + 256 * (x / 256 % 256 % 256) = x := by
  omega

theorem decode_encode (i : inode) (h : inode_wf i) : decode_inode (encode_inode i) = i := by
  obtain ⟨mode, nlink, uid, gid, s0, s1, addr, ati, mti⟩ := i
  obtain ⟨h1, h2, h3, h4, h5, h6, h7, h8, h9, h10, h11, h12⟩ := h
  simp only [] at h1 h2 h3 h4 h5 h6 h7 h8 h9 h10 h11 h12
  have h7' : addr.length = 7 + 1 := h7
  obtain ⟨a0, t0, e0, k0⟩ := exists_cons_of_length addr h7'
  obtain ⟨a1, t1, e1, k1⟩ := exists_cons_of_length t0 (k0 : t0.length = 6 + 1)
  obtain ⟨a2, t2, e2, k2⟩ := exists_cons_of_length t1 (k1 : t1.length = 5 + 1)
  obtain ⟨a3, t3, e3, k3⟩ := exists_cons_of_length t2 (k2 : t2.length = 4 + 1)
  obtain ⟨a4, t4, e4, k4⟩ := exists_cons_of_length t3 (k3 : t3.length = 3 + 1)
  obtain ⟨a5, t5, e5, k5⟩ := exists_cons_of_length t4 (k4 : t4.length = 2 + 1)
  obtain ⟨a6, t6, e6, k6⟩ := exists_cons_of_length t5 (k5 : t5.length = 1 + 1)
  obtain ⟨a7, t7, e7, k7⟩ := exists_cons_of_length t6 (k6 : t6.length = 0 + 1)
  have e8 := List.length_eq_zero.mp k7
  have h9' : ati.length = 1 + 1 := h9
  obtain ⟨b0, s0', f0, j0⟩ := exists_cons_of_length ati h9'
  obtain ⟨b1, s1', f1, j1⟩ := exists_cons_of_length s0' (j0 : s0'.length = 0 + 1)
  have f2 := List.length_eq_zero.mp j1
  have h11' : mti.length = 1 + 1 := h11
  obtain ⟨c0, r0, g0, l0⟩ := exists_cons_of_length mti h11'
  obtain ⟨c1, r1, g1, l1⟩ := exists_cons_of_length r0 (l0 : r0.length = 0 + 1)
  have g2 := List.length_eq_zero.mp l1
  subst e8 e7 e6 e5 e4 e3 e2 e1 e0 f2 f1 f0 g2 g1 g0
  simp only [List.mem_cons, List.mem_singleton, forall_eq_or_imp, forall_eq, List.not_mem_nil,
    false_imp_iff, implies_true, and_true] at h8 h10 h12
  simp only [decode_inode, encode_inode, enc16, le16, byte_at, ADDR_SMALL_LENGTH, List.range,
    List.range.loop, List.flatMap, List.map, List.flatten, List.cons_append, List.nil_append,
    List.getD_cons_zero, List.getD_cons_succ, List.append_nil]
  simp only [inode.mk.injEq, List.cons.injEq, and_true]
  omega

theorem window_other {α : Type} (l d : List α) (b n c : Nat) (hd : d.length = n)
    (hb : b + n ≤ l.length) (hc : c + n ≤ b ∨ b + n ≤ c) :
    ((l.take b ++ d ++ l.drop (b + n)).drop c).take n = (l.drop c).take n := by
  apply List.ext_getElem?
  intro i
  rw [List.getElem?_take, List.getElem?_take, List.getElem?_drop, List.getElem?_drop,
    getElem?_window l d b n hd hb]
  by_cases hi : i < n
  · rw [if_pos hi, if_pos hi]
    rcases hc with h | h
    · rw [if_pos (by omega)]
    · rw [if_neg (by omega), if_neg (by omega)]
  · rw [if_neg hi, if_neg hi]

theorem prod_eq_of_fst {α β : Type} (p : α × β) (a : α) (h : p.1 = a) : p = (a, p.2) := by
  cases p
  cases h
  rfl

/-- C16: an inode write changes only its slot. If `inr` is out of range, `inode_write` returns
inode-out-of-range and the file system is unchanged. If `inode_write(inr, r)` succeeds, then
with `S = s_inode_start + inr / INODES_PER_SECTOR`: the superblock, both bitmaps and the length
of the image are unchanged; every sector stored elsewhere in the image than `S` has the same
content as before; every other inode record of sector `S` has the same bytes as before; and,
when `r` has the field widths of `struct inode` and its allocated bit set, `inode_read(inr)`
then succeeds and returns `r`. -/
theorem C16_inode_write_frame (u : unix_filesystem) (inr : Nat) (r : inode) :
    ((inr < ROOT_INUMBER ∨ inr ≥ u.s.s_isize * INODES_PER_SECTOR) →
        inode_write u inr r = (ERR_INODE_OUT_OF_RANGE, u))
      ∧ (∀ u1, inode_write u inr r = (ERR_NONE, u1) →
          (ROOT_INUMBER ≤ inr ∧ inr < u.s.s_isize * INODES_PER_SECTOR)
          ∧ u1.s = u.s ∧ u1.fbm = u.fbm ∧ u1.ibm = u.ibm ∧ u1.f.length = u.f.length
          ∧ (∀ m, sector_offset m ≠ sector_offset (u.s.s_inode_start + inr / INODES_PER_SECTOR) →
              sector_data u1.f m = sector_data u.f m)
          ∧ (∀ j, j < INODES_PER_SECTOR → j ≠ inr % INODES_PER_SECTOR →
              ((sector_data u1.f (u.s.s_inode_start + inr / INODES_PER_SECTOR)).drop
                  (INODE_SIZE * j)).take INODE_SIZE
                = ((sector_data u.f (u.s.s_inode_start + inr / INODES_PER_SECTOR)).drop
                  (INODE_SIZE * j)).take INODE_SIZE)
          ∧ (inode_wf r → r.i_mode &&& IALLOC ≠ 0 →
              ∀ i0, inode_read u1 inr i0 = (ERR_NONE, r))) := by
  constructor
  · intro h
    unfold inode_write
    rw [if_pos h]
  · intro u1 h
    obtain ⟨k1, k2, k3, k4, k5, k6, k7⟩ := inode_write_inv h
    have hsl := sector_data_length k3
    have hwl := length_window (sector_data u.f (u.s.s_inode_start + inr / 16)) (encode_inode r)
      (32 * (inr % 16)) 32 (encode_inode_length r) (by omega)
    unfold inode_write at h
    rw [if_neg (by simp only [ROOT_INUMBER, INODES_PER_SECTOR] at *; omega)] at h
    simp only [INODES_PER_SECTOR, INODE_SIZE, sector_read_eq_data k3] at h
    cases hw : sector_write u.f (u.s.s_inode_start + inr / 16)
        ((sector_data u.f (u.s.s_inode_start + inr / 16)).take (32 * (inr % 16)) ++ encode_inode r
          ++ (sector_data u.f (u.s.s_inode_start + inr / 16)).drop (32 * (inr % 16) + 32)) with
    | none =>
      rw [hw] at h
      have h2 : ERR_IO = ERR_NONE := congrArg Prod.fst h
      exact absurd h2 (by decide)
    | some f1 =>
      rw [hw] at h
      have hu1 : u1 = { u with f := f1 } := (congrArg Prod.snd h).symm
      have hsame := sector_data_write_same hw (by rw [hwl, hsl])
      refine ⟨⟨k1, k2⟩, k4, k5, k6, k7, ?_, ?_, ?_⟩
      · intro m hm
        rw [hu1]
        exact sector_data_write_other hw hm
      · intro j hj hne
        rw [hu1]
        show List.take 32 (List.drop (32 * j) (sector_data f1 (u.s.s_inode_start + inr / 16))) = _
        rw [hsame]
        simp only [INODES_PER_SECTOR] at hj hne
        exact window_other _ _ _ _ _ (encode_inode_length r) (by omega) (by omega)
      · intro hwf hall i0
        rw [hu1]
        unfold inode_read
        rw [if_neg (by simp only [ROOT_INUMBER, INODES_PER_SECTOR] at *; omega)]
        have hrd : sector_read f1 (u.s.s_inode_start + inr / 16) = some _ :=
          sector_read_write_same hw (by rw [hwl, hsl])
        simp only [INODES_PER_SECTOR, INODE_SIZE, hrd]
        rw [take_drop_window _ _ _ _ (encode_inode_length r) (by omega), decode_encode r hwf,
          if_neg hall]

/-- C16 on the example image: inode 5 is written with the record of a directory, which then
reads back, and writing inode 16 is refused. -/
theorem C16_witness :
    inode_read (inode_write ex_fs 5 (ex_dir_inode 7)).2 5 inode_zero = (ERR_NONE, ex_dir_inode 7)
      ∧ inode_write ex_fs 16 (ex_dir_inode 7) = (ERR_INODE_OUT_OF_RANGE, ex_fs) :=
  ⟨((C16_inode_write_frame ex_fs 5 (ex_dir_inode 7)).2 (inode_write ex_fs 5 (ex_dir_inode 7)).2
      (prod_eq_of_fst _ _ (by decide!))).2.2.2.2.2.2.2 (by decide) (by decide) inode_zero,
    (C16_inode_write_frame ex_fs 16 (ex_dir_inode 7)).1 (Or.inr (by decide))⟩
/-! ## C17: `inode_setsize` -/

/-- C17 as stated fails: `2^24` is a non-negative 32-bit size, `inode_setsize` accepts it, and
the size recombined from the two stored parts is 0, because `i_size0` keeps only the low 8
bits of `new_size >> 16`; the inode stored is the one that size 0 gives, so no recombination
of the stored parts can tell the two sizes apart. -/
theorem C17_counterexample :
    (inode_setsize inode_zero 16777216).1 = ERR_NONE
      ∧ inode_getsize (inode_setsize inode_zero 16777216).2 ≠ 16777216
      ∧ (inode_setsize inode_zero 16777216).2 = (inode_setsize inode_zero 0).2 := by
  decide

/-- C17, amended: size round trip. For every inode and every non-negative 32-bit `new_size`,
`inode_setsize` returns success, changes only the two size fields, and the size recombined
from them (`inode_getsize`) is `new_size` modulo `2^24`; so it is `new_size` itself for every
`new_size` with `0 ≤ new_size < 2^24`. For every negative `new_size` it returns bad-parameter
and leaves the inode unchanged. -/
theorem C17_size_round_trip (i : inode) (n : Int) :
    (0 ≤ n → n < 2 ^ 31 →
        (inode_setsize i n).1 = ERR_NONE
          ∧ (inode_setsize i n).2
            = { i with i_size0 := (inode_setsize i n).2.i_size0,
                       i_size1 := (inode_setsize i n).2.i_size1 }
          ∧ (inode_getsize (inode_setsize i n).2 : Int) = n % 2 ^ 24)
      ∧ (0 ≤ n → n < 2 ^ 24 →
          (inode_setsize i n).1 = ERR_NONE ∧ (inode_getsize (inode_setsize i n).2 : Int) = n)
      ∧ (n < 0 → inode_setsize i n = (ERR_BAD_PARAMETER, i)) := by
  have key : 0 ≤ n → (inode_setsize i n).1 = ERR_NONE
      ∧ (inode_setsize i n).2
        = { i with i_size0 := (inode_setsize i n).2.i_size0,
                   i_size1 := (inode_setsize i n).2.i_size1 }
      ∧ (inode_getsize (inode_setsize i n).2 : Int) = n % 2 ^ 24 := by
    intro h0
    unfold inode_setsize
    rw [if_neg (by omega)]
    refine ⟨rfl, rfl, ?_⟩
    simp only [inode_getsize]
    omega
  refine ⟨fun h0 _ => key h0, fun h0 h1 => ⟨(key h0).1, ?_⟩, fun h => ?_⟩
  · rw [(key h0).2.2]
    omega
  · unfold inode_setsize
    rw [if_pos h]

/-- C17 (amended) on the example: setting the size of the file inode to 70000 and to
`2^24 - 1` reads back as set, and -1 is refused. -/
theorem C17_witness :
    (inode_getsize (inode_setsize ex_file_inode 70000).2 : Int) = 70000
      ∧ (inode_getsize (inode_setsize ex_file_inode 16777215).2 : Int) = 16777215
      ∧ inode_setsize ex_file_inode (-1) = (ERR_BAD_PARAMETER, ex_file_inode) :=
  ⟨((C17_size_round_trip ex_file_inode 70000).2.1 (by decide) (by decide)).2,
    ((C17_size_round_trip ex_file_inode 16777215).2.1 (by decide) (by decide)).2,
    (C17_size_round_trip ex_file_inode (-1)).2.2 (by decide)⟩
/-! ## C18: the bitmaps that `mountv6` rebuilds -/

/-- C18, evaluation of the code at a failing input. The image `ex_ind_disk` holds the file
inode 2 of exactly `ADDR_SMALL_LENGTH*SECTOR_SIZE = 4096` bytes, whose sector chain is the
indirect sector 4 and the data sectors 5 to 12, all positive. `mountv6` succeeds and marks
the inodes 1 and 2 and the data sectors; `inode_findsector` resolves the logical offset 0 of
inode 2 through the indirect sector 4 to sector 5, which is marked; but sector 4 itself is
left free in the sector bitmap, because `mountv6` marks the indirect sector only when
`size_file > ADDR_SMALL_LENGTH*SECTOR_SIZE` while `inode_findsector` uses it from
`size_file ≥ ADDR_SMALL_LENGTH*SECTOR_SIZE` on. -/
theorem C18_indirect_sector_not_marked :
    (mountv6 510 213 (fun _ => inode_zero) 17 ex_ind_disk).bind
        (fun r => .ret (r.1, r.2.ibm.bits, inode_read r.2 2 inode_zero))
      = .ret (ERR_NONE, [true, true] ++ List.replicate 14 false, (ERR_NONE, ex_ind_inode))
    ∧ (mountv6 510 213 (fun _ => inode_zero) 17 ex_ind_disk).bind
        (fun r => .ret (inode_findsector r.2 ex_ind_inode 0, le16 (sector_data r.2.f 4) 0,
          bm_isfree r.2.fbm 5, bm_isfree r.2.fbm 4))
      = .ret (5, 5, false, true) := by
  decide!

/-! ## C19: a failure inside `filev6_writebytes` -/

theorem writesector_bitmap_full (u : unix_filesystem) (fv : filev6) (buf : List Nat)
    (len left bw size : Nat) (hfull : bm_find_next u.fbm = ERR_BITMAP_FULL)
    (hs : size % SECTOR_SIZE = 0) :
    filev6_writesector u fv buf len left bw size = .ret (ERR_BITMAP_FULL, u, fv) := by
  unfold filev6_writesector
  rw [if_neg (by omega)]
  simp only []
  rw [hfull, if_pos (by simp only [ERR_BITMAP_FULL]; omega)]

theorem writesector_index_out (u : unix_filesystem) (fv : filev6) (buf : List Nat)
    (len left bw size : Nat) (hs : size % SECTOR_SIZE ≠ 0)
    (hidx : ADDR_SMALL_LENGTH ≤ size / SECTOR_SIZE) :
    filev6_writesector u fv buf len left bw size = .undefined := by
  unfold filev6_writesector
  rw [if_pos hs]
  simp only []
  rw [if_neg (by omega)]

/-- Writing to an empty file when the sector bitmap is full: the error that
`filev6_writesector` returns is stored in the `size_t nb_bytes`, the test `nb_bytes < 0` does
not see it, the counters are advanced by `2^64 - 118`, and the next round indexes `i_addr`
far outside its 8 slots. -/
theorem writebytes_bitmap_full_empty (u : unix_filesystem) (fv : filev6) (buf : List Nat)
    (len fuel : Nat) (hfull : bm_find_next u.fbm = ERR_BITMAP_FULL)
    (hsize : inode_getsize fv.i_node = 0) (h0 : 0 < len) (h1 : len < 4096) :
    filev6_writebytes (fuel + 2) u fv buf len = .undefined := by
  unfold filev6_writebytes
  simp only [hsize, ADDR_SMALL_LENGTH, ADDRESSES_PER_SECTOR, SECTOR_SIZE]
  rw [if_neg (by omega), if_neg (by omega)]
  have e : filev6_writebytes_loop buf len (fuel + 2) u fv len 0 0 = .undefined := by
    rw [filev6_writebytes_loop, if_neg (by omega),
      writesector_bitmap_full u fv buf len len 0 0 hfull (by decide), bind_ret]
    simp only []
    rw [filev6_writebytes_loop]
    have e1 : ((ERR_BITMAP_FULL % 2 ^ 64).toNat) = 2 ^ 64 - 118 := by decide
    rw [e1, if_neg (by omega),
      writesector_index_out _ _ _ _ _ _ _ (by decide) (by decide)]
    rfl
  rw [e]
  rfl

/-- C19, evaluation of the code at a failing input. In the example with a full sector bitmap
a file is created (inode 5, empty) and one byte is written to it. The allocation of the data
sector fails and `filev6_writesector` returns the allocation-exhausted code, but
`filev6_writebytes` does not return it: it goes on with counters advanced by the code read as
an unsigned number and leaves defined behaviour. -/
theorem C19_allocation_failure_not_returned :
    (filev6_create ex_full_fs 0 filev6_zero).1 = ERR_NONE
      ∧ (filev6_writesector (filev6_create ex_full_fs 0 filev6_zero).2.1
            (filev6_create ex_full_fs 0 filev6_zero).2.2 [7] 1 1 0 0).bind (fun r => .ret r.1)
          = .ret ERR_BITMAP_FULL
      ∧ ∀ fuel, filev6_writebytes (fuel + 2) (filev6_create ex_full_fs 0 filev6_zero).2.1
            (filev6_create ex_full_fs 0 filev6_zero).2.2 [7] 1 = .undefined := by
  refine ⟨by decide!, by decide!, fun fuel => ?_⟩
  exact writebytes_bitmap_full_empty _ _ _ _ _ (by decide!) (by decide!) (by decide) (by decide)
/-! ## C20: the sizes of the directories across `direntv6_create` -/

/-- `inode_read` depends on the superblock and on the record of the inode in its sector. -/
theorem inode_read_congr (u u1 : unix_filesystem) (j : Nat) (x : inode) (hs : u1.s = u.s)
    (hl : u1.f.length = u.f.length)
    (hrec : ((sector_data u1.f (u.s.s_inode_start + j / 16)).drop (32 * (j % 16))).take 32
      = ((sector_data u.f (u.s.s_inode_start + j / 16)).drop (32 * (j % 16))).take 32) :
    inode_read u1 j x = inode_read u j x := by
  unfold inode_read
  rw [hs]
  by_cases h : j < ROOT_INUMBER ∨ j ≥ u.s.s_isize * INODES_PER_SECTOR
  · rw [if_pos h, if_pos h]
  · rw [if_neg h, if_neg h]
    simp only [INODES_PER_SECTOR, INODE_SIZE]
    by_cases hin : sector_offset (u.s.s_inode_start + j / 16) + 512 ≤ u.f.length
    · rw [sector_read_eq_data hin, sector_read_eq_data (by rw [hl]; exact hin)]
      simp only []
      rw [hrec]
    · have e1 : sector_read u.f (u.s.s_inode_start + j / 16) = none := by
        unfold sector_read; rw [if_neg (by simp only [SECTOR_SIZE]; omega)]
      have e2 : sector_read u1.f (u.s.s_inode_start + j / 16) = none := by
        unfold sector_read; rw [if_neg (by simp only [SECTOR_SIZE]; omega)]
      rw [e1, e2]

/-- What a successful `inode_write` leaves: the other sectors, the other records of the inode
sector, and the record written. -/
theorem inode_write_effect (u u1 : unix_filesystem) (a : Nat) (r : inode)
    (h : inode_write u a r = (ERR_NONE, u1)) :
    (∀ m, sector_offset m ≠ sector_offset (u.s.s_inode_start + a / 16) →
        sector_data u1.f m = sector_data u.f m)
      ∧ (∀ j, j < 16 → j ≠ a % 16 →
          ((sector_data u1.f (u.s.s_inode_start + a / 16)).drop (32 * j)).take 32
            = ((sector_data u.f (u.s.s_inode_start + a / 16)).drop (32 * j)).take 32)
      ∧ (∀ x, inode_read u1 a x
          = (if (decode_inode (encode_inode r)).i_mode &&& IALLOC = 0
              then ERR_UNALLOCATED_INODE else ERR_NONE, decode_inode (encode_inode r))) := by
  obtain ⟨k1, k2, k3, k4, k5, k6, k7⟩ := inode_write_inv h
  have hsl := sector_data_length k3
  have hwl := length_window (sector_data u.f (u.s.s_inode_start + a / 16)) (encode_inode r)
    (32 * (a % 16)) 32 (encode_inode_length r) (by omega)
  unfold inode_write at h
  rw [if_neg (by simp only [ROOT_INUMBER, INODES_PER_SECTOR] at *; omega)] at h
  simp only [INODES_PER_SECTOR, INODE_SIZE, sector_read_eq_data k3] at h
  cases hw : sector_write u.f (u.s.s_inode_start + a / 16)
      ((sector_data u.f (u.s.s_inode_start + a / 16)).take (32 * (a % 16)) ++ encode_inode r
        ++ (sector_data u.f (u.s.s_inode_start + a / 16)).drop (32 * (a % 16) + 32)) with
  | none =>
    rw [hw] at h
    have h2 : ERR_IO = ERR_NONE := congrArg Prod.fst h
    exact absurd h2 (by decide)
  | some f1 =>
    rw [hw] at h
    have hu1 : u1 = { u with f := f1 } := (congrArg Prod.snd h).symm
    have hsame := sector_data_write_same hw (by rw [hwl, hsl])
    refine ⟨?_, ?_, ?_⟩
    · intro m hm
      rw [hu1]
      exact sector_data_write_other hw hm
    · intro j hj hne
      rw [hu1]
      show List.take 32 (List.drop (32 * j) (sector_data f1 (u.s.s_inode_start + a / 16))) = _
      rw [hsame]
      exact window_other _ _ _ _ _ (encode_inode_length r) (by omega) (by omega)
    · intro x
      rw [hu1]
      unfold inode_read
      rw [if_neg (by simp only [ROOT_INUMBER, INODES_PER_SECTOR] at *; omega)]
      have hrd : sector_read f1 (u.s.s_inode_start + a / 16) = some _ :=
        sector_read_write_same hw (by rw [hwl, hsl])
      simp only [INODES_PER_SECTOR, INODE_SIZE, hrd]
      rw [take_drop_window _ _ _ _ (encode_inode_length r) (by omega)]
      split <;> rfl

/-- A successful `inode_write` does not change what `inode_read` returns for another inode
number; the inode table lies in the first `2^23` sectors. -/
theorem inode_read_frame_of_write (u u1 : unix_filesystem) (a j : Nat) (r x : inode)
    (h : inode_write u a r = (ERR_NONE, u1)) (hne : j ≠ a)
    (htab : u.s.s_inode_start + u.s.s_isize ≤ 2 ^ 23) :
    inode_read u1 j x = inode_read u j x := by
  obtain ⟨k1, k2, k3, k4, k5, k6, k7⟩ := inode_write_inv h
  obtain ⟨e1, e2, _⟩ := inode_write_effect u u1 a r h
  by_cases hj : j < ROOT_INUMBER ∨ j ≥ u.s.s_isize * INODES_PER_SECTOR
  · unfold inode_read
    rw [k4, if_pos hj, if_pos hj]
  · apply inode_read_congr u u1 j x k4 k7
    simp only [ROOT_INUMBER, INODES_PER_SECTOR] at hj k1 k2
    by_cases hs : j / 16 = a / 16
    · rw [hs]
      exact e2 (j % 16) (by omega) (by omega)
    · rw [e1 (u.s.s_inode_start + j / 16) (by
        rw [sector_offset_small _ (by omega), sector_offset_small _ (by omega)]
        omega)]

/-- A successful `filev6_create` is a successful `inode_write` of the fresh inode at the
number that `bm_find_next` gives. -/
theorem filev6_create_write (u : unix_filesystem) (mode : Nat) (fv0 : filev6)
    {u0 : unix_filesystem} {fv : filev6} (hmin : ROOT_INUMBER ≤ u.ibm.min)
    (h : filev6_create u mode fv0 = (ERR_NONE, u0, fv)) :
    inode_write { u with ibm := bm_set u.ibm (bm_find_next u.ibm).toNat } fv.i_number
        { inode_zero with i_mode := IALLOC ||| mode } = (ERR_NONE, u0) := by
  have hinv := filev6_create_inv u mode fv0 hmin h
  obtain ⟨_, _, _, _, _, _, _, _, e1, e2, _⟩ := hinv
  unfold filev6_create at h
  simp only [inode_alloc, ROOT_INUMBER] at h
  have h1 : ¬ bm_find_next u.ibm < ((1 : Nat) : Int) := by omega
  simp only [h1, if_false] at h
  rw [e1] at h
  by_cases hw : (inode_write { u with ibm := bm_set u.ibm (bm_find_next u.ibm).toNat }
      fv.i_number { inode_zero with i_mode := IALLOC ||| mode }).1 ≠ ERR_NONE
  · rw [if_pos hw] at h
    exact absurd (congrArg Prod.fst h) hw
  · rw [if_neg hw] at h
    have e3 : (inode_write { u with ibm := bm_set u.ibm (bm_find_next u.ibm).toNat }
      fv.i_number { inode_zero with i_mode := IALLOC ||| mode }).2 = u0 :=
      congrArg (fun x => x.2.1) h
    rw [← e3]
    exact prod_eq_of_fst _ _ (not_not.mp hw)

theorem filev6_create_code_neg (u : unix_filesystem) (mode : Nat) (fv0 : filev6)
    (hmin : ROOT_INUMBER ≤ u.ibm.min) :
    (filev6_create u mode fv0).1 = ERR_NONE ∨ (filev6_create u mode fv0).1 < 0 := by
  unfold filev6_create inode_alloc
  by_cases h : bm_find_next u.ibm < (ROOT_INUMBER : Int)
  · simp only [h, if_true]
    right
    rcases bm_find_next_range u.ibm with e | e
    · rw [e]; decide
    · simp only [ROOT_INUMBER] at h hmin; omega
  · simp only [h, if_false]
    split
    · right
      rcases inode_write_code { u with ibm := bm_set u.ibm (bm_find_next u.ibm).toNat }
        ((bm_find_next u.ibm).toNat % 65536) { inode_zero with i_mode := IALLOC ||| mode }
        with e | e | e
      · rename_i hne; exact absurd e hne
      · rw [e]; decide
      · rw [e]; decide
    · left; rfl

/-- The value that `bm_find_next` returns is free in the bitmap. -/
theorem bm_find_next_isfree (bm : bmblock_array) (h : (bm.min : Int) ≤ bm_find_next bm) :
    bm_isfree bm (bm_find_next bm).toNat = true := by
  unfold bm_find_next at h ⊢
  by_cases c : bm.bits.indexOf false < bm.bits.length
  · rw [if_pos c]
    have hmem : false ∈ bm.bits := List.indexOf_lt_length.mp c
    have hget : bm.bits.getD (bm.bits.indexOf false) true = false := by
      rw [List.getD_eq_getElem _ _ c]
      exact List.indexOf_get c
    unfold bm_isfree
    simp only [Int.toNat_ofNat, Nat.add_sub_cancel_left, hget, Nat.le_add_right, decide_True,
      beq_self_eq_true, Bool.and_self]
  · rw [if_neg c] at h
    simp only [ERR_BITMAP_FULL] at h
    omega

/-- A successful `filev6_writebytes` in the direct range does not change what `inode_read`
returns for the other inode numbers. -/
theorem writebytes_frame (u : unix_filesystem) (fv : filev6) (buf : List Nat) (len fuel : Nat)
    (hlay : layout_ok u)
    (hused : blocks_used u.f u.fbm fv.i_node.i_addr ((inode_getsize fv.i_node + 511) / 512))
    (hlen8 : fv.i_node.i_addr.length = 8) (hlt : inode_getsize fv.i_node + len < 4096)
    (hbuf : len ≤ buf.length)
    (hcount : (inode_getsize fv.i_node + len + 511) / 512 - (inode_getsize fv.i_node + 511) / 512
      ≤ u.fbm.bits.count false)
    (hfuel : len / 512 + 2 ≤ fuel) (u1 : unix_filesystem) (fv1 : filev6)
    (h : filev6_writebytes fuel u fv buf len = .ret (ERR_NONE, u1, fv1))
    (j : Nat) (x : inode) (hne : j ≠ fv.i_number) :
    inode_read u1 j x = inode_read u j x := by
  obtain ⟨u2, fv2, hloop, g1, g2, g3, g4, g5, g6, g7, g8, g9, g10⟩ :=
    writebytes_loop_ok hlay hused hlen8 hlt hbuf hcount hfuel
  obtain ⟨hl1, hl2, hl3, hl4⟩ := hlay
  have hnum : fv2.i_number = fv.i_number := by rw [g8]
  generalize hn : inode_getsize fv.i_node + len = n at *
  unfold filev6_writebytes at h
  simp only [ADDR_SMALL_LENGTH, ADDRESSES_PER_SECTOR, SECTOR_SIZE, hn] at h
  have e1 : n % 2 ^ 64 = n := by omega
  rw [e1, if_neg (by omega), if_neg (by omega), hloop, bind_ret] at h
  simp only [to_i32_nat n (by omega), inode_setsize_nat, ne_eq,
    not_true_eq_false, if_false, hnum] at h
  by_cases hw : (inode_write u2 fv.i_number
      { fv2.i_node with i_size0 := (n / 65536) % 256, i_size1 := n % 65536 }).1 = ERR_NONE
  · rw [if_neg (not_not.mpr hw)] at h
    have hu1 : (inode_write u2 fv.i_number
      { fv2.i_node with i_size0 := (n / 65536) % 256, i_size1 := n % 65536 }).2 = u1 :=
      congrArg (fun r => r.2.1) (Outcome.ret.inj h)
    have hwr := prod_eq_of_fst _ _ hw
    rw [hu1] at hwr
    rw [inode_read_frame_of_write u2 u1 fv.i_number j _ x hwr hne (by rw [g1]; omega)]
    by_cases hj : j < ROOT_INUMBER ∨ j ≥ u.s.s_isize * INODES_PER_SECTOR
    · unfold inode_read
      rw [g1, if_pos hj, if_pos hj]
    · apply inode_read_congr u u2 j x g1 g4
      simp only [ROOT_INUMBER, INODES_PER_SECTOR] at hj
      rw [g9 (u.s.s_inode_start + j / 16) (by omega)]
  · rw [if_pos hw] at h
    exact absurd (congrArg (fun r => r.1) (Outcome.ret.inj h)) hw

theorem inode_read_ok_inv (u : unix_filesystem) (j : Nat) (x pi : inode)
    (h : inode_read u j x = (ERR_NONE, pi)) :
    ROOT_INUMBER ≤ j ∧ j < u.s.s_isize * 16
      ∧ sector_offset (u.s.s_inode_start + j / 16) + 512 ≤ u.f.length
      ∧ pi.i_addr.length = 8 ∧ pi.i_mode &&& IALLOC ≠ 0 ∧ pi.i_mode < 65536 := by
  unfold inode_read at h
  by_cases c : j < ROOT_INUMBER ∨ j ≥ u.s.s_isize * INODES_PER_SECTOR
  · rw [if_pos c] at h
    have h2 : ERR_INODE_OUT_OF_RANGE = ERR_NONE := congrArg Prod.fst h
    exact absurd h2 (by decide)
  · rw [if_neg c] at h
    simp only [INODES_PER_SECTOR] at c h
    cases hs : sector_read u.f (u.s.s_inode_start + j / 16) with
    | none =>
      rw [hs] at h
      have h2 : ERR_IO = ERR_NONE := congrArg Prod.fst h
      exact absurd h2 (by decide)
    | some sec =>
      rw [hs] at h
      simp only [] at h
      have hb := sector_read_some_bound hs
      by_cases hm : (decode_inode ((sec.drop (INODE_SIZE * (j % 16))).take INODE_SIZE)).i_mode
          &&& IALLOC = 0
      · rw [if_pos hm] at h
        have h2 : ERR_UNALLOCATED_INODE = ERR_NONE := congrArg Prod.fst h
        exact absurd h2 (by decide)
      · rw [if_neg hm] at h
        have e : decode_inode ((sec.drop (INODE_SIZE * (j % 16))).take INODE_SIZE) = pi :=
          congrArg Prod.snd h
        rw [e] at hm
        refine ⟨by omega, by omega, hb, ?_, hm, ?_⟩
        · rw [← e]
          simp [decode_inode, ADDR_SMALL_LENGTH]
        · rw [← e]
          exact le16_lt _ _

theorem bm_find_next_lt (bm : bmblock_array) (h : (bm.min : Int) ≤ bm_find_next bm) :
    bm_find_next bm < bm.min + bm.bits.length := by
  unfold bm_find_next at h ⊢
  by_cases c : bm.bits.indexOf false < bm.bits.length
  · rw [if_pos c]
    omega
  · rw [if_neg c] at h
    simp only [ERR_BITMAP_FULL] at h
    omega

theorem layout_ok_congr (u u0 : unix_filesystem) (hs : u0.s = u.s) (hb : u0.fbm = u.fbm)
    (hl : u0.f.length = u.f.length) (h : layout_ok u) : layout_ok u0 := by
  unfold layout_ok at h ⊢
  rw [hs, hb, hl]
  exact h

theorem blocks_used_congr (f f0 : Disk) (bm : bmblock_array) (addrs : List Nat) (n : Nat)
    (hl : f0.length = f.length) (h : blocks_used f bm addrs n) : blocks_used f0 bm addrs n := by
  unfold blocks_used at h ⊢
  rw [hl]
  exact h

theorem strncpy_length (src : List Nat) (n : Nat) : (strncpy src n).length = n := by
  unfold strncpy
  simp only [List.length_append, List.length_take, List.length_replicate]
  omega

theorem and_ifdir_mod (m : Nat) : (m % 65536) &&& IFDIR = m &&& IFDIR := by
  apply Nat.eq_of_testBit_eq
  intro i
  simp only [Nat.testBit_and, IFDIR]
  have e : (65536 : Nat) = 2 ^ 16 := by norm_num
  rw [e, Nat.testBit_mod_two_pow]
  by_cases hi : i < 16
  · simp [hi]
  · have h2 : Nat.testBit 0x4000 i = false := by
      apply Nat.testBit_lt_two_pow
      calc (0x4000 : Nat) < 2 ^ 16 := by norm_num
        _ ≤ 2 ^ i := Nat.pow_le_pow_right (by norm_num) (by omega)
    simp [h2]

theorem bm_full_of_count (bm : bmblock_array) (h : bm.bits.count false = 0) :
    bm_find_next bm = ERR_BITMAP_FULL := by
  unfold bm_find_next
  have hmem : false ∉ bm.bits := List.count_eq_zero.mp h
  have e : bm.bits.indexOf false = bm.bits.length := List.indexOf_eq_length.mpr hmem
  rw [if_neg (by omega)]

/-- With a full sector bitmap the loop of `filev6_writebytes` that appends a directory record
at or just before a sector boundary `B` never ends: the allocation error is added to the
counters as an unsigned number, which moves the size 118 bytes back, and the rounds that
follow fill the sector before the boundary again. -/
theorem writebytes_loop_full (buf : List Nat) (fv : filev6) (B T : Nat) (hB : B % 512 = 0)
    (hB1 : 512 ≤ B) (hT : B < T) (hT2 : T < 4096) (hbuf : 16 ≤ buf.length) :
    ∀ (fuel : Nat) (u : unix_filesystem) (left bw size : Nat), layout_ok u →
      blocks_used u.f u.fbm fv.i_node.i_addr (B / 512) →
      bm_find_next u.fbm = ERR_BITMAP_FULL → B ≤ size + 118 → size ≤ B → left + size = T →
      ∀ r, filev6_writebytes_loop buf 16 fuel u fv left bw size ≠ .ret r := by
  intro fuel
  induction fuel with
  | zero =>
    intro u left bw size _ _ _ _ _ h3 r
    rw [filev6_writebytes_loop, if_neg (by omega)]
    intro hc
    cases hc
  | succ fuel ih =>
    intro u left bw size hlay hused hfull h1 h2 h3 r
    rw [filev6_writebytes_loop, if_neg (by omega)]
    by_cases hs : size % 512 = 0
    · have hsz : size = B := by omega
      rw [writesector_bitmap_full u fv buf 16 left bw size hfull hs, bind_ret]
      have e1 : ((ERR_BITMAP_FULL % 2 ^ 64).toNat) = 2 ^ 64 - 118 := by decide
      simp only [e1]
      have e2 : (left + (2 ^ 64 - (2 ^ 64 - 118))) % 2 ^ 64 = left + 118 := by omega
      have e3 : (size + (2 ^ 64 - 118)) % 2 ^ 32 = size - 118 := by omega
      rw [e2, e3]
      exact ih u (left + 118) _ (size - 118) hlay hused hfull (by omega) (by omega) (by omega) r
    · have hq : size / 512 + 1 = B / 512 := by omega
      obtain ⟨f1, hw, k1, k2, k3, _, _⟩ := @writesector_fill u fv buf 16 left bw size hlay (by rw [hq]; exact hused) hs (by omega) hbuf
      rw [hw, bind_ret]
      have hnb : (if 512 - size % 512 < 16 then 512 - size % 512 else 16) ≤ B - size := by
        split <;> omega
      generalize (if 512 - size % 512 < 16 then 512 - size % 512 else 16) = nb at hnb ⊢
      have e1 : (((nb : Nat) : Int) % 2 ^ 64).toNat = nb := by omega
      simp only [e1]
      have e2 : (left + (2 ^ 64 - nb)) % 2 ^ 64 = left - nb := by omega
      have e3 : (size + nb) % 2 ^ 32 = size + nb := by omega
      rw [e2, e3]
      exact ih { u with f := f1 } (left - nb) _ (size + nb) k2 (by rw [← hq]; exact k3) hfull
        (by omega) (by omega) (by omega) r

/-- With a full sector bitmap, `filev6_writebytes` of a directory record that needs a new sector
returns nothing: the error of the allocation is not reported. -/
theorem writebytes_full_no_result (u : unix_filesystem) (fv : filev6) (buf : List Nat)
    (fuel : Nat) (hlay : layout_ok u)
    (hused : blocks_used u.f u.fbm fv.i_node.i_addr ((inode_getsize fv.i_node + 511) / 512))
    (hlt : inode_getsize fv.i_node + 16 < 4096) (hbuf : 16 ≤ buf.length)
    (hfull : u.fbm.bits.count false = 0)
    (hneed : (inode_getsize fv.i_node + 511) / 512 < (inode_getsize fv.i_node + 16 + 511) / 512) :
    ∀ r, filev6_writebytes fuel u fv buf 16 ≠ .ret r := by
  intro r
  have hf := bm_full_of_count u.fbm hfull
  unfold filev6_writebytes
  simp only [ADDR_SMALL_LENGTH, ADDRESSES_PER_SECTOR, SECTOR_SIZE]
  rw [if_neg (by omega), if_neg (by omega)]
  apply bind_ne_ret_of
  intro a ha
  exfalso
  by_cases h0 : inode_getsize fv.i_node = 0
  · rw [h0] at ha
    match fuel, ha with
    | 0, ha =>
      rw [filev6_writebytes_loop, if_neg (by omega)] at ha
      cases ha
    | 1, ha =>
      rw [filev6_writebytes_loop, if_neg (by omega),
        writesector_bitmap_full u fv buf 16 16 0 0 hf (by decide), bind_ret] at ha
      simp only [] at ha
      rw [filev6_writebytes_loop] at ha
      have e1 : ((ERR_BITMAP_FULL % 2 ^ 64).toNat) = 2 ^ 64 - 118 := by decide
      rw [e1, if_neg (by omega)] at ha
      cases ha
    | fuel + 2, ha =>
      rw [filev6_writebytes_loop, if_neg (by omega),
        writesector_bitmap_full u fv buf 16 16 0 0 hf (by decide), bind_ret] at ha
      simp only [] at ha
      rw [filev6_writebytes_loop] at ha
      have e1 : ((ERR_BITMAP_FULL % 2 ^ 64).toNat) = 2 ^ 64 - 118 := by decide
      rw [e1, if_neg (by omega),
        writesector_index_out _ _ _ _ _ _ _ (by decide) (by decide)] at ha
      cases ha
  · exact writebytes_loop_full buf fv ((inode_getsize fv.i_node + 511) / 512 * 512)
      (inode_getsize fv.i_node + 16) (by omega) (by omega) (by omega) (by omega) hbuf fuel u 16 0
      (inode_getsize fv.i_node) hlay
      (by rw [Nat.mul_div_cancel _ (by norm_num : 0 < 512)]; exact hused) hf (by omega) (by omega)
      (by omega) a ha

/-- The effect of the second half of `direntv6_create` on the inode table, when it succeeds
in a consistent state. -/
theorem create_append_effect (fuel : Nat) (u : unix_filesystem) (mode : Nat) (name : List Nat)
    (k : Nat) (parent : Int) (pi : inode) (n : Int) (u1 : unix_filesystem)
    (hlay : layout_ok u) (hmin : ROOT_INUMBER ≤ u.ibm.min)
    (hibm : u.ibm.min + u.ibm.bits.length ≤ 65536)
    (hp0 : 0 ≤ parent) (hp16 : parent < 65536)
    (hpi : inode_read u parent.toNat inode_zero = (ERR_NONE, pi))
    (hpused : bm_isfree u.ibm parent.toNat = false)
    (hused : blocks_used u.f u.fbm pi.i_addr ((inode_getsize pi + 511) / 512))
    (hfuel : 2 ≤ fuel)
    (hsucc : direntv6_create_append fuel u mode name k parent = .ret (n, u1))
    (hn : ROOT_INUMBER ≤ n) :
    (∀ x, (inode_read u1 parent.toNat x).1 = ERR_NONE
        ∧ (inode_read u1 parent.toNat x).2.i_mode = pi.i_mode
        ∧ inode_getsize (inode_read u1 parent.toNat x).2 = inode_getsize pi + 16)
      ∧ (∀ x, (inode_read u1 n.toNat x).1 = ERR_NONE
        ∧ inode_getsize (inode_read u1 n.toNat x).2 = 0)
      ∧ (∀ j x, j ≠ parent.toNat → j ≠ n.toNat → inode_read u1 j x = inode_read u j x) := by
  obtain ⟨p1, p2, p3, p4, p5, p6⟩ := inode_read_ok_inv u parent.toNat inode_zero pi hpi
  have hl := hlay
  obtain ⟨hl1, hl2, hl3, hl4⟩ := hl
  unfold direntv6_create_append at hsucc
  simp only [] at hsucc
  have hcode := filev6_create_code_neg u mode filev6_zero hmin
  generalize hc : filev6_create u mode filev6_zero = c at hsucc hcode
  obtain ⟨c1, u0, cfv⟩ := c
  simp only [] at hsucc hcode
  rcases hcode with e | e
  swap
  · rw [if_pos (by intro hx; rw [hx] at e; exact absurd e (by decide))] at hsucc
    have hx : c1 = n := congrArg Prod.fst (Outcome.ret.inj hsucc)
    simp only [ROOT_INUMBER] at hn
    omega
  subst e
  obtain ⟨q1, q2, q3, q4, q5, q6, q7, q8, q9, q10, q11⟩ := filev6_create_inv u mode filev6_zero hmin hc
  have hwr := filev6_create_write u mode filev6_zero hmin hc
  -- the child is not the parent
  have hrange := bm_find_next_range u.ibm
  have hge : (u.ibm.min : Int) ≤ bm_find_next u.ibm := by
    rcases hrange with e | e
    · rw [e] at q10; exact absurd q10 (by decide)
    · exact e
  have hlt16 := bm_find_next_lt u.ibm hge
  have hchild : cfv.i_number = (bm_find_next u.ibm).toNat := by omega
  have hcfree := bm_find_next_isfree u.ibm hge
  have hcp : cfv.i_number ≠ parent.toNat := by
    intro hx
    rw [← hchild, hx, hpused] at hcfree
    exact absurd hcfree (by decide)
  have htab : u.s.s_inode_start + u.s.s_isize ≤ 2 ^ 23 := by omega
  have hrd0 : ∀ j x, j ≠ cfv.i_number → inode_read u0 j x = inode_read u j x := by
    intro j x hj
    exact inode_read_frame_of_write
      { u with ibm := bm_set u.ibm (bm_find_next u.ibm).toNat } u0 cfv.i_number j _ x hwr hj htab
  rw [if_neg (fun hx => hx rfl)] at hsucc
  by_cases hk : k > DIRENT_MAXLEN
  · rw [if_pos hk] at hsucc
    cases hsucc
  rw [if_neg hk] at hsucc
  have e16 : parent.toNat % 65536 = parent.toNat := by omega
  rw [e16, hrd0 parent.toNat inode_zero (Ne.symm hcp), hpi] at hsucc
  simp only [] at hsucc
  have hlay0 : layout_ok u0 := layout_ok_congr u u0 q6 q7 q8 hlay
  by_cases hlt : inode_getsize pi + 16 < 4096
  swap
  · rw [writebytes_too_large fuel u0 { i_number := parent.toNat, i_node := pi, offset := 0 } _
      DIRENT_SIZE (by have := inode_getsize_lt pi; simp only [DIRENT_SIZE]; omega)
      (by simp only [ADDR_SMALL_LENGTH, SECTOR_SIZE, DIRENT_SIZE]; omega), bind_ret] at hsucc
    have hne : ERR_FILE_TOO_LARGE ≠ ERR_NONE := by decide
    rw [if_pos hne] at hsucc
    have hx : ERR_FILE_TOO_LARGE = n := congrArg Prod.fst (Outcome.ret.inj hsucc)
    rw [← hx] at hn
    exact absurd hn (by decide)
  have hbuf : DIRENT_SIZE ≤ (strncpy name k ++ List.replicate (DIRENT_MAXLEN - k) 0
      ++ enc16 cfv.i_number).length := by
    simp only [List.length_append, strncpy_length, List.length_replicate, enc16,
      List.length_cons, List.length_nil, DIRENT_SIZE, DIRENT_MAXLEN] at hk ⊢
    omega
  have hfree : (inode_getsize pi + 16 + 511) / 512 - (inode_getsize pi + 511) / 512
      ≤ u.fbm.bits.count false := by
    by_contra hc
    have hno := writebytes_full_no_result u0 { i_number := parent.toNat, i_node := pi, offset := 0 }
      (strncpy name k ++ List.replicate (DIRENT_MAXLEN - k) 0 ++ enc16 cfv.i_number) fuel hlay0
      (by rw [q7]; exact blocks_used_congr u.f u0.f u.fbm pi.i_addr _ q8 hused) hlt hbuf
      (by rw [q7]; omega)
      (by show (inode_getsize pi + 511) / 512 < (inode_getsize pi + 16 + 511) / 512; omega)
    cases hwb : filev6_writebytes fuel u0 { i_number := parent.toNat, i_node := pi, offset := 0 }
        (strncpy name k ++ List.replicate (DIRENT_MAXLEN - k) 0 ++ enc16 cfv.i_number)
        DIRENT_SIZE with
    | ret r => exact hno r hwb
    | undefined => rw [hwb] at hsucc; cases hsucc
    | nofuel => rw [hwb] at hsucc; cases hsucc
  obtain ⟨u2, fv2, hw, w1, w2, w3, w4, w5, w6, w7, w8, w9, w10, w11, w12⟩ :=
    writebytes_ok u0 { i_number := parent.toNat, i_node := pi, offset := 0 }
      (strncpy name k ++ List.replicate (DIRENT_MAXLEN - k) 0 ++ enc16 cfv.i_number)
      DIRENT_SIZE fuel hlay0
      (by rw [q7]; exact blocks_used_congr u.f u0.f u.fbm pi.i_addr _ q8 hused)
      p4 hlt hbuf (by rw [q7]; exact hfree) (by simp only [DIRENT_SIZE]; omega)
      p1 (by rw [q6]; exact p2)
      (by
        show (u0.s.s_inode_start + parent.toNat / 16 + 1) * 512 ≤ u0.f.length
        rw [q6, q8]
        have := sector_offset_small (u.s.s_inode_start + parent.toNat / 16) (by omega)
        omega)
  have hfr := writebytes_frame u0 { i_number := parent.toNat, i_node := pi, offset := 0 }
      (strncpy name k ++ List.replicate (DIRENT_MAXLEN - k) 0 ++ enc16 cfv.i_number)
      DIRENT_SIZE fuel hlay0
      (by rw [q7]; exact blocks_used_congr u.f u0.f u.fbm pi.i_addr _ q8 hused)
      p4 hlt hbuf (by rw [q7]; exact hfree) (by simp only [DIRENT_SIZE]; omega) u2 fv2 hw
  rw [hw, bind_ret] at hsucc
  rw [if_neg (fun hx => hx rfl)] at hsucc
  have hn1 : (cfv.i_number : Int) = n := congrArg Prod.fst (Outcome.ret.inj hsucc)
  have hu1 : u2 = u1 := congrArg Prod.snd (Outcome.ret.inj hsucc)
  subst hu1
  have hnn : n.toNat = cfv.i_number := by omega
  refine ⟨fun x => ?_, fun x => ?_, fun j x hj1 hj2 => ?_⟩
  · rw [w11 x]
    have hm : (decode_inode (encode_inode fv2.i_node)).i_mode = pi.i_mode := by
      rw [decode_encode_mode, w9]
      exact Nat.mod_eq_of_lt p6
    have hal : (decode_inode (encode_inode fv2.i_node)).i_mode &&& IALLOC ≠ 0 := by
      rw [hm]; exact p5
    rw [if_neg hal]
    exact ⟨rfl, hm, by rw [decode_encode_size, w10]⟩
  · rw [hnn, hfr cfv.i_number x hcp]
    obtain ⟨_, _, e3⟩ := inode_write_effect _ u0 cfv.i_number _ hwr
    rw [e3 x]
    have hal : (decode_inode (encode_inode { inode_zero with i_mode := IALLOC ||| mode })).i_mode
        &&& IALLOC ≠ 0 := by
      rw [decode_encode_mode, and_ialloc_mod]
      exact or_and_ialloc mode
    rw [if_neg hal]
    exact ⟨rfl, by rw [decode_encode_size]; simp [inode_getsize, inode_zero]⟩
  · rw [hfr j x hj1, hrd0 j x (by omega)]

theorem ret_of_fst {α β : Type} (x : Outcome (α × β)) (d : α × β) (a : α)
    (h : x.bind (fun r => .ret r.1) = .ret a) : x = .ret (a, (x.val d).2) := by
  cases x with
  | ret r =>
    rw [bind_ret] at h
    have e : r.1 = a := Outcome.ret.inj h
    show Outcome.ret r = Outcome.ret (a, r.2)
    rw [← e]
  | undefined => cases h
  | nofuel => cases h

theorem bm_marked_not_free (bm : bmblock_array) (x : Nat)
    (h : bm.min ≤ x ∧ bm.bits.getD (x - bm.min) false = true) :
    bm_isfree bm x = false ∧ x < bm.min + bm.bits.length := by
  obtain ⟨h1, h2⟩ := h
  have hlt := bits_getD_lt h2
  have e : bm.bits.getD (x - bm.min) true = true := by
    rw [List.getD_eq_getElem _ _ hlt] at h2 ⊢
    exact h2
  constructor
  · unfold bm_isfree
    rw [e]
    simp
  · omega

/-- C20: directory size invariant. The file system has the expected layout, its inode bitmap
covers 16-bit inode numbers from `ROOT_INUMBER` on, and the path has the characters
`pre ++ name ++ slashes` (final name `name`, parent portion `pre`). The parent portion resolves
to `parent`, an allocated inode `pi` that is marked in the inode bitmap and whose data sectors
are marked in the sector bitmap. Then every successful `direntv6_create` (it returns an inode number
`n ≥ ROOT_INUMBER`) leaves the parent inode with its mode and with its size increased by
exactly one directory record (16 bytes), leaves the new inode `n` allocated with size 0, and
leaves what `inode_read` returns for every other inode number unchanged, so no other size
changes; hence if every directory size is a multiple of the record size before the call, it
is so afterwards. -/
theorem C20_directory_size_invariant (fuel : Nat) (u : unix_filesystem) (p : List Nat)
    (mode : Nat) (pre name slashes : List Nat) (parent : Int) (pi : inode) (n : Int)
    (u1 : unix_filesystem)
    (hlay : layout_ok u) (hmin : ROOT_INUMBER ≤ u.ibm.min)
    (hibm : u.ibm.min + u.ibm.bits.length ≤ 65536)
    (hdec : cstr p = pre ++ name ++ slashes) (hpre : pre = [] ∨ ∃ par, pre = par ++ [47])
    (hname : ∀ c ∈ name, c ≠ 47) (hne : name ≠ []) (hsl : ∀ c ∈ slashes, c = 47)
    (hpar : direntv6_dirlookup u ROOT_INUMBER pre.dropLast = .ret parent)
    (hpi : inode_read u parent.toNat inode_zero = (ERR_NONE, pi))
    (hpused : u.ibm.min ≤ parent.toNat ∧ u.ibm.bits.getD (parent.toNat - u.ibm.min) false = true)
    (hused : blocks_used u.f u.fbm pi.i_addr ((inode_getsize pi + 511) / 512))
    (hfuel : 2 ≤ fuel)
    (hsucc : direntv6_create fuel u p mode = .ret (n, u1)) (hn : ROOT_INUMBER ≤ n) :
    (∀ x, (inode_read u1 parent.toNat x).1 = ERR_NONE
        ∧ (inode_read u1 parent.toNat x).2.i_mode = pi.i_mode
        ∧ inode_getsize (inode_read u1 parent.toNat x).2 = inode_getsize pi + DIRENT_SIZE)
      ∧ (∀ x, (inode_read u1 n.toNat x).1 = ERR_NONE
        ∧ inode_getsize (inode_read u1 n.toNat x).2 = 0)
      ∧ (∀ j x, j ≠ parent.toNat → j ≠ n.toNat → inode_read u1 j x = inode_read u j x)
      ∧ (dir_sizes_ok u → dir_sizes_ok u1) := by
  obtain ⟨hpf, hpl⟩ := bm_marked_not_free u.ibm parent.toNat hpused
  rw [direntv6_create_split fuel u p mode pre name slashes hdec hpre hname hne hsl] at hsucc
  have hTL : ERR_FILENAME_TOO_LONG < 1 := by decide
  have hNS : ERR_NO_SUCH_FILE < 1 := by decide
  have hAE : ERR_FILENAME_ALREADY_EXISTS < 1 := by decide
  simp only [ROOT_INUMBER, Nat.cast_one] at hn
  by_cases c0 : name.length > DIRENT_MAXLEN
  · rw [if_pos c0] at hsucc
    have hx : ERR_FILENAME_TOO_LONG = n := congrArg Prod.fst (Outcome.ret.inj hsucc)
    omega
  rw [if_neg c0, hpar, bind_ret] at hsucc
  by_cases c1 : parent < (ROOT_INUMBER : Int)
  · rw [if_pos c1] at hsucc
    have hx : ERR_NO_SUCH_FILE = n := congrArg Prod.fst (Outcome.ret.inj hsucc)
    omega
  rw [if_neg c1] at hsucc
  simp only [ROOT_INUMBER, Nat.cast_one] at c1
  cases hl : direntv6_dirlookup u ROOT_INUMBER p with
  | undefined => rw [hl] at hsucc; cases hsucc
  | nofuel => rw [hl] at hsucc; cases hsucc
  | ret e =>
    rw [hl, bind_ret] at hsucc
    by_cases c2 : e ≥ (ROOT_INUMBER : Int)
    · rw [if_pos c2] at hsucc
      have hx : ERR_FILENAME_ALREADY_EXISTS = n := congrArg Prod.fst (Outcome.ret.inj hsucc)
      omega
    rw [if_neg c2] at hsucc
    obtain ⟨r1, r2, r3⟩ := create_append_effect fuel u mode name _ parent pi n u1 hlay hmin hibm
      (by omega) (by omega) hpi hpf hused hfuel hsucc (by simp only [ROOT_INUMBER]; omega)
    refine ⟨r1, r2, r3, ?_⟩
    intro hd j h1 h2
    by_cases cj : j = parent.toNat
    · subst cj
      obtain ⟨a1, a2, a3⟩ := r1 inode_zero
      rw [a3]
      have hdp := hd parent.toNat (by rw [hpi]) (by rw [hpi]; rw [a2] at h2; exact h2)
      rw [hpi] at hdp
      exact (Nat.dvd_add_right hdp).mpr (dvd_refl _)
    · by_cases cn : j = n.toNat
      · subst cn
        rw [(r2 inode_zero).2]
        exact dvd_zero _
      · rw [r3 j inode_zero cj cn] at h1 h2 ⊢
        exact hd j h1 h2

/-- C20 on the example image: creating `/a/x` succeeds with inode 5; the directory `/a`
(inode 2, one record before) has then the size of two records. -/
theorem C20_witness :
    inode_getsize (inode_read ((direntv6_create 3 ex_fs [47, 97, 47, 120] 0).val (0, ex_fs)).2
        2 inode_zero).2 = inode_getsize (ex_dir_inode 4) + DIRENT_SIZE :=
  ((C20_directory_size_invariant 3 ex_fs [47, 97, 47, 120] 0 [47, 97, 47] [120] [] 2
      (ex_dir_inode 4) 5 ((direntv6_create 3 ex_fs [47, 97, 47, 120] 0).val (0, ex_fs)).2
      (by decide!) (by decide) (by decide) (by decide) (Or.inr ⟨[47, 97], rfl⟩) (by decide)
      (by decide) (by decide) (by decide!) (by decide!) (by decide) (by decide!) (by decide)
      (ret_of_fst _ (0, ex_fs) 5 (by decide!)) (by decide)).1 inode_zero).2.2

/-! ## C21: no rollback in `direntv6_create` -/

theorem prod3_eq_of_fst {α β γ : Type} (p : α × β × γ) (a : α) (h : p.1 = a) :
    p = (a, p.2.1, p.2.2) := by
  rw [← h]

theorem bm_set_not_free (bm : bmblock_array) (x : Nat) (h1 : bm.min ≤ x)
    (h2 : x < bm.min + bm.bits.length) : bm_isfree (bm_set bm x) x = false := by
  unfold bm_set
  rw [if_pos ⟨h1, by omega⟩]
  unfold bm_isfree
  simp only []
  rw [bits_getD_set _ _ _ _ (by omega), if_pos rfl]
  simp

/-- The second half of `direntv6_create` on a file system with the expected layout, for a
parent that is an allocated inode marked in the inode bitmap with its data sectors marked in
the sector bitmap, once `filev6_create` has succeeded: if the parent has no room for one more
record the result is `ERR_FILE_TOO_LARGE` with the file system that `filev6_create` left, and
this is the only way the append can fail. -/
theorem create_append_failure (fuel : Nat) (u : unix_filesystem) (mode : Nat) (name : List Nat)
    (k : Nat) (parent : Int) (pi : inode) (u0 : unix_filesystem) (cfv : filev6)
    (hlay : layout_ok u) (hmin : ROOT_INUMBER ≤ u.ibm.min)
    (hibm : u.ibm.min + u.ibm.bits.length ≤ 65536)
    (hp0 : 0 ≤ parent) (hp16 : parent < 65536)
    (hpi : inode_read u parent.toNat inode_zero = (ERR_NONE, pi))
    (hpused : bm_isfree u.ibm parent.toNat = false)
    (hused : blocks_used u.f u.fbm pi.i_addr ((inode_getsize pi + 511) / 512))
    (hfuel : 2 ≤ fuel) (hk : k ≤ DIRENT_MAXLEN)
    (hc : filev6_create u mode filev6_zero = (ERR_NONE, u0, cfv)) :
    (ADDR_SMALL_LENGTH * SECTOR_SIZE ≤ inode_getsize pi + DIRENT_SIZE →
        direntv6_create_append fuel u mode name k parent = .ret (ERR_FILE_TOO_LARGE, u0))
      ∧ (∀ e u1, direntv6_create_append fuel u mode name k parent = .ret (e, u1) →
          e ≠ (cfv.i_number : Int) →
          ADDR_SMALL_LENGTH * SECTOR_SIZE ≤ inode_getsize pi + DIRENT_SIZE)
      ∧ bm_isfree u0.ibm cfv.i_number = false
      ∧ (∀ x, (inode_read u0 cfv.i_number x).1 = ERR_NONE)
      ∧ cfv.i_number ≠ parent.toNat
      ∧ (∀ j x, j ≠ cfv.i_number → inode_read u0 j x = inode_read u j x)
      ∧ u0.fbm = u.fbm
      ∧ file_content u0.f pi.i_addr (inode_getsize pi)
          = file_content u.f pi.i_addr (inode_getsize pi) := by
  obtain ⟨p1, p2, p3, p4, p5, p6⟩ := inode_read_ok_inv u parent.toNat inode_zero pi hpi
  have hl := hlay
  obtain ⟨hl1, hl2, hl3, hl4⟩ := hl
  obtain ⟨q1, q2, q3, q4, q5, q6, q7, q8, q9, q10, q11⟩ :=
    filev6_create_inv u mode filev6_zero hmin hc
  have hwr := filev6_create_write u mode filev6_zero hmin hc
  have hrange := bm_find_next_range u.ibm
  have hge : (u.ibm.min : Int) ≤ bm_find_next u.ibm := by
    rcases hrange with e | e
    · rw [e] at q10; exact absurd q10 (by decide)
    · exact e
  have hlt16 := bm_find_next_lt u.ibm hge
  have hchild : cfv.i_number = (bm_find_next u.ibm).toNat := by omega
  have hcfree := bm_find_next_isfree u.ibm hge
  have hcp : cfv.i_number ≠ parent.toNat := by
    intro hx
    rw [← hchild, hx, hpused] at hcfree
    exact absurd hcfree (by decide)
  have htab : u.s.s_inode_start + u.s.s_isize ≤ 2 ^ 23 := by omega
  have hrd0 : ∀ j x, j ≠ cfv.i_number → inode_read u0 j x = inode_read u j x := by
    intro j x hj
    exact inode_read_frame_of_write
      { u with ibm := bm_set u.ibm (bm_find_next u.ibm).toNat } u0 cfv.i_number j _ x hwr hj htab
  have e16 : parent.toNat % 65536 = parent.toNat := by omega
  have hlay0 : layout_ok u0 := layout_ok_congr u u0 q6 q7 q8 hlay
  have happ : direntv6_create_append fuel u mode name k parent
      = (filev6_writebytes fuel u0 { i_number := parent.toNat, i_node := pi, offset := 0 }
          (strncpy name k ++ List.replicate (DIRENT_MAXLEN - k) 0 ++ enc16 cfv.i_number)
          DIRENT_SIZE).bind fun w =>
        if w.1 ≠ ERR_NONE then .ret (w.1, w.2.1) else .ret ((cfv.i_number : Int), w.2.1) := by
    unfold direntv6_create_append
    simp only []
    rw [hc]
    simp only []
    rw [if_neg (fun hx => hx rfl), if_neg (by omega), e16,
      hrd0 parent.toNat inode_zero (Ne.symm hcp), hpi]
  have hbuf : DIRENT_SIZE ≤ (strncpy name k ++ List.replicate (DIRENT_MAXLEN - k) 0
      ++ enc16 cfv.i_number).length := by
    simp only [List.length_append, strncpy_length, List.length_replicate, enc16,
      List.length_cons, List.length_nil, DIRENT_SIZE, DIRENT_MAXLEN] at hk ⊢
    omega
  refine ⟨?_, ?_, ?_, ?_, hcp, hrd0, q7, ?_⟩
  · intro hlarge
    rw [happ, writebytes_too_large fuel u0 { i_number := parent.toNat, i_node := pi, offset := 0 } _
      DIRENT_SIZE (by have := inode_getsize_lt pi; simp only [DIRENT_SIZE]; omega)
      (by simp only [ADDR_SMALL_LENGTH, SECTOR_SIZE, DIRENT_SIZE] at hlarge ⊢; omega), bind_ret]
    have hne : ERR_FILE_TOO_LARGE ≠ ERR_NONE := by decide
    rw [if_pos hne]
  · intro e u1 hres hfail
    by_contra hlt'
    have hlt : inode_getsize pi + 16 < 4096 := by
      simp only [ADDR_SMALL_LENGTH, SECTOR_SIZE, DIRENT_SIZE] at hlt'; omega
    rw [happ] at hres
    by_cases hfree : (inode_getsize pi + 16 + 511) / 512 - (inode_getsize pi + 511) / 512
        ≤ u.fbm.bits.count false
    · obtain ⟨u2, fv2, hw, -⟩ :=
        writebytes_ok u0 { i_number := parent.toNat, i_node := pi, offset := 0 }
          (strncpy name k ++ List.replicate (DIRENT_MAXLEN - k) 0 ++ enc16 cfv.i_number)
          DIRENT_SIZE fuel hlay0
          (by rw [q7]; exact blocks_used_congr u.f u0.f u.fbm pi.i_addr _ q8 hused)
          p4 hlt hbuf (by rw [q7]; exact hfree) (by simp only [DIRENT_SIZE]; omega)
          p1 (by rw [q6]; exact p2)
          (by
            show (u0.s.s_inode_start + parent.toNat / 16 + 1) * 512 ≤ u0.f.length
            rw [q6, q8]
            have := sector_offset_small (u.s.s_inode_start + parent.toNat / 16) (by omega)
            omega)
      rw [hw, bind_ret, if_neg (fun hx => hx rfl)] at hres
      exact hfail (congrArg Prod.fst (Outcome.ret.inj hres)).symm
    · have hno := writebytes_full_no_result u0
        { i_number := parent.toNat, i_node := pi, offset := 0 }
        (strncpy name k ++ List.replicate (DIRENT_MAXLEN - k) 0 ++ enc16 cfv.i_number) fuel hlay0
        (by rw [q7]; exact blocks_used_congr u.f u0.f u.fbm pi.i_addr _ q8 hused) hlt hbuf
        (by rw [q7]; omega)
        (by show (inode_getsize pi + 511) / 512 < (inode_getsize pi + 16 + 511) / 512; omega)
      cases hwb : filev6_writebytes fuel u0 { i_number := parent.toNat, i_node := pi, offset := 0 }
          (strncpy name k ++ List.replicate (DIRENT_MAXLEN - k) 0 ++ enc16 cfv.i_number)
          DIRENT_SIZE with
      | ret r => exact hno r hwb
      | undefined => rw [hwb] at hres; cases hres
      | nofuel => rw [hwb] at hres; cases hres
  · rw [q11, hchild]
    exact bm_set_not_free u.ibm _ (by omega) (by omega)
  · intro x
    obtain ⟨_, _, e3⟩ := inode_write_effect _ u0 cfv.i_number _ hwr
    rw [e3 x]
    have hal : (decode_inode (encode_inode { inode_zero with i_mode := IALLOC ||| mode })).i_mode
        &&& IALLOC ≠ 0 := by
      rw [decode_encode_mode, and_ialloc_mod]
      exact or_and_ialloc mode
    rw [if_neg hal]
  · apply file_content_congr
    intro j hj
    obtain ⟨e1, _, _⟩ := inode_write_effect _ u0 cfv.i_number _ hwr
    have hb := (hused.1 j hj)
    have hb2 := bits_getD_lt hb.2.1
    apply e1
    show sector_offset (pi.i_addr.getD j 0) ≠ sector_offset (u.s.s_inode_start + cfv.i_number / 16)
    rw [sector_offset_small _ (by omega), sector_offset_small _ (by omega)]
    omega

/-- No rollback when the append is refused as too large. The file system has the expected layout, its inode
bitmap covers 16-bit inode numbers from `ROOT_INUMBER` on, and the path has the characters
`pre ++ name ++ slashes`, where the final name (with the slash before it, if there is one)
fits the 14 bytes of the name field. The parent portion resolves to `parent`, an allocated
inode `pi` that is marked in the inode bitmap and whose data sectors are marked in the sector
bitmap, the path itself does not resolve, and `filev6_create` succeeds: it allocates and
persists the child inode and leaves the file system `u0`. Then: if the parent has no room
for one more record (it holds 255 records or more, so its size plus `DIRENT_SIZE` reaches
`ADDR_SMALL_LENGTH*SECTOR_SIZE`), `direntv6_create` returns `ERR_FILE_TOO_LARGE`, the error
of the append, together with `u0`; whenever `direntv6_create` returns anything but the number
of the child, it is this error with `u0`; and in `u0` the child inode is marked used in the
inode bitmap and allocated on disk, while every other inode (the parent among them, so its
size), the sector bitmap and the data of the parent are as before: nothing is rolled back and
no record is added. -/
theorem create_no_rollback_too_large (fuel : Nat) (u : unix_filesystem) (p : List Nat) (mode : Nat)
    (pre name slashes : List Nat) (parent : Int) (pi : inode) (x0 : Int)
    (u0 : unix_filesystem) (cfv : filev6)
    (hlay : layout_ok u) (hmin : ROOT_INUMBER ≤ u.ibm.min)
    (hibm : u.ibm.min + u.ibm.bits.length ≤ 65536)
    (hdec : cstr p = pre ++ name ++ slashes) (hpre : pre = [] ∨ ∃ par, pre = par ++ [47])
    (hname : ∀ c ∈ name, c ≠ 47) (hne : name ≠ []) (hsl : ∀ c ∈ slashes, c = 47)
    (hlen : name.length + (if pre = [] then 0 else 1) ≤ DIRENT_MAXLEN)
    (hpar : direntv6_dirlookup u ROOT_INUMBER pre.dropLast = .ret parent)
    (hpi : inode_read u parent.toNat inode_zero = (ERR_NONE, pi))
    (hpused : u.ibm.min ≤ parent.toNat ∧ u.ibm.bits.getD (parent.toNat - u.ibm.min) false = true)
    (hused : blocks_used u.f u.fbm pi.i_addr ((inode_getsize pi + 511) / 512))
    (hnot : direntv6_dirlookup u ROOT_INUMBER p = .ret x0) (hx0 : x0 < ROOT_INUMBER)
    (hfuel : 2 ≤ fuel)
    (hc : filev6_create u mode filev6_zero = (ERR_NONE, u0, cfv)) :
    (ADDR_SMALL_LENGTH * SECTOR_SIZE ≤ inode_getsize pi + DIRENT_SIZE →
        direntv6_create fuel u p mode = .ret (ERR_FILE_TOO_LARGE, u0))
      ∧ (∀ e u1, direntv6_create fuel u p mode = .ret (e, u1) → e ≠ (cfv.i_number : Int) →
          e = ERR_FILE_TOO_LARGE ∧ u1 = u0
            ∧ ADDR_SMALL_LENGTH * SECTOR_SIZE ≤ inode_getsize pi + DIRENT_SIZE)
      ∧ bm_isfree u0.ibm cfv.i_number = false
      ∧ (∀ x, (inode_read u0 cfv.i_number x).1 = ERR_NONE)
      ∧ cfv.i_number ≠ parent.toNat
      ∧ (∀ j x, j ≠ cfv.i_number → inode_read u0 j x = inode_read u j x)
      ∧ u0.fbm = u.fbm
      ∧ file_content u0.f pi.i_addr (inode_getsize pi)
          = file_content u.f pi.i_addr (inode_getsize pi) := by
  obtain ⟨hpf, hpl⟩ := bm_marked_not_free u.ibm parent.toNat hpused
  obtain ⟨p1, -⟩ := inode_read_ok_inv u parent.toNat inode_zero pi hpi
  have hp1 : ¬ parent < (ROOT_INUMBER : Int) := by
    simp only [ROOT_INUMBER, Nat.cast_one] at p1 ⊢; omega
  have hcr : direntv6_create fuel u p mode = direntv6_create_append fuel u mode name
      (name.length + (if pre = [] then 0 else 1)) parent := by
    rw [direntv6_create_split fuel u p mode pre name slashes hdec hpre hname hne hsl,
      if_neg (by omega), hpar, bind_ret, if_neg hp1, hnot, bind_ret, if_neg (by omega)]
  obtain ⟨a1, a2, a3, a4, a5, a6, a7, a8⟩ := create_append_failure fuel u mode name
    (name.length + (if pre = [] then 0 else 1)) parent pi u0 cfv hlay hmin hibm
    (by simp only [ROOT_INUMBER, Nat.cast_one] at hp1; omega) (by omega) hpi hpf hused hfuel
    hlen hc
  refine ⟨fun h => by rw [hcr]; exact a1 h, ?_, a3, a4, a5, a6, a7, a8⟩
  intro e u1 hres hfail
  rw [hcr] at hres
  have hlarge := a2 e u1 hres hfail
  have h2 := a1 hlarge
  rw [h2] at hres
  have h3 := Outcome.ret.inj hres
  exact ⟨(congrArg Prod.fst h3).symm, (congrArg Prod.snd h3).symm, hlarge⟩

/-- On the image `ex_big_fs`, where the directory `/a` (inode 2) holds 255 records:
creating `/a/x` returns `ERR_FILE_TOO_LARGE`, and the inode 5 that `filev6_create` took for
the child stays marked in the inode bitmap. -/
theorem create_no_rollback_too_large_example :
    direntv6_create 3 ex_big_fs [47, 97, 47, 120] 0
        = .ret (ERR_FILE_TOO_LARGE, (filev6_create ex_big_fs 0 filev6_zero).2.1)
    ∧ bm_isfree (filev6_create ex_big_fs 0 filev6_zero).2.1.ibm
        (filev6_create ex_big_fs 0 filev6_zero).2.2.i_number = false :=
  ⟨(create_no_rollback_too_large 3 ex_big_fs [47, 97, 47, 120] 0 [47, 97, 47] [120] [] 2 ex_big_dir_inode
      ERR_NO_SUCH_FILE (filev6_create ex_big_fs 0 filev6_zero).2.1
      (filev6_create ex_big_fs 0 filev6_zero).2.2
      (by decide!) (by decide) (by decide) (by decide) (Or.inr ⟨[47, 97], rfl⟩) (by decide)
      (by decide) (by decide) (by decide) (by decide!) (by decide!) (by decide) (by decide!)
      (by decide!) (by decide) (by decide) (prod3_eq_of_fst _ _ (by decide!))).1 (by decide),
    (create_no_rollback_too_large 3 ex_big_fs [47, 97, 47, 120] 0 [47, 97, 47] [120] [] 2 ex_big_dir_inode
      ERR_NO_SUCH_FILE (filev6_create ex_big_fs 0 filev6_zero).2.1
      (filev6_create ex_big_fs 0 filev6_zero).2.2
      (by decide!) (by decide) (by decide) (by decide) (Or.inr ⟨[47, 97], rfl⟩) (by decide)
      (by decide) (by decide) (by decide) (by decide!) (by decide!) (by decide) (by decide!)
      (by decide!) (by decide) (by decide) (prod3_eq_of_fst _ _ (by decide!))).2.2.1⟩

/-- The second half of `direntv6_create` when `filev6_create` has succeeded, the parent is
empty and the sector bitmap has no free sector: the append of the record does not return. -/
theorem create_append_bitmap_full (fuel : Nat) (u : unix_filesystem) (mode : Nat)
    (name : List Nat) (k : Nat) (parent : Int)
    (hc : (filev6_create u mode filev6_zero).1 = ERR_NONE) (hk : k ≤ DIRENT_MAXLEN)
    (hfull : bm_find_next (filev6_create u mode filev6_zero).2.1.fbm = ERR_BITMAP_FULL)
    (hsize : inode_getsize (inode_read (filev6_create u mode filev6_zero).2.1
      (parent.toNat % 65536) inode_zero).2 = 0) :
    direntv6_create_append (fuel + 2) u mode name k parent = .undefined := by
  unfold direntv6_create_append
  simp only []
  have hk2 : ¬ k > DIRENT_MAXLEN := by omega
  have h0 : 0 < DIRENT_SIZE := by decide
  have h1 : DIRENT_SIZE < 4096 := by decide
  rw [if_neg (not_not.mpr hc), if_neg hk2,
    writebytes_bitmap_full_empty (filev6_create u mode filev6_zero).2.1
      { i_number := parent.toNat % 65536,
        i_node := (inode_read (filev6_create u mode filev6_zero).2.1 (parent.toNat % 65536)
          inode_zero).2,
        offset := 0 } _ DIRENT_SIZE fuel hfull hsize h0 h1]
  rfl

/-- C21, evaluation of the code at a failing input. On the image `ex_stuck_fs` the sector
bitmap has no free sector and the directory `/a/b` (inode 3) is empty. For the path
`/a/b/x` the parent resolves, the name does not exist, and `filev6_create` succeeds: inode 5
is marked used and persisted. The append of the record then fails, since its first
`filev6_writesector` returns the allocation-exhausted code `ERR_BITMAP_FULL`; but
`filev6_writebytes` keeps that code in a `size_t` and does not return it, so
`direntv6_create` does not return that step's error: it leaves defined behaviour, whatever
the fuel. This is the defect of C19, reached through `direntv6_create`. -/
theorem C21_append_failure_not_returned :
    direntv6_dirlookup ex_stuck_fs ROOT_INUMBER [47, 97, 47, 98] = .ret 3
    ∧ direntv6_dirlookup ex_stuck_fs ROOT_INUMBER [47, 97, 47, 98, 47, 120]
        = .ret ERR_NO_SUCH_FILE
    ∧ (filev6_create ex_stuck_fs 0 filev6_zero).1 = ERR_NONE
    ∧ (filev6_create ex_stuck_fs 0 filev6_zero).2.2.i_number = 5
    ∧ bm_isfree (filev6_create ex_stuck_fs 0 filev6_zero).2.1.ibm 5 = false
    ∧ (inode_read (filev6_create ex_stuck_fs 0 filev6_zero).2.1 5 inode_zero).1 = ERR_NONE
    ∧ (filev6_writesector (filev6_create ex_stuck_fs 0 filev6_zero).2.1
          { i_number := 3,
            i_node := (inode_read (filev6_create ex_stuck_fs 0 filev6_zero).2.1 3 inode_zero).2,
            offset := 0 }
          (ex_dirent [120] 5) 16 16 0 0).bind (fun r => .ret r.1) = .ret ERR_BITMAP_FULL
    ∧ ∀ fuel, direntv6_create (fuel + 2) ex_stuck_fs [47, 97, 47, 98, 47, 120] 0
        = .undefined := by
  refine ⟨by decide!, by decide!, by decide!, by decide!, by decide!, by decide!, by decide!,
    fun fuel => ?_⟩
  have h1 : direntv6_dirlookup ex_stuck_fs ROOT_INUMBER [47, 97, 47, 98] = .ret 3 := by decide!
  have h2 : direntv6_dirlookup ex_stuck_fs ROOT_INUMBER [47, 97, 47, 98, 47, 120]
      = .ret ERR_NO_SUCH_FILE := by decide!
  rw [direntv6_create_split (fuel + 2) ex_stuck_fs [47, 97, 47, 98, 47, 120] 0
    [47, 97, 47, 98, 47] [120] [] (by decide) (Or.inr ⟨[47, 97, 47, 98], rfl⟩) (by decide)
    (by decide) (by decide), if_neg (by decide)]
  have e : ([47, 97, 47, 98, 47] : List Nat).dropLast = [47, 97, 47, 98] := rfl
  rw [e, h1, bind_ret, if_neg (by decide), h2, bind_ret, if_neg (by decide)]
  exact create_append_bitmap_full fuel ex_stuck_fs 0 [120] _ 3 (by decide!) (by decide)
    (by decide!) (by decide!)

/-! ## C22: the inode scan of `mountv6` -/

theorem mountv6_walk_s (i : inode) (size_file : Int) (fuel : Nat) :
    ∀ (u : unix_filesystem) (offset : Int) (u1 : unix_filesystem),
      mountv6_walk i size_file fuel u offset = .ret u1 → u1.s = u.s := by
  induction fuel with
  | zero => intro u offset u1 h; simp [mountv6_walk] at h
  | succ n ih =>
    intro u offset u1 h
    unfold mountv6_walk at h
    simp only [] at h
    split at h
    · have := ih _ _ _ h
      rw [this]
      split <;> rfl
    · cases h; rfl

/-- The walk over the logical offsets of one inode returns: `inode_findsector` is positive
only below the size, so `size / SECTOR_SIZE + 2` rounds are enough from offset 0. -/
theorem mountv6_walk_returns (i : inode) (fuel : Nat) :
    ∀ (u : unix_filesystem) (offset : Int), 0 ≤ offset →
      ((((inode_getsize i + 511) / 512 : Nat) : Int) - offset).toNat < fuel →
      ∃ u1, mountv6_walk i (inode_getsize i) fuel u offset = .ret u1 := by
  induction fuel with
  | zero =>
    intro u offset h0 h
    omega
  | succ n ih =>
    intro u offset h0 h
    unfold mountv6_walk
    simp only []
    by_cases c : inode_findsector u i offset > 0
    · rw [if_pos c]
      obtain ⟨-, -, k⟩ := findsector_nonneg_inv u i offset (le_of_lt c)
      have hs := inode_getsize_lt i
      simp only [SECTOR_SIZE, Nat.cast_ofNat] at k
      have e : to_i32 (offset + 1) = offset + 1 := by unfold to_i32; omega
      rw [e]
      exact ih _ _ (by omega) (by omega)
    · rw [if_neg c]
      exact ⟨u, rfl⟩

/-- When `s_isize*INODES_PER_SECTOR` fits the 16-bit counter, the scan of `mountv6` returns
within one round per inode number. -/
theorem mountv6_scan_returns (junk : Nat → inode) (fuel : Nat) :
    ∀ (u : unix_filesystem) (inr : Nat), u.s.s_isize * INODES_PER_SECTOR ≤ 65535 →
      u.s.s_isize * INODES_PER_SECTOR - inr < fuel →
      ∃ u1, mountv6_scan junk fuel u inr = .ret u1 := by
  induction fuel with
  | zero => intro u inr _ h; omega
  | succ n ih =>
    intro u inr hs hf
    unfold mountv6_scan
    by_cases c : inr < u.s.s_isize * INODES_PER_SECTOR
    · rw [if_pos c]
      simp only []
      have hstep : ∃ u1, (if (inode_read u inr (junk inr)).1 ≠ ERR_UNALLOCATED_INODE then
            mountv6_walk (inode_read u inr (junk inr)).2
              (inode_getsize (inode_read u inr (junk inr)).2)
              (inode_getsize (inode_read u inr (junk inr)).2 / SECTOR_SIZE + 2)
              { u with ibm := bm_set u.ibm inr } 0
          else .ret u) = .ret u1 ∧ u1.s = u.s := by
        by_cases c1 : (inode_read u inr (junk inr)).1 ≠ ERR_UNALLOCATED_INODE
        · rw [if_pos c1]
          obtain ⟨u1, h1⟩ := mountv6_walk_returns (inode_read u inr (junk inr)).2
            (inode_getsize (inode_read u inr (junk inr)).2 / SECTOR_SIZE + 2)
            { u with ibm := bm_set u.ibm inr } 0 (le_refl _)
            (by simp only [SECTOR_SIZE]; omega)
          exact ⟨u1, h1, mountv6_walk_s _ _ _ { u with ibm := bm_set u.ibm inr } _ _ h1⟩
        · rw [if_neg c1]
          exact ⟨u, rfl, rfl⟩
      obtain ⟨u1, h1, h2⟩ := hstep
      rw [h1, bind_ret]
      have e : (inr + 1) % 65536 = inr + 1 := by omega
      rw [e]
      exact ih u1 (inr + 1) (by rw [h2]; exact hs) (by rw [h2]; omega)
    · rw [if_neg c]
      exact ⟨u, rfl⟩

/-- With `65536 ≤ s_isize*INODES_PER_SECTOR` the 16-bit counter of the scan never reaches the
bound: whatever the fuel, the scan does not return. -/
theorem mountv6_scan_wraps (junk : Nat → inode) (fuel : Nat) :
    ∀ (u : unix_filesystem) (inr : Nat), 65536 ≤ u.s.s_isize * INODES_PER_SECTOR → inr < 65536 →
      ∀ r, mountv6_scan junk fuel u inr ≠ .ret r := by
  induction fuel with
  | zero => intro u inr _ _ r h; simp [mountv6_scan] at h
  | succ n ih =>
    intro u inr hs hi r
    unfold mountv6_scan
    rw [if_pos (by omega)]
    simp only []
    apply bind_ne_ret_of
    intro u1 hu1
    have hs1 : u1.s = u.s := by
      split at hu1
      · exact mountv6_walk_s _ _ _ { u with ibm := bm_set u.ibm inr } _ _ hu1
      · cases hu1; rfl
    exact ih u1 _ (by rw [hs1]; exact hs) (Nat.mod_lt _ (by norm_num)) r

theorem mountv6_wraps (mo magic : Nat) (junk : Nat → inode) (fuel : Nat) (f : Disk) (n : Nat)
    (hboot : (sector_read f BOOTBLOCK_SECTOR).map (fun d => byte_at d mo) = some magic)
    (hsb : (sector_read f SUPERBLOCK_SECTOR).map (fun sb => (decode_superblock sb).s_isize)
      = some n)
    (hn : 65536 ≤ n * INODES_PER_SECTOR) :
    ∀ r, mountv6 mo magic junk fuel f ≠ .ret r := by
  intro r
  unfold mountv6
  cases h0 : sector_read f BOOTBLOCK_SECTOR with
  | none => rw [h0] at hboot; cases hboot
  | some d =>
    rw [h0] at hboot
    simp only [Option.map_some'] at hboot
    have hb : byte_at d mo = magic := Option.some.inj hboot
    simp only []
    rw [if_neg (by rw [hb]; simp)]
    cases h1 : sector_read f SUPERBLOCK_SECTOR with
    | none => rw [h1] at hsb; cases hsb
    | some sb =>
      rw [h1] at hsb
      simp only [Option.map_some'] at hsb
      have hn1 : (decode_superblock sb).s_isize = n := Option.some.inj hsb
      simp only []
      apply bind_ne_ret_of
      intro u1 hu1
      exact absurd hu1 (mountv6_scan_wraps junk fuel _ _ (by simp only [hn1]; exact hn)
        (by decide) u1)

/-- C22, evaluation of the code at a failing input. The image `ex_wrap_disk` has a valid boot
sector and a superblock with `s_isize = 4096`, so the bound of the scan is
`s_isize*INODES_PER_SECTOR = 65536`. The counter `inr` of the scan is a `uint16_t`: after
65535 it wraps to 0, the test `inr < 65536` never fails, and `mountv6` returns with no
amount of fuel: the scan visits the inode numbers again and again and does not terminate. -/
theorem C22_scan_does_not_terminate :
    (sector_read ex_wrap_disk SUPERBLOCK_SECTOR).map (fun sb => (decode_superblock sb).s_isize)
      = some 4096
    ∧ ∀ (junk : Nat → inode) (fuel : Nat) (r : Int × unix_filesystem),
        mountv6 510 213 junk fuel ex_wrap_disk ≠ .ret r :=
  ⟨by decide!, fun junk fuel r =>
    mountv6_wraps 510 213 junk fuel ex_wrap_disk 4096 (by decide!) (by decide!) (by decide) r⟩

/-! ## C23: the effective limit of `filev6_writebytes` -/

/-- What `filev6_writesector` leaves alone: the inode bitmap, the superblock, and the handle
apart from one slot of `i_addr`. -/
theorem writesector_shape (u : unix_filesystem) (fv : filev6) (buf : List Nat)
    (len left bw size : Nat) (r : Int × unix_filesystem × filev6)
    (h : filev6_writesector u fv buf len left bw size = .ret r) :
    r.2.1.ibm = u.ibm ∧ r.2.1.s = u.s ∧ r.2.2.i_number = fv.i_number
      ∧ r.2.2.offset = fv.offset
      ∧ r.2.2.i_node.i_addr.length = fv.i_node.i_addr.length
      ∧ r.2.2.i_node.i_mode = fv.i_node.i_mode := by
  unfold filev6_writesector at h
  simp only [] at h
  repeat' split at h
  all_goals first
    | (rw [← Outcome.ret.inj h]; simp)
    | cases h

/-- The loop of `filev6_writebytes`, when it returns, has added exactly `left_to_write` to
the size modulo `2^32`, whatever the codes of `filev6_writesector` were. -/
theorem writebytes_loop_shape (buf : List Nat) (len : Nat) (fuel : Nat) :
    ∀ (u : unix_filesystem) (fv : filev6) (left bw size : Nat)
      (r : unix_filesystem × filev6 × Nat), left < 2 ^ 64 → size < 2 ^ 32 →
      filev6_writebytes_loop buf len fuel u fv left bw size = .ret r →
      r.2.2 = (left + size) % 2 ^ 32 ∧ r.1.ibm = u.ibm ∧ r.1.s = u.s
        ∧ r.2.1.i_number = fv.i_number ∧ r.2.1.offset = fv.offset
        ∧ r.2.1.i_node.i_addr.length = fv.i_node.i_addr.length
        ∧ r.2.1.i_node.i_mode = fv.i_node.i_mode := by
  induction fuel with
  | zero =>
    intro u fv left bw size r hl hs h
    unfold filev6_writebytes_loop at h
    split at h
    · rename_i h0
      rw [← Outcome.ret.inj h, h0]
      simp only [Nat.zero_add, and_self, and_true]
      exact (Nat.mod_eq_of_lt hs).symm
    · cases h
  | succ n ih =>
    intro u fv left bw size r hl hs h
    unfold filev6_writebytes_loop at h
    split at h
    · rename_i h0
      rw [← Outcome.ret.inj h, h0]
      simp only [Nat.zero_add, and_self, and_true]
      exact (Nat.mod_eq_of_lt hs).symm
    · cases hw : filev6_writesector u fv buf len left bw size with
      | undefined => rw [hw] at h; cases h
      | nofuel => rw [hw] at h; cases h
      | ret w =>
        rw [hw, bind_ret] at h
        have hx : (w.1 % 2 ^ 64).toNat < 2 ^ 64 := by
          have := Int.emod_lt_of_pos w.1 (show (0 : Int) < 2 ^ 64 by norm_num)
          have := Int.emod_nonneg w.1 (show (2 ^ 64 : Int) ≠ 0 by norm_num)
          omega
        obtain ⟨h1, h2, h3, h4, h5, h6, h7⟩ := ih _ _ _ _ _ r (Nat.mod_lt _ (by norm_num))
          (Nat.mod_lt _ (by norm_num)) h
        obtain ⟨s1, s2, s3, s4, s5, s6⟩ := writesector_shape _ _ _ _ _ _ _ w hw
        refine ⟨?_, h2.trans s1, h3.trans s2, h4.trans s3, h5.trans s4, h6.trans s5,
          h7.trans s6⟩
        rw [h1]
        generalize (w.1 % 2 ^ 64).toNat = x at hx
        omega
theorem finish_pair (w : Int × unix_filesystem) (c : filev6) (r : Int × unix_filesystem × filev6)
    (h : (if w.1 ≠ ERR_NONE then Outcome.ret (w.1, w.2, c)
      else Outcome.ret (ERR_NONE, w.2, c)) = Outcome.ret r) :
    r = (w.1, w.2, c) := by
  by_cases c1 : w.1 ≠ ERR_NONE
  · rw [if_pos c1] at h
    exact (Outcome.ret.inj h).symm
  · rw [if_neg c1] at h
    rw [← Outcome.ret.inj h, not_not.mp c1]

/-- A call of `filev6_writebytes` that passes the size guard and returns: the loop has
returned, the size `s + len` is set in the inode of the handle, and the code and the file
system are those of the final `inode_write`. -/
theorem writebytes_pass (fuel : Nat) (u : unix_filesystem) (fv : filev6) (buf : List Nat)
    (len : Nat) (hlt : inode_getsize fv.i_node + len < 4096)
    (r : Int × unix_filesystem × filev6) (h : filev6_writebytes fuel u fv buf len = .ret r) :
    ∃ (u1 : unix_filesystem) (fv1 : filev6),
      fv1.i_number = fv.i_number ∧ fv1.offset = fv.offset
      ∧ fv1.i_node.i_addr.length = fv.i_node.i_addr.length
      ∧ fv1.i_node.i_mode = fv.i_node.i_mode ∧ u1.ibm = u.ibm ∧ u1.s = u.s
      ∧ r = ((inode_write u1 fv.i_number { fv1.i_node with
                i_size0 := ((inode_getsize fv.i_node + len) / 65536) % 256,
                i_size1 := (inode_getsize fv.i_node + len) % 65536 }).1,
             (inode_write u1 fv.i_number { fv1.i_node with
                i_size0 := ((inode_getsize fv.i_node + len) / 65536) % 256,
                i_size1 := (inode_getsize fv.i_node + len) % 65536 }).2,
             { fv1 with i_node := { fv1.i_node with
                i_size0 := ((inode_getsize fv.i_node + len) / 65536) % 256,
                i_size1 := (inode_getsize fv.i_node + len) % 65536 } }) := by
  unfold filev6_writebytes at h
  simp only [ADDR_SMALL_LENGTH, SECTOR_SIZE, ADDRESSES_PER_SECTOR] at h
  rw [Nat.mod_eq_of_lt (by omega), if_neg (by omega), if_neg (by omega)] at h
  cases hl : filev6_writebytes_loop buf len fuel u fv len 0 (inode_getsize fv.i_node) with
  | undefined => rw [hl] at h; cases h
  | nofuel => rw [hl] at h; cases h
  | ret t =>
    rw [hl, bind_ret] at h
    have hs := inode_getsize_lt fv.i_node
    obtain ⟨h1, h2, h3, h4, h5, h6, h7⟩ := writebytes_loop_shape buf len fuel u fv len 0
      (inode_getsize fv.i_node) t (by omega) (by omega) hl
    have h1' : t.2.2 = inode_getsize fv.i_node + len := by
      rw [h1]; omega
    rw [h1', to_i32_nat _ (by omega), inode_setsize_nat] at h
    simp only [ne_eq, not_true_eq_false, if_false] at h
    have := finish_pair _ _ r h
    refine ⟨t.1, t.2.1, h4, h5, h6, h7, h2, h3, ?_⟩
    rw [this, h4]

theorem ret_of_fst3 {α β γ : Type} (x : Outcome (α × β × γ)) (d : α × β × γ) (a : α)
    (h : x.bind (fun r => .ret r.1) = .ret a) :
    x = .ret (a, (x.val d).2.1, (x.val d).2.2) := by
  cases x with
  | ret r =>
    rw [bind_ret] at h
    rw [← Outcome.ret.inj h]
    rfl
  | undefined => cases h
  | nofuel => cases h

/-- C23: the effective write limit. For a handle whose inode has size `s` and a length `len`
(0 included; `s + len` is taken in `size_t`, so it is assumed not to wrap, which holds for
the length of every buffer that exists), `filev6_writebytes` returns `ERR_FILE_TOO_LARGE` if
and only if `s + len ≥ ADDR_SMALL_LENGTH*SECTOR_SIZE`; on that rejection the file system (disk
image and both bitmaps) and the handle are returned unchanged; and a successful write leaves
the size `s + len ≤ 4095` in the handle and in the inode on disk, and no slot is added to
`i_addr`: with a size below 4096 every sector of the file is addressed by a direct slot. -/
theorem C23_effective_write_limit (fuel : Nat) (u : unix_filesystem) (fv : filev6)
    (buf : List Nat) (len : Nat) (hwrap : inode_getsize fv.i_node + len < 2 ^ 64) :
    ((∃ u1 fv1, filev6_writebytes fuel u fv buf len = .ret (ERR_FILE_TOO_LARGE, u1, fv1))
        ↔ ADDR_SMALL_LENGTH * SECTOR_SIZE ≤ inode_getsize fv.i_node + len)
    ∧ (∀ u1 fv1, filev6_writebytes fuel u fv buf len = .ret (ERR_FILE_TOO_LARGE, u1, fv1) →
        u1 = u ∧ fv1 = fv)
    ∧ (∀ u1 fv1, filev6_writebytes fuel u fv buf len = .ret (ERR_NONE, u1, fv1) →
        inode_getsize fv1.i_node = inode_getsize fv.i_node + len
        ∧ inode_getsize fv1.i_node ≤ 4095
        ∧ (∀ x, inode_getsize (inode_read u1 fv1.i_number x).2 = inode_getsize fv1.i_node)
        ∧ fv1.i_node.i_addr.length = fv.i_node.i_addr.length) := by
  have hcode : ∀ u1 fv1, filev6_writebytes fuel u fv buf len = .ret (ERR_FILE_TOO_LARGE, u1, fv1) →
      ADDR_SMALL_LENGTH * SECTOR_SIZE ≤ inode_getsize fv.i_node + len := by
    intro u1 fv1 h
    by_contra hc
    simp only [ADDR_SMALL_LENGTH, SECTOR_SIZE] at hc
    obtain ⟨u2, fv2, -, -, -, -, -, -, hr⟩ := writebytes_pass fuel u fv buf len (by omega) _ h
    have h1 : ERR_FILE_TOO_LARGE = (inode_write u2 fv.i_number { fv2.i_node with
        i_size0 := ((inode_getsize fv.i_node + len) / 65536) % 256,
        i_size1 := (inode_getsize fv.i_node + len) % 65536 }).1 := congrArg Prod.fst hr
    rcases inode_write_code u2 fv.i_number { fv2.i_node with
        i_size0 := ((inode_getsize fv.i_node + len) / 65536) % 256,
        i_size1 := (inode_getsize fv.i_node + len) % 65536 } with e | e | e
    · rw [e] at h1; exact absurd h1 (by decide)
    · rw [e] at h1; exact absurd h1 (by decide)
    · rw [e] at h1; exact absurd h1 (by decide)
  refine ⟨⟨fun ⟨u1, fv1, h⟩ => hcode u1 fv1 h,
    fun h => ⟨u, fv, writebytes_too_large fuel u fv buf len hwrap h⟩⟩, ?_, ?_⟩
  · intro u1 fv1 h
    have h2 := writebytes_too_large fuel u fv buf len hwrap (hcode u1 fv1 h)
    rw [h2] at h
    have h3 := Outcome.ret.inj h
    have h4 : (u, fv) = (u1, fv1) := congrArg Prod.snd h3
    exact ⟨(congrArg Prod.fst h4).symm, (congrArg Prod.snd h4).symm⟩
  · intro u1 fv1 h
    have hlt : inode_getsize fv.i_node + len < 4096 := by
      by_contra hc
      have h2 := writebytes_too_large fuel u fv buf len hwrap
        (by simp only [ADDR_SMALL_LENGTH, SECTOR_SIZE]; omega)
      rw [h2] at h
      have h3 : ERR_FILE_TOO_LARGE = ERR_NONE := congrArg Prod.fst (Outcome.ret.inj h)
      exact absurd h3 (by decide)
    obtain ⟨u2, fv2, k1, -, k3, -, -, -, hr⟩ := writebytes_pass fuel u fv buf len hlt _ h
    have hfv : fv1 = { fv2 with i_node := { fv2.i_node with
        i_size0 := ((inode_getsize fv.i_node + len) / 65536) % 256,
        i_size1 := (inode_getsize fv.i_node + len) % 65536 } } :=
      congrArg (fun p => p.2.2) hr
    have hu : u1 = (inode_write u2 fv.i_number { fv2.i_node with
        i_size0 := ((inode_getsize fv.i_node + len) / 65536) % 256,
        i_size1 := (inode_getsize fv.i_node + len) % 65536 }).2 :=
      congrArg (fun p => p.2.1) hr
    have hw1 : ERR_NONE = (inode_write u2 fv.i_number { fv2.i_node with
        i_size0 := ((inode_getsize fv.i_node + len) / 65536) % 256,
        i_size1 := (inode_getsize fv.i_node + len) % 65536 }).1 := congrArg Prod.fst hr
    have hw : inode_write u2 fv.i_number { fv2.i_node with
        i_size0 := ((inode_getsize fv.i_node + len) / 65536) % 256,
        i_size1 := (inode_getsize fv.i_node + len) % 65536 } = (ERR_NONE, u1) := by
      rw [hu]; exact prod_eq_of_fst _ _ hw1.symm
    have hsz : inode_getsize fv1.i_node = inode_getsize fv.i_node + len := by
      rw [hfv]
      show ((inode_getsize fv.i_node + len) / 65536 % 256) % 256 * 65536
        + (inode_getsize fv.i_node + len) % 65536 % 65536 = _
      omega
    refine ⟨hsz, by omega, ?_, ?_⟩
    · intro x
      have hnum : fv1.i_number = fv.i_number := by rw [hfv]; exact k1
      rw [hnum, (inode_write_effect u2 u1 fv.i_number _ hw).2.2 x]
      show inode_getsize (decode_inode (encode_inode _)) = _
      rw [decode_encode_size, hfv]
    · rw [hfv]; exact k3

/-- C23 on the example file of 3 bytes: a write of 4093 bytes is rejected and leaves the file
system and the handle as they were, a write of 4092 bytes is not rejected as too large, and
the successful write of one byte leaves the size 4. -/
theorem C23_witness :
    (∃ u1 fv1, filev6_writebytes 2 ex_fs ex_file [] 4093 = .ret (ERR_FILE_TOO_LARGE, u1, fv1))
    ∧ (¬ ∃ u1 fv1, filev6_writebytes 2 ex_fs ex_file [] 4092
        = .ret (ERR_FILE_TOO_LARGE, u1, fv1))
    ∧ inode_getsize ((filev6_writebytes 2 ex_fs ex_file [9] 1).val (0, ex_fs, ex_file)).2.2.i_node
        = inode_getsize ex_file.i_node + 1 :=
  ⟨(C23_effective_write_limit 2 ex_fs ex_file [] 4093 (by decide)).1.mpr (by decide),
    fun h => absurd ((C23_effective_write_limit 2 ex_fs ex_file [] 4092 (by decide)).1.mp h)
      (by decide),
    ((C23_effective_write_limit 2 ex_fs ex_file [9] 1 (by decide)).2.2 _ _
      (ret_of_fst3 _ (0, ex_fs, ex_file) ERR_NONE (by decide!))).1⟩

/-! ## C24: creating an entry under an inode that is not a directory -/

/-- C24, evaluation of the code at a failing input. On the image `ex_fs` the path `/a/b/c`
resolves from the root to inode 4, an allocated regular file of 3 bytes (its `IFDIR` bit is
clear) whose data sector 6 starts with the bytes 1 2 3, and inode 5 is free. `direntv6_create`
on `/a/b/c/x` does not fail: it returns the new inode number 5, inode 5 is marked in the inode
bitmap and allocated on disk, and the 16-byte record `(x, 5)` is appended to the data of the
file, whose size becomes 19. `direntv6_create` never tests the type of the parent inode, and
the lookup of the full path, which fails in `direntv6_opendir` on the regular file, only
tells it that the name does not exist yet. -/
theorem C24_entry_added_to_regular_file :
    direntv6_dirlookup ex_fs ROOT_INUMBER [47, 97, 47, 98, 47, 99] = .ret 4
    ∧ (inode_read ex_fs 4 inode_zero).1 = ERR_NONE
    ∧ (inode_read ex_fs 4 inode_zero).2.i_mode &&& IFDIR = 0
    ∧ inode_getsize (inode_read ex_fs 4 inode_zero).2 = 3
    ∧ bm_isfree ex_fs.ibm 5 = true
    ∧ (sector_data ex_fs.f 6).take 20 = [1, 2, 3] ++ List.replicate 17 0
    ∧ (direntv6_create 3 ex_fs [47, 97, 47, 98, 47, 99, 47, 120] 0).bind
        (fun r => .ret (r.1, bm_isfree r.2.ibm 5, (inode_read r.2 5 inode_zero).1))
      = .ret (5, false, ERR_NONE)
    ∧ (direntv6_create 3 ex_fs [47, 97, 47, 98, 47, 99, 47, 120] 0).bind
        (fun r => .ret (inode_getsize (inode_read r.2 4 inode_zero).2,
          (sector_data r.2.f 6).take 20))
      = .ret (19, [1, 2, 3, 120] ++ List.replicate 13 0 ++ [5, 0, 0]) := by
  decide!

/-! ## C25: the bitmaps in memory against the bitmaps of a remount -/

/-- C25, evaluation of the code at a failing input. `mountv6` on the image `ex_ind_disk`
(every sector chain holds positive sector numbers only) leaves the indirect sector 4 of the
4096-byte file inode 2 free in the sector bitmap. A successful `filev6_create` (inode 3)
followed by a successful `filev6_writebytes` of the two bytes 14 0 then takes sector 4 as the
data sector of the new file. In memory the inode bitmap marks 1, 2, 3 and the sector bitmap
marks the sectors 3 to 12; `mountv6` on the resulting image rebuilds the same inode bitmap
but a sector bitmap that marks 3, 4 and 14 only, because the chain of inode 2 now runs
through the bytes of the new file. -/
theorem C25_bitmaps_differ_from_remount :
    (mountv6 510 213 (fun _ => inode_zero) 17 ex_ind_disk).bind
        (fun m => (filev6_writebytes 2 (filev6_create m.2 0 filev6_zero).2.1
            (filev6_create m.2 0 filev6_zero).2.2 [14, 0] 2).bind
          fun w => .ret (m.1, (filev6_create m.2 0 filev6_zero).1, w.1, w.2.1.ibm.bits,
            w.2.1.fbm.bits))
      = .ret (ERR_NONE, ERR_NONE, ERR_NONE, [true, true, true] ++ List.replicate 13 false,
          List.replicate 10 true ++ [false, false, false])
    ∧ (mountv6 510 213 (fun _ => inode_zero) 17 ex_ind_disk).bind
        (fun m => (filev6_writebytes 2 (filev6_create m.2 0 filev6_zero).2.1
            (filev6_create m.2 0 filev6_zero).2.2 [14, 0] 2).bind
          fun w => (mountv6 510 213 (fun _ => inode_zero) 17 w.2.1.f).bind
            fun r => .ret (r.1, r.2.ibm.bits, r.2.fbm.bits))
      = .ret (ERR_NONE, [true, true, true] ++ List.replicate 13 false,
          [true, true] ++ List.replicate 9 false ++ [true, false]) := by
  decide!

/-! ## C26: the offset of a handle -/

/-- The four ways a `filev6_readblock` can go on a handle whose offset lies between 0 and the
size: end of file, an error, a whole sector, or the last partial sector. -/
theorem readblock_step (u : unix_filesystem) (fv : filev6) (buf : List Nat)
    (h0 : 0 ≤ fv.offset) (h1 : fv.offset ≤ (inode_getsize fv.i_node : Int)) :
    (fv.offset = (inode_getsize fv.i_node : Int) ∧ filev6_readblock u fv buf = (0, fv, buf))
    ∨ (fv.offset < (inode_getsize fv.i_node : Int) ∧ (filev6_readblock u fv buf).1 < 0
        ∧ (filev6_readblock u fv buf).2.1 = fv)
    ∨ (fv.offset + 512 ≤ (inode_getsize fv.i_node : Int) ∧ (filev6_readblock u fv buf).1 = 512
        ∧ (filev6_readblock u fv buf).2.1 = { fv with offset := fv.offset + 512 })
    ∨ (fv.offset < (inode_getsize fv.i_node : Int)
        ∧ (inode_getsize fv.i_node : Int) < fv.offset + 512
        ∧ (filev6_readblock u fv buf).1 = (inode_getsize fv.i_node : Int) - fv.offset
        ∧ (filev6_readblock u fv buf).2.1
            = { fv with offset := (inode_getsize fv.i_node : Int) }) := by
  have hs := inode_getsize_lt fv.i_node
  have hu : to_u32 fv.offset = fv.offset.toNat := by unfold to_u32; omega
  unfold filev6_readblock
  simp only []
  by_cases c0 : to_u32 fv.offset = inode_getsize fv.i_node
  · left
    rw [if_pos c0]
    exact ⟨by omega, rfl⟩
  · right
    rw [if_neg c0]
    have hlt : fv.offset < (inode_getsize fv.i_node : Int) := by omega
    by_cases c1 : inode_findsector u fv.i_node (Int.tdiv fv.offset SECTOR_SIZE) < 0
    · left
      rw [if_pos c1]
      exact ⟨hlt, c1, rfl⟩
    · rw [if_neg c1]
      cases hr : sector_read u.f
          (inode_findsector u fv.i_node (Int.tdiv fv.offset SECTOR_SIZE)).toNat with
      | none => left; exact ⟨hlt, (by decide : ERR_IO < 0), rfl⟩
      | some data =>
        right
        simp only []
        by_cases c2 : to_u32 (fv.offset + SECTOR_SIZE) ≤ inode_getsize fv.i_node
        · left
          have : to_u32 (fv.offset + SECTOR_SIZE) = (fv.offset + 512).toNat := by
            unfold to_u32; simp only [SECTOR_SIZE, Nat.cast_ofNat]; omega
          rw [if_pos c2]
          refine ⟨by omega, (by decide : to_i32 ((SECTOR_SIZE : Nat) : Int) = 512), ?_⟩
          show ({ fv with offset := to_i32 (fv.offset + ((SECTOR_SIZE : Nat) : Int)) } : filev6) = _
          have e : to_i32 (fv.offset + ((SECTOR_SIZE : Nat) : Int)) = fv.offset + 512 := by
            unfold to_i32; simp only [SECTOR_SIZE, Nat.cast_ofNat]; omega
          rw [e]
        · right
          have h3 : to_u32 (fv.offset + SECTOR_SIZE) = (fv.offset + 512).toNat := by
            unfold to_u32; simp only [SECTOR_SIZE, Nat.cast_ofNat]; omega
          have h4 : to_u32 ((inode_getsize fv.i_node : Int) - fv.offset)
              = ((inode_getsize fv.i_node : Int) - fv.offset).toNat := by
            unfold to_u32; omega
          rw [if_neg c2, h4]
          refine ⟨hlt, by omega, by show to_i32 ((_ : Nat) : Int) = _; unfold to_i32; omega, ?_⟩
          show ({ fv with offset := to_i32 (fv.offset
            + ((((inode_getsize fv.i_node : Int) - fv.offset).toNat : Nat) : Int)) } : filev6) = _
          have e : to_i32 (fv.offset
              + ((((inode_getsize fv.i_node : Int) - fv.offset).toNat : Nat) : Int))
              = (inode_getsize fv.i_node : Int) := by
            unfold to_i32; omega
          rw [e]

theorem lseek_inv (fv : filev6) (o : Int) (ho : -2 ^ 31 ≤ o ∧ o < 2 ^ 31) (h : offset_inv fv) :
    offset_inv (filev6_lseek fv o).2 ∧ (filev6_lseek fv o).2.i_node = fv.i_node := by
  have hs := inode_getsize_lt fv.i_node
  obtain ⟨k1, k2⟩ := i32_to_size_t o (inode_getsize fv.i_node) ho hs
  unfold filev6_lseek
  simp only []
  by_cases c1 : (o % 2 ^ 64).toNat = inode_getsize fv.i_node
  · rw [if_pos c1]
    have := k1.mp c1
    exact ⟨⟨by show 0 ≤ o; omega, by show o ≤ (inode_getsize fv.i_node : Int); omega,
      Or.inr this⟩, rfl⟩
  · rw [if_neg c1]
    by_cases c2 : Int.tmod o SECTOR_SIZE ≠ 0
    · rw [if_pos c2]; exact ⟨h, rfl⟩
    · rw [if_neg c2]
      by_cases c3 : o < 0 ∨ (o % 2 ^ 64).toNat > inode_getsize fv.i_node
      · rw [if_pos c3]; exact ⟨h, rfl⟩
      · rw [if_neg c3]
        have h0 : 0 ≤ o := by omega
        have h1 : o ≤ (inode_getsize fv.i_node : Int) := by
          by_contra hc
          exact c3 (Or.inr ((k2 h0).mpr (by omega)))
        refine ⟨⟨h0, h1, Or.inl ?_⟩, rfl⟩
        show ((SECTOR_SIZE : Nat) : Int) ∣ o
        exact Int.dvd_of_tmod_eq_zero (not_not.mp c2)

theorem readblock_inv (u : unix_filesystem) (fv : filev6) (buf : List Nat) (h : offset_inv fv) :
    offset_inv (filev6_readblock u fv buf).2.1
      ∧ (filev6_readblock u fv buf).2.1.i_node = fv.i_node := by
  obtain ⟨h0, h1, h2⟩ := h
  rcases readblock_step u fv buf h0 h1 with ⟨-, e⟩ | ⟨-, -, e⟩ | ⟨c, -, e⟩ | ⟨c1, c2, -, e⟩
  · rw [e]; exact ⟨⟨h0, h1, h2⟩, rfl⟩
  · rw [e]; exact ⟨⟨h0, h1, h2⟩, rfl⟩
  · rw [e]
    refine ⟨⟨by show 0 ≤ fv.offset + 512; omega, by show fv.offset + 512 ≤ _; exact c,
      Or.inl ?_⟩, rfl⟩
    show ((SECTOR_SIZE : Nat) : Int) ∣ fv.offset + 512
    rcases h2 with d | d
    · exact Int.dvd_add d (by decide)
    · omega
  · rw [e]
    exact ⟨⟨by show (0 : Int) ≤ (inode_getsize fv.i_node : Int); omega, le_refl _,
      Or.inr rfl⟩, rfl⟩

theorem file_calls_inv (u : unix_filesystem) (cs : List file_call) :
    ∀ fv : filev6, offset_inv fv →
      (∀ o, file_call.lseek o ∈ cs → -2 ^ 31 ≤ o ∧ o < 2 ^ 31) →
      offset_inv (file_calls_apply u fv cs) ∧ (file_calls_apply u fv cs).i_node = fv.i_node := by
  induction cs with
  | nil => intro fv h _; exact ⟨h, rfl⟩
  | cons c cs ih =>
    intro fv h hr
    have hstep : offset_inv (file_call_apply u fv c) ∧ (file_call_apply u fv c).i_node = fv.i_node := by
      cases c with
      | lseek o => exact lseek_inv fv o (hr o (List.mem_cons_self _ _)) h
      | readblock => exact readblock_inv u fv _ h
    obtain ⟨a, b⟩ := ih (file_call_apply u fv c) hstep.1
      (fun o ho => hr o (List.mem_cons_of_mem _ ho))
    exact ⟨a, b.trans hstep.2⟩

theorem readcount_sum (u : unix_filesystem) (fuel : Nat) :
    ∀ (fv : filev6) (total : Int), offset_inv fv →
      filev6_readcount u fuel fv = .ret (0, total) →
      total = (inode_getsize fv.i_node : Int) - fv.offset := by
  induction fuel with
  | zero => intro fv total _ h; simp [filev6_readcount] at h
  | succ n ih =>
    intro fv total hinv h
    have hinv2 := readblock_inv u fv (List.replicate SECTOR_SIZE 0) hinv
    obtain ⟨h0, h1, h2⟩ := hinv
    unfold filev6_readcount at h
    simp only [] at h
    rcases readblock_step u fv (List.replicate SECTOR_SIZE 0) h0 h1 with
      ⟨c, e⟩ | ⟨-, c, e⟩ | ⟨c, e1, e⟩ | ⟨c1, c2, e1, e⟩
    · rw [e] at h
      simp only [le_refl, if_true] at h
      have := congrArg Prod.snd (Outcome.ret.inj h)
      simp only [] at this
      omega
    · rw [if_pos (by omega)] at h
      have := congrArg Prod.fst (Outcome.ret.inj h)
      simp only [] at this
      omega
    · rw [if_neg (by omega)] at h
      cases hq : filev6_readcount u n (filev6_readblock u fv (List.replicate SECTOR_SIZE 0)).2.1 with
      | undefined => rw [hq] at h; cases h
      | nofuel => rw [hq] at h; cases h
      | ret t =>
        rw [hq, bind_ret] at h
        have ht1 : t.1 = 0 := congrArg Prod.fst (Outcome.ret.inj h)
        have ht2 : (filev6_readblock u fv (List.replicate SECTOR_SIZE 0)).1 + t.2 = total :=
          congrArg Prod.snd (Outcome.ret.inj h)
        have := ih _ t.2 hinv2.1 (by rw [hq, ← ht1])
        rw [hinv2.2, e] at this
        simp only [] at this
        omega
    · rw [if_neg (by omega)] at h
      cases hq : filev6_readcount u n (filev6_readblock u fv (List.replicate SECTOR_SIZE 0)).2.1 with
      | undefined => rw [hq] at h; cases h
      | nofuel => rw [hq] at h; cases h
      | ret t =>
        rw [hq, bind_ret] at h
        have ht1 : t.1 = 0 := congrArg Prod.fst (Outcome.ret.inj h)
        have ht2 : (filev6_readblock u fv (List.replicate SECTOR_SIZE 0)).1 + t.2 = total :=
          congrArg Prod.snd (Outcome.ret.inj h)
        have := ih _ t.2 hinv2.1 (by rw [hq, ← ht1])
        rw [hinv2.2, e] at this
        simp only [] at this
        omega

theorem readcount_returns (u : unix_filesystem) (fuel : Nat) :
    ∀ fv : filev6, offset_inv fv →
      (((inode_getsize fv.i_node : Int) - fv.offset).toNat + 511) / 512 < fuel →
      ∃ code total, filev6_readcount u fuel fv = .ret (code, total) := by
  induction fuel with
  | zero => intro fv _ h; omega
  | succ n ih =>
    intro fv hinv hf
    have hinv2 := readblock_inv u fv (List.replicate SECTOR_SIZE 0) hinv
    obtain ⟨h0, h1, h2⟩ := hinv
    unfold filev6_readcount
    simp only []
    rcases readblock_step u fv (List.replicate SECTOR_SIZE 0) h0 h1 with
      ⟨c, e⟩ | ⟨-, c, e⟩ | ⟨c, e1, e⟩ | ⟨c1, c2, e1, e⟩
    · rw [e]
      exact ⟨0, 0, by simp⟩
    · rw [if_pos (by omega)]
      exact ⟨_, _, rfl⟩
    · rw [if_neg (by omega)]
      obtain ⟨code, total, hq⟩ := ih _ hinv2.1 (by rw [hinv2.2, e]; simp only []; omega)
      rw [hq, bind_ret]
      exact ⟨_, _, rfl⟩
    · rw [if_neg (by omega)]
      obtain ⟨code, total, hq⟩ := ih _ hinv2.1 (by rw [hinv2.2, e]; simp only []; omega)
      rw [hq, bind_ret]
      exact ⟨_, _, rfl⟩

theorem filev6_open_offset (u : unix_filesystem) (inr : Nat) (fv0 fv : filev6)
    (h : filev6_open u inr fv0 = (ERR_NONE, fv)) : fv.offset = 0 := by
  unfold filev6_open at h
  simp only [] at h
  split at h
  · rename_i c
    exact absurd (congrArg Prod.fst h) c
  · have e : ({ i_number := inr, i_node := (inode_read u inr fv0.i_node).2, offset := 0 } : filev6)
        = fv := congrArg Prod.snd h
    rw [← e]

/-- C26: the offset invariant of a handle. For a handle `fv` produced by a successful
`filev6_open` and any sequence of `filev6_lseek` (with signed 32-bit offsets) and
`filev6_readblock` calls, successful or failing, the handle reached has an offset `o` with
`0 ≤ o ≤ s` that is a multiple of `SECTOR_SIZE` or equal to `s`, where `s` is the size of its
inode, which the calls leave as it was. Consecutive `filev6_readblock` calls from the opened
handle (offset 0) reach a result that is not positive within `s / SECTOR_SIZE + 2` calls, and
whenever that result is 0 the sum of the counts returned before it is `s`. -/
theorem C26_offset_invariant (u : unix_filesystem) (inr : Nat) (fv0 fv : filev6)
    (cs : List file_call) (hopen : filev6_open u inr fv0 = (ERR_NONE, fv))
    (hrange : ∀ o, file_call.lseek o ∈ cs → -2 ^ 31 ≤ o ∧ o < 2 ^ 31) :
    (0 ≤ (file_calls_apply u fv cs).offset
      ∧ (file_calls_apply u fv cs).offset ≤ (inode_getsize (file_calls_apply u fv cs).i_node : Int)
      ∧ (((SECTOR_SIZE : Nat) : Int) ∣ (file_calls_apply u fv cs).offset
        ∨ (file_calls_apply u fv cs).offset
            = (inode_getsize (file_calls_apply u fv cs).i_node : Int)))
    ∧ inode_getsize (file_calls_apply u fv cs).i_node = inode_getsize fv.i_node
    ∧ (∃ code total,
        filev6_readcount u (inode_getsize fv.i_node / SECTOR_SIZE + 2) fv = .ret (code, total))
    ∧ (∀ fuel total, filev6_readcount u fuel fv = .ret (0, total) →
        total = (inode_getsize fv.i_node : Int)) := by
  have ho := filev6_open_offset u inr fv0 fv hopen
  have hinv : offset_inv fv := by
    refine ⟨by omega, by omega, Or.inl ?_⟩
    rw [ho]
    exact dvd_zero _
  obtain ⟨a, b⟩ := file_calls_inv u cs fv hinv hrange
  refine ⟨a, by rw [b], ?_, ?_⟩
  · apply readcount_returns u _ fv hinv
    rw [ho]
    simp only [SECTOR_SIZE]
    omega
  · intro fuel total h
    have := readcount_sum u fuel fv total hinv h
    omega

/-- C26 on the example file of 3 bytes: after a seek to the end, a read, a seek to 1 (which
fails), a seek back to 0 and a read, the offset is between 0 and the size; and the counts of
the reads from offset 0, which end with the result 0, add up to the size 3. -/
theorem C26_witness :
    (0 ≤ (file_calls_apply ex_fs ex_file
        [.lseek 3, .readblock, .lseek 1, .lseek 0, .readblock]).offset
      ∧ (file_calls_apply ex_fs ex_file
        [.lseek 3, .readblock, .lseek 1, .lseek 0, .readblock]).offset
          ≤ (inode_getsize (file_calls_apply ex_fs ex_file
            [.lseek 3, .readblock, .lseek 1, .lseek 0, .readblock]).i_node : Int))
    ∧ (3 : Int) = (inode_getsize ex_file.i_node : Int) :=
  ⟨⟨(C26_offset_invariant ex_fs 4 filev6_zero ex_file
        [.lseek 3, .readblock, .lseek 1, .lseek 0, .readblock] (by decide!)
        (by intro o h; simp at h; rcases h with rfl | rfl | rfl <;> decide)).1.1,
      (C26_offset_invariant ex_fs 4 filev6_zero ex_file
        [.lseek 3, .readblock, .lseek 1, .lseek 0, .readblock] (by decide!)
        (by intro o h; simp at h; rcases h with rfl | rfl | rfl <;> decide)).1.2.1⟩,
    (C26_offset_invariant ex_fs 4 filev6_zero ex_file [] (by decide!)
      (by intro o h; simp at h)).2.2.2 2 3 (by decide!)⟩

/-! ## C27: termination of the path resolution -/

/-- One call of `direntv6_readdir` on a reader whose offset lies between 0 and the size and
whose cursor is not past `last`: either it returns no record (an error or `ERR_NONE`), or it
returns `SUCCESS` and the number of records still to come, `last - cur` in the buffer plus
those of the bytes not yet read, has gone down by one. -/
theorem readdir_progress (u : unix_filesystem) (d : directory_reader) (name : List Nat)
    (child : Nat) (h0 : 0 ≤ d.fv6.offset)
    (h1 : d.fv6.offset ≤ (inode_getsize d.fv6.i_node : Int)) (hc : d.cur ≤ d.last) :
    (direntv6_readdir u d name child).1 ≤ 0
    ∨ ((direntv6_readdir u d name child).1 = 1
      ∧ 0 ≤ (direntv6_readdir u d name child).2.1.fv6.offset
      ∧ (direntv6_readdir u d name child).2.1.fv6.offset
          ≤ (inode_getsize (direntv6_readdir u d name child).2.1.fv6.i_node : Int)
      ∧ (direntv6_readdir u d name child).2.1.fv6.i_node = d.fv6.i_node
      ∧ (direntv6_readdir u d name child).2.1.cur ≤ (direntv6_readdir u d name child).2.1.last
      ∧ ((direntv6_readdir u d name child).2.1.last - (direntv6_readdir u d name child).2.1.cur)
          + ((inode_getsize d.fv6.i_node : Int)
              - (direntv6_readdir u d name child).2.1.fv6.offset).toNat / 16 + 1
          ≤ (d.last - d.cur)
            + ((inode_getsize d.fv6.i_node : Int) - d.fv6.offset).toNat / 16) := by
  unfold direntv6_readdir
  by_cases hcl : d.cur = d.last
  · rw [if_pos hcl]
    simp only []
    rcases readblock_step u d.fv6 d.dirs h0 h1 with
      ⟨c, e⟩ | ⟨-, c, e⟩ | ⟨c, e1, e⟩ | ⟨c1, c2, e1, e⟩
    · left
      rw [e]
      simp [ERR_NONE]
    · left
      rw [if_pos c]
      exact le_of_lt c
    · right
      rw [if_neg (by omega), if_neg (by rw [e1]; decide)]
      unfold direntv6_readdir_take
      simp only [e, e1]
      refine ⟨trivial, ?_, ?_, trivial, ?_, ?_⟩
      · show 0 ≤ d.fv6.offset + 512; omega
      · show d.fv6.offset + 512 ≤ (inode_getsize d.fv6.i_node : Int); exact c
      · show (if 0 < (512 : Int).toNat / DIRENT_SIZE then 0 + 1 else 0) ≤ (512 : Int).toNat / DIRENT_SIZE
        decide
      · show ((512 : Int).toNat / DIRENT_SIZE
            - (if 0 < (512 : Int).toNat / DIRENT_SIZE then 0 + 1 else 0))
          + ((inode_getsize d.fv6.i_node : Int) - (d.fv6.offset + 512)).toNat / 16 + 1 ≤ _
        have : (512 : Int).toNat / DIRENT_SIZE
            - (if 0 < (512 : Int).toNat / DIRENT_SIZE then 0 + 1 else 0) = 31 := by decide
        rw [this]
        omega
    · by_cases hz : ((inode_getsize d.fv6.i_node : Int) - d.fv6.offset).toNat / DIRENT_SIZE = 0
      · left
        rw [if_neg (by omega), e1, if_pos hz]
      · right
        rw [if_neg (by omega), e1, if_neg hz]
        unfold direntv6_readdir_take
        simp only [e]
        have hpos : 0 < ((inode_getsize d.fv6.i_node : Int) - d.fv6.offset).toNat / DIRENT_SIZE :=
          Nat.pos_of_ne_zero hz
        simp only [DIRENT_SIZE] at hpos hz ⊢
        refine ⟨trivial, ?_, ?_, trivial, ?_, ?_⟩
        · show (0 : Int) ≤ (inode_getsize d.fv6.i_node : Int); omega
        · exact le_refl _
        · rw [if_pos hpos]; omega
        · rw [if_pos hpos]
          show _ + ((inode_getsize d.fv6.i_node : Int) - (inode_getsize d.fv6.i_node : Int)).toNat / 16
            + 1 ≤ _
          omega
  · rw [if_neg hcl]
    right
    unfold direntv6_readdir_take
    have hlt : d.cur < d.last := by omega
    simp only [hlt, if_true]
    exact ⟨trivial, h0, h1, trivial, by omega, by omega⟩

/-- The scan of a directory returns once its fuel exceeds the number of records still to
come. -/
theorem scan_returns (u : unix_filesystem) (rn : List Nat) (fuel : Nat) :
    ∀ (d : directory_reader) (name : List Nat) (child : Nat), 0 ≤ d.fv6.offset →
      d.fv6.offset ≤ (inode_getsize d.fv6.i_node : Int) → d.cur ≤ d.last →
      (d.last - d.cur) + ((inode_getsize d.fv6.i_node : Int) - d.fv6.offset).toNat / 16 < fuel →
      ∃ r, direntv6_dirlookup_scan u rn fuel d name child = .ret r := by
  induction fuel with
  | zero => intro d name child _ _ _ h; omega
  | succ n ih =>
    intro d name child h0 h1 hc hf
    unfold direntv6_dirlookup_scan
    simp only []
    rcases readdir_progress u d name child h0 h1 hc with c | ⟨c, k0, k1, k2, k3, k4⟩
    · by_cases c1 : (direntv6_readdir u d name child).1 < 0
      · rw [if_pos c1]; exact ⟨_, rfl⟩
      · rw [if_neg c1, if_neg (by intro hh; omega)]; exact ⟨_, rfl⟩
    · rw [if_neg (by omega)]
      by_cases c2 : (direntv6_readdir u d name child).1 > 0
          ∧ strncmp rn (direntv6_readdir u d name child).2.2.1 DIRENT_MAXLEN ≠ 0
      · rw [if_pos c2]
        exact ih _ _ _ k0 k1 k3 (by rw [k2]; omega)
      · rw [if_neg c2]; exact ⟨_, rfl⟩

theorem opendir_reader (u : unix_filesystem) (inr : Nat) (d0 : directory_reader)
    (h : (direntv6_opendir u inr d0).1 = ERR_NONE) :
    (direntv6_opendir u inr d0).2.fv6.offset = 0 ∧ (direntv6_opendir u inr d0).2.cur = 0
      ∧ (direntv6_opendir u inr d0).2.last = 0 := by
  unfold direntv6_opendir at h ⊢
  simp only [] at h ⊢
  by_cases c1 : (filev6_open u inr filev6_zero).1 ≠ ERR_NONE
  · rw [if_pos c1] at h; exact absurd h c1
  · rw [if_neg c1] at h ⊢
    by_cases c2 : (filev6_open u inr filev6_zero).2.i_node.i_mode &&& IFDIR = 0
    · rw [if_pos c2] at h
      have hx : ERR_INVALID_DIRECTORY_INODE = ERR_NONE := h
      exact absurd hx (by decide)
    · rw [if_neg c2]
      exact ⟨filev6_open_offset u inr filev6_zero _
        (prod_eq_of_fst _ _ (not_not.mp c1)), rfl, rfl⟩

/-- The lookup of one segment never runs out of fuel, and it returns when the segment fits
the array `repertory_name`. -/
theorem lookup_segment_returns (u : unix_filesystem) (inr : Nat) (seg : List Nat) :
    lookup_segment u inr seg ≠ .nofuel
      ∧ (seg.length ≤ DIRENT_MAXLEN + 1 → ∃ r, lookup_segment u inr seg = .ret r) := by
  unfold lookup_segment
  by_cases c0 : seg.length > DIRENT_MAXLEN + 1
  · rw [if_pos c0]
    exact ⟨fun h => (by cases h), fun h => absurd h (by omega)⟩
  · rw [if_neg c0]
    simp only []
    by_cases c1 : (direntv6_opendir u inr directory_reader_zero).1 ≠ ERR_NONE
    · rw [if_pos c1]
      exact ⟨fun h => (by cases h), fun _ => ⟨_, rfl⟩⟩
    · rw [if_neg c1]
      obtain ⟨e1, e2, e3⟩ := opendir_reader u inr directory_reader_zero (not_not.mp c1)
      obtain ⟨r, hr⟩ := scan_returns u
        (seg ++ List.replicate (DIRENT_MAXLEN + 1 - seg.length) 0)
        (inode_getsize (direntv6_opendir u inr directory_reader_zero).2.fv6.i_node
          / DIRENT_SIZE + 2)
        (direntv6_opendir u inr directory_reader_zero).2 (List.replicate DIRENT_MAXLEN 0) 0
        (by omega) (by omega) (by omega)
        (by rw [e1, e2, e3]; simp only [DIRENT_SIZE]; omega)
      rw [hr, bind_ret]
      by_cases c2 : r.1 < 0
      · rw [if_pos c2]; exact ⟨fun h => (by cases h), fun _ => ⟨_, rfl⟩⟩
      · rw [if_neg c2]
        by_cases c3 : r.1 = 0
        · rw [if_pos c3]; exact ⟨fun h => (by cases h), fun _ => ⟨_, rfl⟩⟩
        · rw [if_neg c3]; exact ⟨fun h => (by cases h), fun _ => ⟨_, rfl⟩⟩

theorem resolve_returns (u : unix_filesystem) (segs : List (List Nat)) :
    ∀ inr : Nat, resolve u inr segs ≠ .nofuel
      ∧ ((∀ s ∈ segs, s.length ≤ DIRENT_MAXLEN + 1) → ∃ r, resolve u inr segs = .ret r) := by
  induction segs with
  | nil => intro inr; exact ⟨fun h => (by cases h), fun _ => ⟨_, rfl⟩⟩
  | cons seg rest ih =>
    intro inr
    obtain ⟨a, b⟩ := lookup_segment_returns u inr seg
    unfold resolve
    cases hl : lookup_segment u inr seg with
    | nofuel => exact absurd hl a
    | undefined =>
      refine ⟨fun h => (by cases h), fun hs => ?_⟩
      obtain ⟨r, hr⟩ := b (hs seg (List.mem_cons_self _ _))
      rw [hl] at hr
      cases hr
    | ret x =>
      cases x with
      | error e => exact ⟨fun h => (by cases h), fun _ => ⟨_, rfl⟩⟩
      | ok c =>
        exact ⟨(ih c).1, fun hs => (ih c).2 (fun s hm => hs s (List.mem_cons_of_mem _ hm))⟩

/-- The recursion of `direntv6_dirlookup_core` goes one level down per segment: a fuel above
the number of segments gives the resolution. -/
theorem dirlookup_core_segments (u : unix_filesystem) :
    ∀ (fuel inr : Nat) (entry : List Nat), (segments entry).length < fuel →
      strlen entry < 2 ^ 64 →
      direntv6_dirlookup_core u fuel inr entry (strlen entry)
        = resolve u inr (segments entry) := by
  intro fuel
  induction fuel with
  | zero => intro inr entry h; omega
  | succ fuel ih =>
    intro inr entry hfuel hlen
    rw [direntv6_dirlookup_core]
    by_cases h0 : strlen entry = 0
    · rw [if_pos h0, segments_of_strlen_zero entry h0, resolve]
    · rw [if_neg h0]
      have hs := strlen_slashes entry
      by_cases h1 : strlen (entry.dropWhile (fun c => c == 47)) = 0
      · simp only [h1, if_true]
        rw [← segments_slashes entry, segments_of_strlen_zero _ h1, resolve]
      · simp only [h1, if_false]
        have hw := strlen_word (entry.dropWhile (fun c => c == 47))
        have hne := word_ne_nil entry h1
        rw [← segments_slashes entry, segments_word _ hne] at hfuel
        rw [← segments_slashes entry, segments_word _ hne, resolve, lookup_segment]
        have hpos : 0 < ((entry.dropWhile (fun c => c == 47)).takeWhile
            (fun c => c != 47 && c != 0)).length := List.length_pos.mpr hne
        rw [take_length_takeWhile, drop_length_takeWhile,
          size_t_sub_eq _ _ hlen (by omega), size_t_sub_eq _ _ (by omega) (by omega)]
        have hrest : strlen entry - (entry.takeWhile (fun c => c == 47)).length
            - ((entry.dropWhile (fun c => c == 47)).takeWhile
                (fun c => c != 47 && c != 0)).length
            = strlen ((entry.dropWhile (fun c => c == 47)).dropWhile
                (fun c => c != 47 && c != 0)) := by omega
        rw [hrest]
        by_cases hlong : ((entry.dropWhile (fun c => c == 47)).takeWhile
            (fun c => c != 47 && c != 0)).length > DIRENT_MAXLEN + 1
        · simp only [hlong, if_true]
        · simp only [hlong, if_false]
          by_cases ho : (direntv6_opendir u inr directory_reader_zero).1 ≠ ERR_NONE
          · rw [if_pos ho, if_pos ho]
          · rw [if_neg ho, if_neg ho]
            cases hscan : direntv6_dirlookup_scan u
                ((entry.dropWhile (fun c => c == 47)).takeWhile (fun c => c != 47 && c != 0)
                  ++ List.replicate (DIRENT_MAXLEN + 1
                    - ((entry.dropWhile (fun c => c == 47)).takeWhile
                        (fun c => c != 47 && c != 0)).length) 0)
                (inode_getsize (direntv6_opendir u inr directory_reader_zero).2.fv6.i_node
                  / DIRENT_SIZE + 2)
                (direntv6_opendir u inr directory_reader_zero).2
                (List.replicate DIRENT_MAXLEN 0) 0 with
            | undefined => rfl
            | nofuel => rfl
            | ret r =>
              rw [bind_ret, bind_ret]
              by_cases hr1 : r.1 < 0
              · rw [if_pos hr1, if_pos hr1]
              · rw [if_neg hr1, if_neg hr1]
                by_cases hr2 : r.1 = 0
                · rw [if_pos hr2, if_pos hr2]
                · rw [if_neg hr2, if_neg hr2]
                  rw [List.length_cons] at hfuel
                  exact ih r.2 _ (by omega) (by omega)

/-- Termination of the path resolution within defined behaviour. For every file system state, starting inode and path
(whose length fits `size_t`): `direntv6_dirlookup` never runs out of fuel, and it returns a
value when every segment fits the array `repertory_name` (a longer segment is stored past
the end of that array, where the behaviour is undefined); `direntv6_dirlookup_core` needs one
level of recursion per non-empty segment, so any depth above the number of segments gives
the result; when a recursive call is made, its remaining path is strictly shorter and the
length passed with it is the length of that remaining path; and the scan of a directory that
`direntv6_opendir` opened returns within `size / DIRENT_SIZE + 1` calls of
`direntv6_readdir`, of which at most `size / DIRENT_SIZE` return a record. -/
theorem dirlookup_terminates (u : unix_filesystem) (inr : Nat) (p : List Nat)
    (hp : strlen p < 2 ^ 64) :
    direntv6_dirlookup u inr p ≠ .nofuel
    ∧ ((∀ s ∈ segments p, s.length ≤ DIRENT_MAXLEN + 1) →
        ∃ r, direntv6_dirlookup u inr p = .ret r)
    ∧ (∀ fuel, (segments p).length + 1 ≤ fuel →
        direntv6_dirlookup_core u fuel inr p (strlen p) = direntv6_dirlookup u inr p)
    ∧ (strlen (p.dropWhile (fun c => c == 47)) ≠ 0 →
        strlen ((p.dropWhile (fun c => c == 47)).drop
            ((p.dropWhile (fun c => c == 47)).takeWhile (fun c => c != 47 && c != 0)).length)
          < strlen p
        ∧ size_t_sub (size_t_sub (strlen p) (p.takeWhile (fun c => c == 47)).length)
            ((p.dropWhile (fun c => c == 47)).takeWhile (fun c => c != 47 && c != 0)).length
          = strlen ((p.dropWhile (fun c => c == 47)).drop
            ((p.dropWhile (fun c => c == 47)).takeWhile (fun c => c != 47 && c != 0)).length))
    ∧ (∀ (dir : Nat) (repertory_name : List Nat),
        (direntv6_opendir u dir directory_reader_zero).1 = ERR_NONE →
        ∃ r, direntv6_dirlookup_scan u repertory_name
          (inode_getsize (direntv6_opendir u dir directory_reader_zero).2.fv6.i_node
            / DIRENT_SIZE + 1)
          (direntv6_opendir u dir directory_reader_zero).2 (List.replicate DIRENT_MAXLEN 0) 0
          = .ret r) := by
  have hres := dirlookup_eq_resolve u inr p hp
  obtain ⟨a, b⟩ := resolve_returns u (segments p) inr
  refine ⟨by rw [hres]; exact a, fun hs => by rw [hres]; exact b hs, ?_, ?_, ?_⟩
  · intro fuel hf
    rw [hres]
    exact dirlookup_core_segments u fuel inr p (by omega) hp
  · intro h1
    have hs := strlen_slashes p
    have hw := strlen_word (p.dropWhile (fun c => c == 47))
    have hne := word_ne_nil p h1
    have hpos : 0 < ((p.dropWhile (fun c => c == 47)).takeWhile
        (fun c => c != 47 && c != 0)).length := List.length_pos.mpr hne
    rw [drop_length_takeWhile, size_t_sub_eq _ _ hp (by omega),
      size_t_sub_eq _ _ (by omega) (by omega)]
    omega
  · intro dir rn ho
    obtain ⟨e1, e2, e3⟩ := opendir_reader u dir directory_reader_zero ho
    exact scan_returns u rn _ _ _ _ (by omega) (by omega) (by omega)
      (by rw [e1, e2, e3]; simp only [DIRENT_SIZE]; omega)

/-- On the example image: the resolution of `/a/b/c` from the root does not run out of
fuel, and a recursion depth of 4, one above its three segments, gives its result. -/
theorem dirlookup_terminates_example :
    direntv6_dirlookup ex_fs ROOT_INUMBER [47, 97, 47, 98, 47, 99] ≠ .nofuel
    ∧ direntv6_dirlookup_core ex_fs 4 ROOT_INUMBER [47, 97, 47, 98, 47, 99]
        (strlen [47, 97, 47, 98, 47, 99])
      = direntv6_dirlookup ex_fs ROOT_INUMBER [47, 97, 47, 98, 47, 99] :=
  ⟨(dirlookup_terminates ex_fs ROOT_INUMBER [47, 97, 47, 98, 47, 99]
      (by decide)).1,
    (dirlookup_terminates ex_fs ROOT_INUMBER [47, 97, 47, 98, 47, 99]
      (by decide)).2.2.1 4 (by decide)⟩

/-- C27, evaluation of the code at a failing input. The path `xxxxxxxxxxxxxxxx` is one
segment of 16 characters. `direntv6_dirlookup_core` copies a segment into
`char repertory_name[DIRENT_MAXLEN+1]` character by character with no test of its length,
so the sixteenth character is stored past the end of the array: on the image `ex_fs`, from
the root, the resolution leaves defined behaviour at its first level, whatever the depth
allowed, and nothing guarantees that it terminates. The segment-length check that
`direntv6_dirlookup_core` lacks is the defect met in C6. -/
theorem C27_long_segment_overflows :
    segments (List.replicate 16 120) = [List.replicate 16 120]
    ∧ strlen (List.replicate 16 120) = 16
    ∧ direntv6_dirlookup ex_fs ROOT_INUMBER (List.replicate 16 120) = .undefined
    ∧ ∀ fuel, direntv6_dirlookup_core ex_fs (fuel + 1) ROOT_INUMBER (List.replicate 16 120) 16
        = .undefined := by
  refine ⟨by decide, by decide, by decide!, fun fuel => ?_⟩
  rw [direntv6_dirlookup_core, if_neg (by decide)]
  simp only []
  rw [if_neg (by decide), if_pos (by decide)]

/-! ## C28: the byte count of `fs_read` -/

/-- C28, evaluation of the code at a failing input. On the image `ex_fs` the path `/a/b/c`
resolves to the regular file inode 4 of 3 bytes, and the offset 0 is accepted by
`filev6_lseek`. `fs_read` with the requested length `size = 1` returns 3 and has stored the
whole sector of 512 bytes into the caller's buffer: the loop tests `l < size` only after
`filev6_readblock` has stored a sector and its count has been added to `l`. -/
theorem C28_read_returns_more_than_size :
    direntv6_dirlookup ex_fs ROOT_INUMBER [47, 97, 47, 98, 47, 99] = .ret 4
    ∧ (inode_read ex_fs 4 inode_zero).2.i_mode &&& IFDIR = 0
    ∧ (filev6_lseek (filev6_open ex_fs 4 filev6_zero).2 0).1 = ERR_NONE
    ∧ (fs_read 2 ex_fs filev6_zero [47, 97, 47, 98, 47, 99] 1 0).bind
        (fun r => .ret (r.1, r.2.length, r.2.take 4)) = .ret (3, 512, [1, 2, 3, 0]) := by
  decide!

end U6fs
